import Mathlib

/-!
# Liftoff baseline compiler (src/wasm/baseline/liftoff-compiler.cc)

A shallow embedding of `LiftoffCompiler`, the per-opcode visitor of the wasm
baseline compiler, together with the parts of `LiftoffAssembler` it calls.

* The handlers (`unsupported`, `BindUnboundLabels`, `CheckStackSizeLimit`,
  `I32Const`, `GetLocal`, `SetLocal`, `BinOp`, `DoReturn`, ...) are translated
  from `liftoff-compiler.cc`.
* `liftoff-assembler.h` is not part of the sources at hand.  The assembler
  operations (`PushRegister`, `GetUnusedRegister`, `DropStackSlot`, ...) are
  modelled from the specification; each such definition says so.
* Emitted native instructions are recorded, in order, in the field `code`.
* `DCHECK`s are assertions about the inputs a handler expects.  They are
  recorded in comments and are not modelled as behaviour.
* Reading a vector out of range (`stack_state[i]`, `back()` of an empty vector,
  `control_at(i)`) and `UNIMPLEMENTED()` have no defined result: the embedding
  returns `none` there.
-/

namespace Liftoff

/-! ## Data model -/

/-- Machine register, identified by its register code. -/
abbrev Register := Nat

/-- Wasm value types (`ValueType`). -/
inductive ValueType where
  | kWasmI32
  | kWasmI64
  | kWasmF32
  | kWasmF64
  | kWasmS128
  deriving DecidableEq, Repr

/-- The opcodes `BinOp` distinguishes; every other opcode is `other`, carrying
the name `WasmOpcodes::OpcodeName` gives it. -/
inductive WasmOpcode where
  | kExprI32Add
  | kExprI32Sub
  | kExprI32Mul
  | kExprI32And
  | kExprI32Ior
  | kExprI32Xor
  | other (opcodeName : String)
  deriving DecidableEq, Repr

/-- `LiftoffAssembler::VarState`: one slot of the cache state.  `kStack` is a
spilled slot (its value lives in the frame slot of its own index), `kRegister`
holds a register, `kConstant` a 32-bit literal. -/
inductive VarState where
  | kStack
  | kRegister (reg : Register)
  | kConstant (i32_const : Int)
  deriving DecidableEq, Repr

/-- `LiftoffAssembler::CacheState`: the slots (locals first, then the operand
stack), the register use table and `stack_base`. -/
structure CacheState where
  stack_state : List VarState := []
  register_use_count : Register → Nat := fun _ => 0
  stack_base : Nat := 0

/-- `CacheState::stack_height()`. -/
def CacheState.stack_height (cs : CacheState) : Nat := cs.stack_state.length

/-- Labels of the emitted code: the label of a control construct (by the
identity of the construct) or the local label `cont_false` of `BrIf`. -/
inductive LabelId where
  | control (id : Nat)
  | cont_false
  deriving DecidableEq, Repr

/-- Arithmetic instructions of the backend (`emit_i32_add` ...). -/
inductive ArithOp where
  | i32_add
  | i32_sub
  | i32_mul
  | i32_and
  | i32_or
  | i32_xor
  deriving DecidableEq, Repr

/-- What the code generator hands to the assembler backend, in order: native
instructions, and the binding of a label (which emits no instruction). -/
inductive Instr where
  | bind (l : LabelId)
  | jmp (l : LabelId)
  | JumpIfZero (reg : Register) (l : LabelId)
  | Fill (reg : Register) (index : Nat)
  | Spill (index : Nat) (reg : Register)
  | SpillConstant (index : Nat) (value : Int)
  | LoadConstant (reg : Register) (value : Int)
  | Move (dst src : Register)
  | arith (op : ArithOp) (dst lhs rhs : Register)
  | MoveToReturnRegister (reg : Register)
  | EnterFrame
  | ReserveStackSpace (bytes : Nat)
  | LoadCallerFrameSlot (reg : Register) (offset : Int)
  | LeaveFrame
  | Ret
  deriving DecidableEq, Repr

/-- Whether the entry is a native instruction; binding a label is none. -/
def Instr.is_native : Instr → Bool
  | .bind _ => false
  | _ => true

/-- State of a `Label`: `is_bound()`. -/
structure Label where
  id : Nat
  is_bound : Bool := false
  deriving DecidableEq, Repr

/-- State of a `Merge` of the decoder: arity and whether it has been reached. -/
structure Merge where
  arity : Nat := 0
  reached : Bool := false
  deriving DecidableEq, Repr

/-- `LiftoffCompiler::Control`: the decoder's control construct, extended with
`label_state` and `label`. -/
structure Control where
  is_loop : Bool := false
  start_merge : Merge := {}
  end_merge : Merge := {}
  label_state : CacheState := {}
  label : Label

/-- `Control::br_merge()`: a branch to a loop targets its start, a branch to a
block its end. -/
def Control.br_merge (c : Control) : Merge :=
  if c.is_loop then c.start_merge else c.end_merge

/-- Location of a parameter in the call descriptor (`LinkageLocation`). -/
inductive LinkageLocation where
  | register (code : Nat)
  | callerFrameSlot (slot : Int)
  | other
  deriving DecidableEq, Repr

/-- What is fixed for one compilation: the build (`DEBUG`), the platform, the
register file of the assembler, the call descriptor and the decoder's local
types. -/
structure Config where
  /-- Whether the build defines `DEBUG`. -/
  DEBUG : Bool
  /-- Value of `kLiftoffAssemblerImplementedOnThisPlatform`. -/
  kLiftoffAssemblerImplementedOnThisPlatform : Bool := true
  /-- The cache registers `kGpCacheRegs`, in the order they are scanned. -/
  kGpCacheRegs : List Register
  /-- Value of `kPointerSize`. -/
  kPointerSize : Nat := 8
  /-- Result of `call_desc_->ParameterCount()`. -/
  ParameterCount : Nat := 1
  /-- Result of `call_desc_->GetInputLocation(i)`. -/
  GetInputLocation : Nat → LinkageLocation := fun _ => .other
  /-- The decoder's locals: `NumLocals()` is the length, `GetLocalType(i)` the
  entry at `i`. -/
  decoderLocals : List ValueType := []

/-- State of one function compilation: the members of `LiftoffCompiler` and of
the assembler it drives, and the decoder's control stack (`control_at(0)` is
the head of `control`). -/
structure State where
  ok_ : Bool := true
  cache_state : CacheState := {}
  num_locals : Nat := 0
  /-- The assembler's local types: `local_type(i)`. -/
  local_type : Nat → ValueType := fun _ => .kWasmI32
  control : List Control := []
  /-- Native instructions emitted so far, oldest first. -/
  code : List Instr := []
  /-- The reasons handed to `decoder->errorf`, oldest first. -/
  errors : List String := []

/-- `kMaxValueStackHeight`. -/
def kMaxValueStackHeight : Nat := 8

/-! ## The assembler: cache state, location allocator, merge resolver -/

/-- Append one native instruction to the emitted code. -/
def State.emit (s : State) (i : Instr) : State :=
  { s with code := s.code ++ [i] }

/-- Modelled from the spec: `CacheState::inc_used` of the absent
liftoff-assembler.h; one more slot aliases `reg`. -/
def CacheState.inc_used (cs : CacheState) (reg : Register) : CacheState :=
  { cs with register_use_count :=
      Function.update cs.register_use_count reg (cs.register_use_count reg + 1) }

/-- Modelled from the spec: `CacheState::dec_used` of the absent
liftoff-assembler.h; one slot less aliases `reg`. -/
def CacheState.dec_used (cs : CacheState) (reg : Register) : CacheState :=
  { cs with register_use_count :=
      Function.update cs.register_use_count reg (cs.register_use_count reg - 1) }

/-- The source's `stack_state.emplace_back(...)`: append a slot on top. -/
def CacheState.emplace_back (cs : CacheState) (slot : VarState) : CacheState :=
  { cs with stack_state := cs.stack_state ++ [slot] }

/-- The source's `stack_state.pop_back()`: remove the top slot. -/
def CacheState.pop_back (cs : CacheState) : CacheState :=
  { cs with stack_state := cs.stack_state.dropLast }

/-- Assignment to the slot at `index` (`stack_state[index] = slot`). -/
def CacheState.set_slot (cs : CacheState) (index : Nat) (slot : VarState) : CacheState :=
  { cs with stack_state := cs.stack_state.set index slot }

/-- Modelled from the spec: `LiftoffAssembler::PushRegister` of the absent
liftoff-assembler.h (spec 4.1 push_register: append a new top-of-stack slot and
increment the register's use count). -/
def PushRegister (s : State) (reg : Register) : State :=
  { s with cache_state := (s.cache_state.inc_used reg).emplace_back (.kRegister reg) }

/-- Modelled from the spec: `LiftoffAssembler::DropStackSlot` of the absent
liftoff-assembler.h (spec 4.1 pop: decrement the register use count if the slot
was a register alias; spec 4.4: free whatever the local previously held). -/
def DropStackSlot (cs : CacheState) (slot : VarState) : CacheState :=
  match slot with
  | .kRegister reg => cs.dec_used reg
  | _ => cs

/-- Modelled from the spec: `LiftoffAssembler::Fill` of the absent
liftoff-assembler.h (spec 4.1 fill: load a spilled slot into `reg`, exactly
one native memory access). -/
def Fill (s : State) (reg : Register) (index : Nat) : State :=
  s.emit (.Fill reg index)

/-- Modelled from the spec: `LiftoffAssembler::Spill` of the absent
liftoff-assembler.h (spec 4.1 spill: store a register to the frame slot of
`index`, exactly one native memory access). -/
def Spill (s : State) (index : Nat) (reg : Register) : State :=
  s.emit (.Spill index reg)

/-- The stores that persist every slot aliasing `reg`, each to the frame slot
of its own index; `i` is the index of the first slot of the list. -/
def spillCode (reg : Register) : Nat → List VarState → List Instr
  | _, [] => []
  | i, slot :: rest =>
    (if slot = .kRegister reg then [Instr.Spill i reg] else []) ++ spillCode reg (i + 1) rest

/-- The slots after every slot aliasing `reg` has been spilled. -/
def spillSlots (reg : Register) (slots : List VarState) : List VarState :=
  slots.map fun slot => if slot = .kRegister reg then .kStack else slot

/-- The register of the first register-resident slot of `slots` whose register
is not pinned. -/
def firstUnpinned (pinned : List Register) : List VarState → Option Register
  | [] => none
  | .kRegister reg :: rest =>
    if pinned.contains reg then firstUnpinned pinned rest else some reg
  | _ :: rest => firstUnpinned pinned rest

/-- Modelled from the spec: the spill victim of the absent liftoff-assembler
(spec 4.2: the oldest stack-bound occurrence, closest to the bottom of the
operand stack, of a register that is not pinned; the locals below it are
taken only when the operand stack offers none). -/
def spillVictim (s : State) (pinned : List Register) : Option Register :=
  match firstUnpinned pinned (s.cache_state.stack_state.drop s.num_locals) with
  | some reg => some reg
  | none => firstUnpinned pinned (s.cache_state.stack_state.take s.num_locals)

/-- Modelled from the spec: `LiftoffAssembler::SpillRegister` of the absent
liftoff-assembler (spec 4.2 and 3): the victim register is freed by
persisting every slot that aliases it, so that the register handed out is
referenced by no slot and its use count is zero.  `none` is the spec's
`OutOfRegisters` (every candidate pinned). -/
def SpillRegister (s : State) (pinned : List Register) : Option (Register × State) :=
  match spillVictim s pinned with
  | none => none
  | some reg =>
    some (reg,
      { s with
        code := s.code ++ spillCode reg 0 s.cache_state.stack_state
        cache_state :=
          { s.cache_state with
            stack_state := spillSlots reg s.cache_state.stack_state
            register_use_count := Function.update s.cache_state.register_use_count reg 0 } })

/-- Modelled from the spec: `LiftoffAssembler::GetUnusedRegister` of the absent
liftoff-assembler.h (spec 4.2 get_unused_register): scan the register file for
a register with use count zero that is not pinned; if there is none, spill.
The model has the one register class of i32 values, so `type` is not looked
at. -/
def GetUnusedRegister (cfg : Config) (s : State) (_type : ValueType)
    (pinned : List Register) : Option (Register × State) :=
  match cfg.kGpCacheRegs.find?
      (fun reg => s.cache_state.register_use_count reg == 0 && !pinned.contains reg) with
  | some reg => some (reg, s)
  | none => SpillRegister s pinned

/-- Modelled from the spec: `LiftoffAssembler::PopToRegister` of the absent
liftoff-assembler.h (spec 4.1 pop, 4.4 constant push): remove the top slot and
hand out a register holding its value; a register slot gives its register
(use count decremented), a constant is materialised and a spilled slot is
filled into an unused register. -/
def PopToRegister (cfg : Config) (s : State) (type : ValueType)
    (pinned : List Register) : Option (Register × State) :=
  match s.cache_state.stack_state.getLast? with
  | none => none
  | some (.kRegister reg) =>
    some (reg, { s with cache_state := (s.cache_state.dec_used reg).pop_back })
  | some (.kConstant value) =>
    match GetUnusedRegister cfg { s with cache_state := s.cache_state.pop_back } type pinned with
    | none => none
    | some (reg, s1) => some (reg, s1.emit (.LoadConstant reg value))
  | some .kStack =>
    match GetUnusedRegister cfg { s with cache_state := s.cache_state.pop_back } type pinned with
    | none => none
    | some (reg, s1) => some (reg, Fill s1 reg (s.cache_state.stack_height - 1))

/-- The register of an operand slot that no other slot aliases. -/
def reusableOperand (cs : CacheState) : Option VarState → Option Register
  | some (.kRegister reg) => if cs.register_use_count reg == 1 then some reg else none
  | _ => none

/-- Modelled from the spec: `LiftoffAssembler::GetBinaryOpTargetRegister` of
the absent liftoff-assembler.h (spec 4.4: the destination may coincide with an
operand's register when that operand is about to be consumed, that is when the
operand is the only slot aliasing the register; otherwise an unused register
is allocated). -/
def GetBinaryOpTargetRegister (cfg : Config) (s : State) (type : ValueType)
    (pinned : List Register) : Option (Register × State) :=
  match reusableOperand s.cache_state s.cache_state.stack_state.getLast? with
  | some reg => some (reg, s)
  | none =>
    match reusableOperand s.cache_state s.cache_state.stack_state.dropLast.getLast? with
    | some reg => some (reg, s)
    | none => GetUnusedRegister cfg s type pinned

/-- One local of `SpillLocals`: the cache state once the slot has been
persisted, and the store emitted for it. -/
def spillLocal (cs : CacheState) (index : Nat) : CacheState × List Instr :=
  match cs.stack_state[index]? with
  | some (.kRegister reg) =>
    ((cs.dec_used reg).set_slot index .kStack, [Instr.Spill index reg])
  | some (.kConstant value) =>
    (cs.set_slot index .kStack, [Instr.SpillConstant index value])
  | _ => (cs, [])

/-- The loop of `SpillLocals` over the locals `index, index+1, ...` (`n` of
them). -/
def spillLocalsFrom (cs : CacheState) (index : Nat) : Nat → CacheState × List Instr
  | 0 => (cs, [])
  | n + 1 =>
    let r := spillLocal cs index
    let r2 := spillLocalsFrom r.1 (index + 1) n
    (r2.1, r.2 ++ r2.2)

/-- Modelled from the spec: `LiftoffAssembler::SpillLocals` of the absent
liftoff-assembler (spec 4.3: all locals are forced to be spilled before a loop
is entered; a register-held local is stored and its register released, a
constant local is stored as a literal). -/
def SpillLocals (s : State) : State :=
  let r := spillLocalsFrom s.cache_state 0 s.num_locals
  { s with cache_state := r.1, code := s.code ++ r.2 }

/-- Modelled from the spec: `CacheState::Steal` of the absent
liftoff-assembler (spec 4.1 steal: replace this cache state wholesale with the
other's contents, no emission). -/
def CacheState.Steal (_self source : CacheState) : CacheState := source

/-- Modelled from the spec: `CacheState::Split` of the absent
liftoff-assembler (spec 4.1 split: copy, not move; spec 4.3: the expected cache
state of a merge target is a copy of the current ambient state).  Like `Steal`
it is an assignment of the whole cache state, `stack_base` included. -/
def CacheState.Split (_self source : CacheState) : CacheState := source

/-- Modelled from the spec: `CacheState::InitMerge` of the absent
liftoff-assembler (spec 4.3, establishing a merge target: the first predecessor
fixes the expected shape as a copy of the ambient state; branch and
fallthrough go through the same join logic). -/
def CacheState.InitMerge (self source : CacheState) (_num_locals _arity : Nat) : CacheState :=
  self.Split source

/-- Corrective action for one slot position when joining an established
target (spec 4.3): store, load, move or materialise so that the value sits
where the target expects it. -/
def mergeSlot (index : Nat) (ambient target : VarState) : List Instr :=
  match target, ambient with
  | .kStack, .kRegister reg => [.Spill index reg]
  | .kStack, .kConstant value => [.SpillConstant index value]
  | .kRegister dst, .kRegister src => if dst = src then [] else [.Move dst src]
  | .kRegister dst, .kStack => [.Fill dst index]
  | .kRegister dst, .kConstant value => [.LoadConstant dst value]
  | _, _ => []

/-- Corrective actions for the slot positions `index, index+1, ...`. -/
def mergeCode : Nat → List VarState → List VarState → List Instr
  | index, a :: ambient, t :: target => mergeSlot index a t ++ mergeCode (index + 1) ambient target
  | _, _, _ => []

/-- Modelled from the spec: `LiftoffAssembler::MergeFullStackWith` of the
absent liftoff-assembler (spec 4.3, joining an established target): emit the
corrective actions slot by slot.  The code generator's own cache state is
bookkeeping of the path being compiled and is not rewritten. -/
def MergeFullStackWith (s : State) (target : CacheState) : State :=
  { s with code := s.code ++ mergeCode 0 s.cache_state.stack_state target.stack_state }

/-- Modelled from the spec: `LiftoffAssembler::MergeStackWith` of the absent
liftoff-assembler (spec 4.3: branches and fallthrough share the join
logic). -/
def MergeStackWith (s : State) (target : CacheState) (_arity : Nat) : State :=
  MergeFullStackWith s target

/-- Replace the control construct at depth `depth` (`*control_at(depth) = c`). -/
def State.set_control (s : State) (depth : Nat) (c : Control) : State :=
  { s with control := s.control.set depth c }

/-- The assembler's `bind(label)` on the label of the control at `depth`: the
label becomes bound and the binding is recorded in the code. -/
def bind_control (s : State) (depth : Nat) (c : Control) : State :=
  (s.set_control depth { c with label := { c.label with is_bound := true } }).emit
    (.bind (.control c.label.id))

/-! ## The code generator: liftoff-compiler.cc -/

/-- `LiftoffCompiler::ok`. -/
def ok (s : State) : Bool := s.ok_

/-- The loop of `BindUnboundLabels` over `control_at(depth)`, `control_at(depth+1)`, ...
until `control_depth()`; `fuel` is the number of constructs still to visit. -/
def BindUnboundLabels.loop (s : State) (depth : Nat) : Nat → State
  | 0 => s
  | fuel + 1 =>
    match s.control[depth]? with
    | none => s
    | some c =>
      BindUnboundLabels.loop (if !c.label.is_bound then bind_control s depth c else s)
        (depth + 1) fuel

/-- `LiftoffCompiler::BindUnboundLabels`: without `DEBUG` the function returns
at once; with `DEBUG` it binds every label that is not bound yet. -/
def BindUnboundLabels (cfg : Config) (s : State) : State :=
  if !cfg.DEBUG then s
  else BindUnboundLabels.loop s 0 s.control.length

/-- `LiftoffCompiler::unsupported`. -/
def unsupported (cfg : Config) (s : State) (reason : String) : State :=
  BindUnboundLabels cfg { s with ok_ := false, errors := s.errors ++ [reason] }

/-- `LiftoffCompiler::CheckStackSizeLimit`. -/
def CheckStackSizeLimit (cfg : Config) (s : State) : State :=
  -- DCHECK_GE(stack_height(), num_locals())
  let stack_height : Int := (s.cache_state.stack_height : Int) - (s.num_locals : Int)
  if stack_height > (kMaxValueStackHeight : Int) then
    unsupported cfg s "value stack grows too large"
  else s

/-- The loop of `StartFunction` storing the decoder's local types. -/
def set_local_types (local_type : Nat → ValueType) (index : Nat) :
    List ValueType → Nat → ValueType
  | [] => local_type
  | t :: rest => set_local_types (Function.update local_type index t) (index + 1) rest

/-- `LiftoffCompiler::StartFunction`. -/
def StartFunction (cfg : Config) (s : State) : State :=
  if !cfg.kLiftoffAssemblerImplementedOnThisPlatform then
    unsupported cfg s "platform"
  else
    { s with num_locals := cfg.decoderLocals.length
             local_type := set_local_types s.local_type 0 cfg.decoderLocals }

/-- First loop of `StartFunctionBody`: is some local `index, index+1, ...`
(`n` of them) not an i32. -/
def has_non_i32_local (local_type : Nat → ValueType) (index : Nat) : Nat → Bool
  | 0 => false
  | n + 1 =>
    if local_type index != .kWasmI32 then true
    else has_non_i32_local local_type (index + 1) n

/-- Second loop of `StartFunctionBody`: the parameters `param_idx, ...` (`n` of
them) are taken from where the call descriptor puts them. -/
def push_params (cfg : Config) (s : State) (param_idx : Nat) : Nat → Option State
  | 0 => some s
  | n + 1 =>
    -- kParameterStartInInputs = kFirstActualParameterIndex + 1 = 2
    match cfg.GetInputLocation (param_idx + 2) with
    | .register code =>
      if cfg.kGpCacheRegs.contains code then
        push_params cfg (PushRegister s code) (param_idx + 1) n
      else
        push_params cfg
          { Spill s param_idx code with
            cache_state := (Spill s param_idx code).cache_state.emplace_back .kStack }
          (param_idx + 1) n
    | .callerFrameSlot slot =>
      match GetUnusedRegister cfg s (s.local_type param_idx) [] with
      | none => none
      | some (tmp_reg, s1) =>
        push_params cfg (PushRegister (s1.emit (.LoadCallerFrameSlot tmp_reg (-slot))) tmp_reg)
          (param_idx + 1) n
    | .other => none -- UNIMPLEMENTED()

/-- Third loop of `StartFunctionBody`: the declared locals `param_idx, ...`
(`n` of them) start as the constant zero. -/
def push_locals (cfg : Config) (s : State) (param_idx : Nat) : Nat → Option State
  | 0 => some s
  | n + 1 =>
    match cfg.decoderLocals[param_idx]? with
    | some .kWasmI32 =>
      push_locals cfg { s with cache_state := s.cache_state.emplace_back (.kConstant 0) }
        (param_idx + 1) n
    | _ => none -- UNIMPLEMENTED()

/-- The `num_params` of `StartFunctionBody`: the parameter count without the
wasm context (kFirstActualParameterIndex = 1), in uint32_t arithmetic. -/
def StartFunctionBody.num_params (cfg : Config) : Nat :=
  if cfg.ParameterCount % 2 ^ 32 = 0 then 2 ^ 32 - 1 else cfg.ParameterCount % 2 ^ 32 - 1

/-- `LiftoffCompiler::StartFunctionBody`; `block` is `control_at(0)`. -/
def StartFunctionBody (cfg : Config) (s : State) : Option State :=
  let s1 := (s.emit .EnterFrame).emit
    (.ReserveStackSpace (cfg.kPointerSize * (s.num_locals + kMaxValueStackHeight)))
  let num_params := StartFunctionBody.num_params cfg
  if has_non_i32_local s1.local_type 0 s1.num_locals then
    some (unsupported cfg s1 "non-i32 param/local")
  else
    match push_params cfg s1 0 num_params with
    | none => none
    | some s2 =>
      match push_locals cfg s2 num_params (s2.num_locals - num_params) with
      | none => none
      | some s3 =>
        match s3.control[0]? with
        | none => none
        | some block =>
          -- DCHECK_EQ(num_locals(), param_idx); DCHECK_EQ(num_locals(), stack_height())
          some (CheckStackSizeLimit cfg
            (s3.set_control 0
              { block with label_state := { block.label_state with stack_base := s3.num_locals } }))

/-- `LiftoffCompiler::FinishFunction`. -/
def FinishFunction (_cfg : Config) (s : State) : State := s

/-- `LiftoffCompiler::OnFirstError`. -/
def OnFirstError (cfg : Config) (s : State) : State :=
  BindUnboundLabels cfg { s with ok_ := false }

/-- `LiftoffCompiler::Block`, called for blocks and loops; `new_block` is
`control_at(0)` (DCHECK_EQ(new_block, decoder->control_at(0))). -/
def Block (_cfg : Config) (s : State) : Option State :=
  match s.control[0]? with
  | none => none
  | some new_block =>
    let b1 : Control :=
      { new_block with
        label_state := { new_block.label_state with stack_base := s.cache_state.stack_height } }
    let s1 := s.set_control 0 b1
    if b1.is_loop then
      let s2 := SpillLocals s1
      let s3 := bind_control s2 0 b1
      let b3 : Control := { b1 with label := { b1.label with is_bound := true } }
      some (s3.set_control 0 { b3 with label_state := b3.label_state.Split s3.cache_state })
    else some s1

/-- `LiftoffCompiler::Loop`. -/
def Loop (cfg : Config) (s : State) : Option State := Block cfg s

/-- `LiftoffCompiler::Try`. -/
def Try (cfg : Config) (s : State) : State := unsupported cfg s "try"

/-- `LiftoffCompiler::If`. -/
def If (cfg : Config) (s : State) : State := unsupported cfg s "if"

/-- `LiftoffCompiler::FallThruTo`; `c` is `control_at(depth)`. -/
def FallThruTo (_cfg : Config) (s : State) (depth : Nat) : Option State :=
  match s.control[depth]? with
  | none => none
  | some c =>
    if c.end_merge.reached then some (MergeFullStackWith s c.label_state)
    else some (s.set_control depth { c with label_state := c.label_state.Split s.cache_state })

/-- `LiftoffCompiler::PopControl`; `c` is `control_at(depth)`. -/
def PopControl (_cfg : Config) (s : State) (depth : Nat) : Option State :=
  match s.control[depth]? with
  | none => none
  | some c =>
    let s1 :=
      if !c.is_loop && c.end_merge.reached then
        { s with cache_state := s.cache_state.Steal c.label_state }
      else s
    if !c.label.is_bound then some (bind_control s1 depth c) else some s1

/-- `LiftoffCompiler::EndControl`. -/
def EndControl (_cfg : Config) (s : State) : State := s

/-- `LiftoffCompiler::UnOp`. -/
def UnOp (cfg : Config) (s : State) : State := unsupported cfg s "unary operation"

/-- The `switch` of `BinOp`: the backend instruction of a supported opcode. -/
def emit_fn : WasmOpcode → Option ArithOp
  | .kExprI32Add => some .i32_add
  | .kExprI32Sub => some .i32_sub
  | .kExprI32Mul => some .i32_mul
  | .kExprI32And => some .i32_and
  | .kExprI32Ior => some .i32_or
  | .kExprI32Xor => some .i32_xor
  | .other _ => none

/-- `WasmOpcodes::OpcodeName` on the opcodes `BinOp` does not support. -/
def OpcodeName : WasmOpcode → String
  | .other opcodeName => opcodeName
  | _ => ""

/-- `LiftoffCompiler::BinOp`. -/
def BinOp (cfg : Config) (s : State) (opcode : WasmOpcode) : Option State :=
  match emit_fn opcode with
  | none => some (unsupported cfg s (OpcodeName opcode))
  | some fn =>
    match GetBinaryOpTargetRegister cfg s .kWasmI32 [] with
    | none => none
    | some (target_reg, s1) =>
      -- pinned_regs.pin(target_reg)
      match PopToRegister cfg s1 .kWasmI32 [target_reg] with
      | none => none
      | some (rhs_reg, s2) =>
        -- pinned_regs.pin(rhs_reg)
        match PopToRegister cfg s2 .kWasmI32 [rhs_reg, target_reg] with
        | none => none
        | some (lhs_reg, s3) =>
          some (PushRegister (s3.emit (.arith fn target_reg lhs_reg rhs_reg)) target_reg)

/-- `LiftoffCompiler::I32Const`. -/
def I32Const (cfg : Config) (s : State) (value : Int) : State :=
  CheckStackSizeLimit cfg
    { s with cache_state := s.cache_state.emplace_back (.kConstant value) }

/-- `LiftoffCompiler::I64Const`. -/
def I64Const (cfg : Config) (s : State) (_value : Int) : State :=
  unsupported cfg s "i64.const"

/-- `LiftoffCompiler::F32Const`; the float operand is not looked at. -/
def F32Const (cfg : Config) (s : State) : State := unsupported cfg s "f32.const"

/-- `LiftoffCompiler::F64Const`; the double operand is not looked at. -/
def F64Const (cfg : Config) (s : State) : State := unsupported cfg s "f64.const"

/-- `LiftoffCompiler::Drop`. -/
def Drop (_cfg : Config) (s : State) : Option State :=
  match s.cache_state.stack_state.getLast? with
  | none => none
  | some slot => some { s with cache_state := (DropStackSlot s.cache_state slot).pop_back }

/-- `LiftoffCompiler::DoReturn`; `values` is `values.size()`. -/
def DoReturn (cfg : Config) (s : State) (values : Nat) (implicit : Bool) : Option State :=
  let entry : Option State :=
    if implicit then
      -- DCHECK_EQ(1, decoder->control_depth())
      match s.control[0]? with
      | none => none
      | some func_block =>
        let s1 := bind_control s 0 func_block
        some { s1 with cache_state := s1.cache_state.Steal func_block.label_state }
    else some s
  match entry with
  | none => none
  | some s1 =>
    let moved : Option State :=
      if values != 0 then
        let s2 := if values > 1 then unsupported cfg s1 "multi-return" else s1
        -- DCHECK_EQ(kWasmI32, values[0].type)
        match PopToRegister cfg s2 .kWasmI32 [] with
        | none => none
        | some (reg, s3) => some (s3.emit (.MoveToReturnRegister reg))
      else some s1
    match moved with
    | none => none
    | some s4 => some ((s4.emit .LeaveFrame).emit .Ret)

/-- `LiftoffCompiler::GetLocal`; `index` is `operand.index`. -/
def GetLocal (cfg : Config) (s : State) (index : Nat) : Option State :=
  match s.cache_state.stack_state[index]? with
  | none => none
  | some (.kRegister reg) => some (CheckStackSizeLimit cfg (PushRegister s reg))
  | some (.kConstant i32_const) =>
    some (CheckStackSizeLimit cfg
      { s with cache_state := s.cache_state.emplace_back (.kConstant i32_const) })
  | some .kStack =>
    match GetUnusedRegister cfg s (s.local_type index) [] with
    | none => none
    | some (reg, s1) => some (CheckStackSizeLimit cfg (PushRegister (Fill s1 reg index) reg))

/-- The `kConstant`/`kStack` target case of `SetLocal` with a spilled source
(also reached by fall-through from `kRegister`): the value is filled into a
new register. -/
def SetLocal.use_new_register (cfg : Config) (s : State) (local_index : Nat) : Option State :=
  match GetUnusedRegister cfg s (s.local_type local_index) [] with
  | none => none
  | some (target_reg, s1) =>
    let s2 := Fill s1 target_reg (s1.cache_state.stack_height - 1)
    some { s2 with
      cache_state := (s2.cache_state.set_slot local_index (.kRegister target_reg)).inc_used target_reg }

/-- `LiftoffCompiler::SetLocal(uint32_t local_index, bool is_tee)`. -/
def SetLocal.impl (cfg : Config) (s : State) (local_index : Nat) (is_tee : Bool) : Option State :=
  match s.cache_state.stack_state.getLast?, s.cache_state.stack_state[local_index]? with
  | some source_slot, some target_slot =>
    let switched : Option State :=
      match source_slot with
      | .kRegister reg =>
        let cs := (DropStackSlot s.cache_state target_slot).set_slot local_index source_slot
        some { s with cache_state := if is_tee then cs.inc_used reg else cs }
      | .kConstant _ =>
        some { s with
          cache_state := (DropStackSlot s.cache_state target_slot).set_slot local_index source_slot }
      | .kStack =>
        match target_slot with
        | .kRegister reg =>
          if s.cache_state.register_use_count reg == 1 then
            some (Fill s reg (s.cache_state.stack_height - 1))
          else
            -- and fall through to use a new register.
            SetLocal.use_new_register cfg { s with cache_state := s.cache_state.dec_used reg }
              local_index
        | _ => SetLocal.use_new_register cfg s local_index
    match switched with
    | none => none
    | some s1 => some (if !is_tee then { s1 with cache_state := s1.cache_state.pop_back } else s1)
  | _, _ => none

/-- `LiftoffCompiler::SetLocal(Decoder*, const Value&, const LocalIndexOperand&)`. -/
def SetLocal (cfg : Config) (s : State) (index : Nat) : Option State :=
  SetLocal.impl cfg s index false

/-- `LiftoffCompiler::TeeLocal`. -/
def TeeLocal (cfg : Config) (s : State) (index : Nat) : Option State :=
  SetLocal.impl cfg s index true

/-- `LiftoffCompiler::GetGlobal`. -/
def GetGlobal (cfg : Config) (s : State) : State := unsupported cfg s "get_global"

/-- `LiftoffCompiler::SetGlobal`. -/
def SetGlobal (cfg : Config) (s : State) : State := unsupported cfg s "set_global"

/-- `LiftoffCompiler::Unreachable`. -/
def Unreachable (cfg : Config) (s : State) : State := unsupported cfg s "unreachable"

/-- `LiftoffCompiler::Select`. -/
def Select (cfg : Config) (s : State) : State := unsupported cfg s "select"

/-- `LiftoffCompiler::Br`; `target` is `control_at(depth)`. -/
def Br (_cfg : Config) (s : State) (depth : Nat) : Option State :=
  match s.control[depth]? with
  | none => none
  | some target =>
    let t1 : Control :=
      if !target.br_merge.reached then
        { target with
          label_state :=
            target.label_state.InitMerge s.cache_state s.num_locals target.br_merge.arity }
      else target
    let s1 := s.set_control depth t1
    some ((MergeStackWith s1 t1.label_state t1.br_merge.arity).emit
      (.jmp (.control t1.label.id)))

/-- `LiftoffCompiler::BrIf`; `target` is `control_at(depth)`. -/
def BrIf (cfg : Config) (s : State) (depth : Nat) : Option State :=
  match PopToRegister cfg s .kWasmI32 [] with
  | none => none
  | some (value, s1) =>
    match Br cfg (s1.emit (.JumpIfZero value .cont_false)) depth with
    | none => none
    | some s2 => some (s2.emit (.bind .cont_false))

/-- `LiftoffCompiler::BrTable`. -/
def BrTable (cfg : Config) (s : State) : State := unsupported cfg s "br_table"

/-- `LiftoffCompiler::Else`. -/
def Else (cfg : Config) (s : State) : State := unsupported cfg s "else"

/-- `LiftoffCompiler::LoadMem`. -/
def LoadMem (cfg : Config) (s : State) : State := unsupported cfg s "memory load"

/-- `LiftoffCompiler::StoreMem`. -/
def StoreMem (cfg : Config) (s : State) : State := unsupported cfg s "memory store"

/-- `LiftoffCompiler::CurrentMemoryPages`. -/
def CurrentMemoryPages (cfg : Config) (s : State) : State := unsupported cfg s "current_memory"

/-- `LiftoffCompiler::GrowMemory`. -/
def GrowMemory (cfg : Config) (s : State) : State := unsupported cfg s "grow_memory"

/-- `LiftoffCompiler::CallDirect`. -/
def CallDirect (cfg : Config) (s : State) : State := unsupported cfg s "call"

/-- `LiftoffCompiler::CallIndirect`. -/
def CallIndirect (cfg : Config) (s : State) : State := unsupported cfg s "call_indirect"

/-- `LiftoffCompiler::SimdOp`. -/
def SimdOp (cfg : Config) (s : State) : State := unsupported cfg s "simd"

/-- `LiftoffCompiler::SimdLaneOp`. -/
def SimdLaneOp (cfg : Config) (s : State) : State := unsupported cfg s "simd"

/-- `LiftoffCompiler::SimdShiftOp`. -/
def SimdShiftOp (cfg : Config) (s : State) : State := unsupported cfg s "simd"

/-- `LiftoffCompiler::Simd8x16ShuffleOp`. -/
def Simd8x16ShuffleOp (cfg : Config) (s : State) : State := unsupported cfg s "simd"

/-- `LiftoffCompiler::Throw`. -/
def Throw (cfg : Config) (s : State) : State := unsupported cfg s "throw"

/-- `LiftoffCompiler::CatchException`. -/
def CatchException (cfg : Config) (s : State) : State := unsupported cfg s "catch"

/-- `LiftoffCompiler::AtomicOp`. -/
def AtomicOp (cfg : Config) (s : State) : State := unsupported cfg s "atomicop"

/-! ## Handler sequences -/

/-- One call of the decoder into the code generator. -/
inductive Handler where
  | StartFunction
  | StartFunctionBody
  | FinishFunction
  | OnFirstError
  | Block
  | Loop
  | Try
  | If
  | FallThruTo (depth : Nat)
  | PopControl (depth : Nat)
  | EndControl
  | UnOp
  | BinOp (opcode : WasmOpcode)
  | I32Const (value : Int)
  | I64Const (value : Int)
  | F32Const
  | F64Const
  | Drop
  | DoReturn (values : Nat) (implicit : Bool)
  | GetLocal (index : Nat)
  | SetLocal (index : Nat)
  | TeeLocal (index : Nat)
  | GetGlobal
  | SetGlobal
  | Unreachable
  | Select
  | Br (depth : Nat)
  | BrIf (depth : Nat)
  | BrTable
  | Else
  | LoadMem
  | StoreMem
  | CurrentMemoryPages
  | GrowMemory
  | CallDirect
  | CallIndirect
  | SimdOp
  | SimdLaneOp
  | SimdShiftOp
  | Simd8x16ShuffleOp
  | Throw
  | CatchException
  | AtomicOp
  deriving DecidableEq, Repr

/-- The state after one handler call; `none` where the call has no defined
result. -/
def Handler.call (cfg : Config) (s : State) : Handler → Option State
  | .StartFunction => some (Liftoff.StartFunction cfg s)
  | .StartFunctionBody => Liftoff.StartFunctionBody cfg s
  | .FinishFunction => some (Liftoff.FinishFunction cfg s)
  | .OnFirstError => some (Liftoff.OnFirstError cfg s)
  | .Block => Liftoff.Block cfg s
  | .Loop => Liftoff.Loop cfg s
  | .Try => some (Liftoff.Try cfg s)
  | .If => some (Liftoff.If cfg s)
  | .FallThruTo depth => Liftoff.FallThruTo cfg s depth
  | .PopControl depth => Liftoff.PopControl cfg s depth
  | .EndControl => some (Liftoff.EndControl cfg s)
  | .UnOp => some (Liftoff.UnOp cfg s)
  | .BinOp opcode => Liftoff.BinOp cfg s opcode
  | .I32Const value => some (Liftoff.I32Const cfg s value)
  | .I64Const value => some (Liftoff.I64Const cfg s value)
  | .F32Const => some (Liftoff.F32Const cfg s)
  | .F64Const => some (Liftoff.F64Const cfg s)
  | .Drop => Liftoff.Drop cfg s
  | .DoReturn values implicit => Liftoff.DoReturn cfg s values implicit
  | .GetLocal index => Liftoff.GetLocal cfg s index
  | .SetLocal index => Liftoff.SetLocal cfg s index
  | .TeeLocal index => Liftoff.TeeLocal cfg s index
  | .GetGlobal => some (Liftoff.GetGlobal cfg s)
  | .SetGlobal => some (Liftoff.SetGlobal cfg s)
  | .Unreachable => some (Liftoff.Unreachable cfg s)
  | .Select => some (Liftoff.Select cfg s)
  | .Br depth => Liftoff.Br cfg s depth
  | .BrIf depth => Liftoff.BrIf cfg s depth
  | .BrTable => some (Liftoff.BrTable cfg s)
  | .Else => some (Liftoff.Else cfg s)
  | .LoadMem => some (Liftoff.LoadMem cfg s)
  | .StoreMem => some (Liftoff.StoreMem cfg s)
  | .CurrentMemoryPages => some (Liftoff.CurrentMemoryPages cfg s)
  | .GrowMemory => some (Liftoff.GrowMemory cfg s)
  | .CallDirect => some (Liftoff.CallDirect cfg s)
  | .CallIndirect => some (Liftoff.CallIndirect cfg s)
  | .SimdOp => some (Liftoff.SimdOp cfg s)
  | .SimdLaneOp => some (Liftoff.SimdLaneOp cfg s)
  | .SimdShiftOp => some (Liftoff.SimdShiftOp cfg s)
  | .Simd8x16ShuffleOp => some (Liftoff.Simd8x16ShuffleOp cfg s)
  | .Throw => some (Liftoff.Throw cfg s)
  | .CatchException => some (Liftoff.CatchException cfg s)
  | .AtomicOp => some (Liftoff.AtomicOp cfg s)

/-- The state after a sequence of handler calls, in program order. -/
def run (cfg : Config) (s : State) : List Handler → Option State
  | [] => some s
  | h :: rest =>
    match h.call cfg s with
    | none => none
    | some s1 => run cfg s1 rest

/-- The handlers of the constructs the compiler does not support, which only
call `unsupported`. -/
def Handler.is_unsupported : Handler → Bool
  | .Try | .If | .UnOp | .I64Const _ | .F32Const | .F64Const | .GetGlobal | .SetGlobal
  | .Unreachable | .Select | .BrTable | .Else | .LoadMem | .StoreMem | .CurrentMemoryPages
  | .GrowMemory | .CallDirect | .CallIndirect | .SimdOp | .SimdLaneOp | .SimdShiftOp
  | .Simd8x16ShuffleOp | .Throw | .CatchException | .AtomicOp => true
  | .BinOp opcode => (emit_fn opcode).isNone
  | _ => false

/-! ## Properties of the cache state -/

/-- The number of slots whose payload is `reg`. -/
def CacheState.slot_count (cs : CacheState) (reg : Register) : Nat :=
  cs.stack_state.count (.kRegister reg)

/-- Register-use consistency: the use count of every register is the number
of slots whose payload is that register. -/
def CacheState.consistent (cs : CacheState) : Prop :=
  ∀ reg : Register, cs.register_use_count reg = cs.slot_count reg

/-- The label of a control construct, bound. -/
def Control.bind_label (c : Control) : Control :=
  { c with label := { c.label with is_bound := true } }

/-- The binding instruction of the label of a control construct. -/
def Control.bind_instr (c : Control) : Instr := .bind (.control c.label.id)

/-! ## Bail-out: `unsupported`, `BindUnboundLabels`, `OnFirstError` -/

theorem Control.bind_label_of_bound (c : Control) (h : c.label.is_bound = true) :
    c.bind_label = c := by
  cases c with
  | mk l sm em ls lab =>
    cases lab with
    | mk id b =>
      simp only [Control.bind_label] at *
      subst h
      rfl

theorem take_succ_set {α : Type} (l : List α) (x : α) :
    ∀ i : Nat, i < l.length → (l.set i x).take (i + 1) = l.take i ++ [x] := by
  induction l with
  | nil => intro i h; simp at h
  | cons a l ih =>
    intro i h
    cases i with
    | zero => simp
    | succ i =>
      have h2 : i < l.length := by simpa using h
      simp [ih i h2]

theorem drop_succ_set {α : Type} (l : List α) (x : α) :
    ∀ i : Nat, (l.set i x).drop (i + 1) = l.drop (i + 1) := by
  induction l with
  | nil => intro i; simp
  | cons a l ih =>
    intro i
    cases i with
    | zero => simp
    | succ i => simp [ih i]

theorem BindUnboundLabels.loop_eq (fuel : Nat) :
    ∀ (s : State) (depth : Nat), (s.control.drop depth).length ≤ fuel →
      BindUnboundLabels.loop s depth fuel =
        { s with
          control := s.control.take depth ++ (s.control.drop depth).map Control.bind_label
          code := s.code ++
            ((s.control.drop depth).filter fun c => !c.label.is_bound).map Control.bind_instr } := by
  induction fuel with
  | zero =>
    intro s depth h
    have h0 : s.control.drop depth = [] := List.length_eq_zero.mp (Nat.le_zero.mp h)
    simp [BindUnboundLabels.loop, h0, List.take_of_length_le (List.drop_eq_nil_iff.mp h0)]
  | succ fuel ih =>
    intro s depth h
    unfold BindUnboundLabels.loop
    cases hc : s.control[depth]? with
    | none =>
      have hlen : s.control.length ≤ depth := by
        simpa using (List.getElem?_eq_none_iff.mp hc)
      simp [List.drop_eq_nil_iff.mpr hlen, List.take_of_length_le hlen]
    | some c =>
      obtain ⟨hlt, hget⟩ := List.getElem?_eq_some_iff.mp hc
      have hdrop : s.control.drop depth = c :: s.control.drop (depth + 1) := by
        rw [← hget]; exact List.drop_eq_getElem_cons hlt
      have hlen : (s.control.drop (depth + 1)).length ≤ fuel := by
        rw [hdrop] at h; simpa using h
      cases hb : c.label.is_bound with
      | true =>
        simp only [hb, Bool.not_true, Bool.false_eq_true, if_false]
        rw [ih s (depth + 1) hlen, hdrop]
        have htake : s.control.take (depth + 1) = s.control.take depth ++ [c] := by
          rw [List.take_succ, hc]; rfl
        simp [htake, hb, Control.bind_label_of_bound c hb]
      | false =>
        simp only [hb, Bool.not_false, if_true]
        have hs : bind_control s depth c =
            { s with control := s.control.set depth c.bind_label
                     code := s.code ++ [c.bind_instr] } := rfl
        rw [hs]
        have hlen2 : (({ s with control := s.control.set depth c.bind_label
                                code := s.code ++ [c.bind_instr] } : State).control.drop
            (depth + 1)).length ≤ fuel := by
          simpa [drop_succ_set] using hlen
        rw [ih _ (depth + 1) hlen2, hdrop]
        simp [take_succ_set _ _ _ hlt, drop_succ_set, hb]

theorem BindUnboundLabels_eq (cfg : Config) (s : State) :
    BindUnboundLabels cfg s =
      if cfg.DEBUG then
        { s with
          control := s.control.map Control.bind_label
          code := s.code ++ (s.control.filter fun c => !c.label.is_bound).map Control.bind_instr }
      else s := by
  unfold BindUnboundLabels
  cases cfg.DEBUG with
  | false => simp
  | true =>
    simp only [Bool.not_true, Bool.false_eq_true, if_false, if_true]
    rw [BindUnboundLabels.loop_eq s.control.length s 0 (by simp)]
    simp

theorem unsupported_eq (cfg : Config) (s : State) (reason : String) :
    unsupported cfg s reason =
      { s with
        ok_ := false
        errors := s.errors ++ [reason]
        control := if cfg.DEBUG then s.control.map Control.bind_label else s.control
        code := s.code ++
          if cfg.DEBUG then (s.control.filter fun c => !c.label.is_bound).map Control.bind_instr
          else [] } := by
  unfold unsupported
  rw [BindUnboundLabels_eq]
  cases cfg.DEBUG <;> simp

theorem OnFirstError_eq (cfg : Config) (s : State) :
    OnFirstError cfg s =
      { s with
        ok_ := false
        control := if cfg.DEBUG then s.control.map Control.bind_label else s.control
        code := s.code ++
          if cfg.DEBUG then (s.control.filter fun c => !c.label.is_bound).map Control.bind_instr
          else [] } := by
  unfold OnFirstError
  rw [BindUnboundLabels_eq]
  cases cfg.DEBUG <;> simp

theorem Control.bind_label_is_bound (c : Control) : c.bind_label.label.is_bound = true := rfl

theorem Control.bind_label_idem (c : Control) : c.bind_label.bind_label = c.bind_label := rfl

theorem filter_unbound_map_bind_label (cs : List Control) :
    ((cs.map Control.bind_label).filter fun c => !c.label.is_bound) = [] := by
  induction cs with
  | nil => rfl
  | cons c cs ih => simp [List.filter_cons, Control.bind_label_is_bound]

/-- A release build with three cache registers. -/
def releaseBuild : Config := { DEBUG := false, kGpCacheRegs := [0, 1, 2] }

/-- A debug build with three cache registers. -/
def debugBuild : Config := { DEBUG := true, kGpCacheRegs := [0, 1, 2] }

/-- A compilation inside one block whose label is not bound yet. -/
def oneOpenBlock : State := { control := [{ label := { id := 0 } }] }

/-- C4, as stated, fails: in a build without `DEBUG`, `BindUnboundLabels`
returns at once, so after `unsupported` (and after `OnFirstError`) the label of
the open block is still unbound. -/
theorem C4_release_build_leaves_label_unbound :
    (unsupported releaseBuild oneOpenBlock "try").ok_ = false ∧
    (unsupported releaseBuild oneOpenBlock "try").control.map (fun c => c.label.is_bound)
      = [false] ∧
    (OnFirstError releaseBuild oneOpenBlock).control.map (fun c => c.label.is_bound)
      = [false] := by
  refine ⟨rfl, rfl, rfl⟩

/-- C4 (amended): after `unsupported` and after `OnFirstError`, `ok` is false
and the control stack has the same depth.  In a build with `DEBUG` the label of
every control construct is then bound, and exactly the labels that were unbound
are bound by the call, once each and in order of depth, so no bound label is
bound again.  In a build without `DEBUG` no label is bound: the control stack
and the code are as before. -/
theorem C4_bailout_binds_unbound_labels_in_debug_build
    (cfg : Config) (s : State) (reason : String) :
    (unsupported cfg s reason).ok_ = false ∧ (OnFirstError cfg s).ok_ = false ∧
    (unsupported cfg s reason).control.length = s.control.length ∧
    (OnFirstError cfg s).control.length = s.control.length ∧
    (cfg.DEBUG = true →
      (∀ c ∈ (unsupported cfg s reason).control, c.label.is_bound = true) ∧
      (∀ c ∈ (OnFirstError cfg s).control, c.label.is_bound = true) ∧
      (unsupported cfg s reason).control = s.control.map Control.bind_label ∧
      (OnFirstError cfg s).control = s.control.map Control.bind_label ∧
      (unsupported cfg s reason).code =
        s.code ++ (s.control.filter fun c => !c.label.is_bound).map Control.bind_instr ∧
      (OnFirstError cfg s).code =
        s.code ++ (s.control.filter fun c => !c.label.is_bound).map Control.bind_instr) ∧
    (cfg.DEBUG = false →
      (unsupported cfg s reason).control = s.control ∧
      (OnFirstError cfg s).control = s.control ∧
      (unsupported cfg s reason).code = s.code ∧
      (OnFirstError cfg s).code = s.code) := by
  rw [unsupported_eq, OnFirstError_eq]
  refine ⟨rfl, rfl, ?_, ?_, ?_, ?_⟩
  · cases cfg.DEBUG <;> simp
  · cases cfg.DEBUG <;> simp
  · intro h
    simp [h, Control.bind_label_is_bound]
  · intro h
    simp [h]

/-- C5, as stated, fails: the reason `I64Const` reports is "i64.const", not
"i64 constant", and in a build without `DEBUG` the label of the open block is
left unbound. -/
theorem C5_reason_is_i64_const_and_release_leaves_label :
    (I64Const releaseBuild oneOpenBlock 7).errors = ["i64.const"] ∧
    (I64Const releaseBuild oneOpenBlock 7).errors ≠ ["i64 constant"] ∧
    (I64Const releaseBuild oneOpenBlock 7).control.map (fun c => c.label.is_bound) = [false] := by
  refine ⟨rfl, by decide, rfl⟩

/-- C5 (amended): for every state and every 64-bit value, `I64Const` bails out
at once: `ok` becomes false, the reason reported is "i64.const", no slot is
pushed (the cache state is unchanged); in a build with `DEBUG` all open control
labels are bound afterwards, in a build without `DEBUG` the control stack is
left as it was. -/
theorem C5_I64Const_bails_out (cfg : Config) (s : State) (value : Int) :
    (I64Const cfg s value).ok_ = false ∧
    (I64Const cfg s value).errors = s.errors ++ ["i64.const"] ∧
    (I64Const cfg s value).cache_state = s.cache_state ∧
    (cfg.DEBUG = true → ∀ c ∈ (I64Const cfg s value).control, c.label.is_bound = true) ∧
    (cfg.DEBUG = false → (I64Const cfg s value).control = s.control ∧
      (I64Const cfg s value).code = s.code) := by
  unfold I64Const
  rw [unsupported_eq]
  refine ⟨rfl, rfl, rfl, ?_, ?_⟩
  · intro h c hc
    simp only [h, if_true] at hc
    obtain ⟨c0, _, rfl⟩ := List.mem_map.mp hc
    rfl
  · intro h
    simp [h]

/-- C8: bail-out is idempotent.  A second call of `unsupported` right after a
first one leaves `ok`, the cache state and every control construct (so the set
of bound labels) as the first call left them, binds no label and emits
nothing. -/
theorem C8_unsupported_idempotent (cfg : Config) (s : State) (reason reason2 : String) :
    (unsupported cfg (unsupported cfg s reason) reason2).ok_ = (unsupported cfg s reason).ok_ ∧
    (unsupported cfg (unsupported cfg s reason) reason2).cache_state
      = (unsupported cfg s reason).cache_state ∧
    (unsupported cfg (unsupported cfg s reason) reason2).control
      = (unsupported cfg s reason).control ∧
    (unsupported cfg (unsupported cfg s reason) reason2).code
      = (unsupported cfg s reason).code := by
  rw [unsupported_eq cfg (unsupported cfg s reason) reason2, unsupported_eq cfg s reason]
  refine ⟨rfl, rfl, ?_, ?_⟩
  · cases cfg.DEBUG <;> simp [Control.bind_label_idem]
  · cases cfg.DEBUG <;> simp [filter_unbound_map_bind_label]

/-- What every call of `unsupported` does to a state: `ok` false, the cache
state untouched, nothing emitted but label bindings. -/
theorem unsupported_clean (cfg : Config) (s : State) (reason : String) :
    (unsupported cfg s reason).ok_ = false ∧
    (unsupported cfg s reason).cache_state = s.cache_state ∧
    ∃ binds : List Instr, (unsupported cfg s reason).code = s.code ++ binds ∧
      ∀ i ∈ binds, ∃ l : LabelId, i = .bind l := by
  rw [unsupported_eq]
  refine ⟨rfl, rfl, _, rfl, ?_⟩
  intro i hi
  cases hD : cfg.DEBUG with
  | false => simp [hD] at hi
  | true =>
    simp only [hD, if_true] at hi
    obtain ⟨c, _, rfl⟩ := List.mem_map.mp hi
    exact ⟨_, rfl⟩

/-- C6: every handler of an unsupported construct (memory load and store,
current_memory and grow_memory, direct and indirect calls, throw, catch and
try, the SIMD operations, atomic operations, unary operations, select, if and
else, br_table, get and set global, unreachable, the i64, f32 and f64
constants, and `BinOp` with an opcode outside the six supported ones) returns,
sets `ok` to false, leaves the cache state (slots and register use counts) as
it was, and emits nothing but label bindings. -/
theorem C6_unsupported_handlers_bail_out_cleanly (cfg : Config) (s : State) (h : Handler)
    (hu : h.is_unsupported = true) :
    ∃ s1 : State, h.call cfg s = some s1 ∧ s1.ok_ = false ∧
      s1.cache_state = s.cache_state ∧
      ∃ binds : List Instr, s1.code = s.code ++ binds ∧
        ∀ i ∈ binds, ∃ l : LabelId, i = .bind l := by
  cases h <;> simp only [Handler.is_unsupported, Bool.false_eq_true] at hu <;>
    first
    | exact ⟨_, rfl, unsupported_clean cfg s _⟩
    | (rename_i opcode
       have hn : emit_fn opcode = none := by simpa using hu
       refine ⟨unsupported cfg s (OpcodeName opcode), ?_, unsupported_clean cfg s _⟩
       simp [Handler.call, BinOp, hn])

/-- C6 at concrete inputs: a memory load and a division, two registers live. -/
theorem C6_unsupported_handlers_witness :
    (∃ s1 : State,
      Handler.LoadMem.call debugBuild
        { oneOpenBlock with
          cache_state := { stack_state := [.kRegister 0, .kRegister 1]
                           register_use_count := fun r => if r < 2 then 1 else 0 } } = some s1 ∧
      s1.ok_ = false ∧
      s1.cache_state = { stack_state := [.kRegister 0, .kRegister 1]
                         register_use_count := fun r => if r < 2 then 1 else 0 } ∧
      ∃ binds : List Instr, s1.code = [] ++ binds ∧ ∀ i ∈ binds, ∃ l : LabelId, i = .bind l) ∧
    (Handler.BinOp (.other "i32.div_s")).is_unsupported = true :=
  ⟨C6_unsupported_handlers_bail_out_cleanly debugBuild _ .LoadMem rfl, rfl⟩

/-- A state with one register-held value on the operand stack and no locals. -/
def oneRegisterOnStack : State :=
  { cache_state := { stack_state := [.kRegister 0]
                     register_use_count := fun r => if r = 0 then 1 else 0 } }

/-- C7: `DoReturn` with two return values calls `unsupported` and then goes on:
it pops the top slot, moves it to the return register and emits the frame
teardown and the return instruction. -/
theorem C7_DoReturn_multi_return_goes_on :
    (DoReturn releaseBuild oneRegisterOnStack 2 false).map (fun s => s.ok_) = some false ∧
    (DoReturn releaseBuild oneRegisterOnStack 2 false).map (fun s => s.errors)
      = some ["multi-return"] ∧
    (DoReturn releaseBuild oneRegisterOnStack 2 false).map (fun s => s.cache_state.stack_state)
      = some [] ∧
    (DoReturn releaseBuild oneRegisterOnStack 2 false).map
      (fun s => s.cache_state.register_use_count 0) = some 0 ∧
    (DoReturn releaseBuild oneRegisterOnStack 2 false).map (fun s => s.code)
      = some [.MoveToReturnRegister 0, .LeaveFrame, .Ret] := by
  refine ⟨rfl, rfl, rfl, rfl, rfl⟩

/-! ## The location allocator -/

/-- The state `SpillRegister` leaves when the victim is `reg`. -/
def State.spilled (s : State) (reg : Register) : State :=
  { s with
    code := s.code ++ spillCode reg 0 s.cache_state.stack_state
    cache_state :=
      { s.cache_state with
        stack_state := spillSlots reg s.cache_state.stack_state
        register_use_count := Function.update s.cache_state.register_use_count reg 0 } }

theorem SpillRegister_eq_some {s : State} {pinned : List Register} {reg : Register} {s1 : State}
    (h : SpillRegister s pinned = some (reg, s1)) :
    spillVictim s pinned = some reg ∧ s1 = s.spilled reg := by
  unfold SpillRegister at h
  cases hv : spillVictim s pinned with
  | none => simp [hv] at h
  | some v =>
    simp only [hv, Option.some.injEq, Prod.mk.injEq] at h
    obtain ⟨rfl, rfl⟩ := h
    exact ⟨rfl, rfl⟩

/-- The two ways `GetUnusedRegister` hands out a register: a cache register
that is unused and not pinned, the state untouched; or the spill victim. -/
theorem GetUnusedRegister_eq_some {cfg : Config} {s : State} {type : ValueType}
    {pinned : List Register} {reg : Register} {s1 : State}
    (h : GetUnusedRegister cfg s type pinned = some (reg, s1)) :
    (s1 = s ∧ reg ∈ cfg.kGpCacheRegs ∧ s.cache_state.register_use_count reg = 0 ∧
        reg ∉ pinned) ∨
    ((∀ r ∈ cfg.kGpCacheRegs, s.cache_state.register_use_count r = 0 → r ∈ pinned) ∧
        spillVictim s pinned = some reg ∧ s1 = s.spilled reg) := by
  unfold GetUnusedRegister at h
  cases hf : cfg.kGpCacheRegs.find?
      (fun reg => s.cache_state.register_use_count reg == 0 && !pinned.contains reg) with
  | some r =>
    simp only [hf, Option.some.injEq, Prod.mk.injEq] at h
    obtain ⟨rfl, rfl⟩ := h
    have hp := List.find?_some hf
    have hm := List.mem_of_find?_eq_some hf
    simp at hp
    exact Or.inl ⟨rfl, hm, hp.1, hp.2⟩
  | none =>
    simp only [hf] at h
    refine Or.inr ⟨?_, SpillRegister_eq_some h⟩
    intro r hr h0
    have := List.find?_eq_none.mp hf r hr
    simpa [h0] using this

theorem firstUnpinned_mem {pinned : List Register} :
    ∀ {slots : List VarState} {reg : Register}, firstUnpinned pinned slots = some reg →
      .kRegister reg ∈ slots ∧ reg ∉ pinned := by
  intro slots
  induction slots with
  | nil => intro reg h; simp [firstUnpinned] at h
  | cons slot rest ih =>
    intro reg h
    cases slot with
    | kStack =>
      simp only [firstUnpinned] at h
      exact ⟨List.mem_cons_of_mem _ (ih h).1, (ih h).2⟩
    | kConstant v =>
      simp only [firstUnpinned] at h
      exact ⟨List.mem_cons_of_mem _ (ih h).1, (ih h).2⟩
    | kRegister r =>
      simp only [firstUnpinned] at h
      by_cases hp : pinned.contains r = true
      · simp only [hp, if_true] at h
        exact ⟨List.mem_cons_of_mem _ (ih h).1, (ih h).2⟩
      · simp only [hp, Bool.false_eq_true, if_false, Option.some.injEq] at h
        subst h
        refine ⟨List.mem_cons_self _ _, ?_⟩
        simpa using hp

theorem firstUnpinned_eq_none {pinned : List Register} :
    ∀ {slots : List VarState}, firstUnpinned pinned slots = none →
      ∀ reg, .kRegister reg ∈ slots → reg ∈ pinned := by
  intro slots
  induction slots with
  | nil => intro _ reg h; simp at h
  | cons slot rest ih =>
    intro h reg hmem
    cases slot with
    | kStack =>
      simp only [firstUnpinned] at h
      rcases List.mem_cons.mp hmem with h1 | h1
      · cases h1
      · exact ih h reg h1
    | kConstant v =>
      simp only [firstUnpinned] at h
      rcases List.mem_cons.mp hmem with h1 | h1
      · cases h1
      · exact ih h reg h1
    | kRegister r =>
      simp only [firstUnpinned] at h
      by_cases hp : pinned.contains r = true
      · simp only [hp, if_true] at h
        rcases List.mem_cons.mp hmem with h1 | h1
        · cases h1; simpa using hp
        · exact ih h reg h1
      · simp only [hp, Bool.false_eq_true, if_false] at h
        cases h

theorem spillVictim_mem {s : State} {pinned : List Register} {reg : Register}
    (h : spillVictim s pinned = some reg) :
    .kRegister reg ∈ s.cache_state.stack_state ∧ reg ∉ pinned := by
  unfold spillVictim at h
  cases hd : firstUnpinned pinned (s.cache_state.stack_state.drop s.num_locals) with
  | some r =>
    simp only [hd, Option.some.injEq] at h
    subst h
    exact ⟨List.mem_of_mem_drop (firstUnpinned_mem hd).1, (firstUnpinned_mem hd).2⟩
  | none =>
    simp only [hd] at h
    exact ⟨List.mem_of_mem_take (firstUnpinned_mem h).1, (firstUnpinned_mem h).2⟩

theorem spillVictim_eq_none {s : State} {pinned : List Register}
    (h : spillVictim s pinned = none) :
    ∀ reg, .kRegister reg ∈ s.cache_state.stack_state → reg ∈ pinned := by
  unfold spillVictim at h
  cases hd : firstUnpinned pinned (s.cache_state.stack_state.drop s.num_locals) with
  | some r => simp [hd] at h
  | none =>
    simp only [hd] at h
    intro reg hmem
    rw [← List.take_append_drop s.num_locals s.cache_state.stack_state] at hmem
    rcases List.mem_append.mp hmem with h1 | h1
    · exact firstUnpinned_eq_none h reg h1
    · exact firstUnpinned_eq_none hd reg h1

/-- `GetUnusedRegister` succeeds as soon as some cache register is not pinned
and every cache register in use that is not pinned is held by a slot. -/
theorem GetUnusedRegister_isSome (cfg : Config) (s : State) (type : ValueType)
    (pinned : List Register) (r0 : Register) (hr0 : r0 ∈ cfg.kGpCacheRegs) (hp : r0 ∉ pinned)
    (hheld : s.cache_state.register_use_count r0 ≠ 0 → .kRegister r0 ∈ s.cache_state.stack_state) :
    ∃ reg s1, GetUnusedRegister cfg s type pinned = some (reg, s1) := by
  unfold GetUnusedRegister
  cases hf : cfg.kGpCacheRegs.find?
      (fun reg => s.cache_state.register_use_count reg == 0 && !pinned.contains reg) with
  | some r => exact ⟨r, s, rfl⟩
  | none =>
    have h0 := List.find?_eq_none.mp hf r0 hr0
    have hne : s.cache_state.register_use_count r0 ≠ 0 := by
      intro hz
      simp [hz, hp] at h0
    simp only [SpillRegister]
    cases hv : spillVictim s pinned with
    | some v => exact ⟨v, _, rfl⟩
    | none => exact absurd (spillVictim_eq_none hv r0 (hheld hne)) hp

theorem spillSlots_length (reg : Register) (slots : List VarState) :
    (spillSlots reg slots).length = slots.length := by
  simp [spillSlots]

/-! ## The stack-height guard -/

theorem CheckStackSizeLimit_eq (cfg : Config) (s : State) :
    CheckStackSizeLimit cfg s =
      if s.num_locals + kMaxValueStackHeight < s.cache_state.stack_height then
        unsupported cfg s "value stack grows too large"
      else s := by
  unfold CheckStackSizeLimit
  by_cases h : s.num_locals + kMaxValueStackHeight < s.cache_state.stack_height
  · have h2 : ((s.cache_state.stack_height : Int) - (s.num_locals : Int))
        > (kMaxValueStackHeight : Int) := by omega
    simp only [h, h2, if_true]
  · have h2 : ¬ ((s.cache_state.stack_height : Int) - (s.num_locals : Int))
        > (kMaxValueStackHeight : Int) := by omega
    simp only [h, h2, if_false]

theorem GetUnusedRegister_frame {cfg : Config} {s : State} {type : ValueType}
    {pinned : List Register} {reg : Register} {s1 : State}
    (h : GetUnusedRegister cfg s type pinned = some (reg, s1)) :
    s1.ok_ = s.ok_ ∧ s1.errors = s.errors ∧ s1.num_locals = s.num_locals ∧
    s1.control = s.control ∧ s1.local_type = s.local_type ∧
    s1.cache_state.stack_base = s.cache_state.stack_base ∧
    s1.cache_state.stack_height = s.cache_state.stack_height := by
  rcases GetUnusedRegister_eq_some h with ⟨rfl, _⟩ | ⟨_, _, rfl⟩
  · exact ⟨rfl, rfl, rfl, rfl, rfl, rfl, rfl⟩
  · exact ⟨rfl, rfl, rfl, rfl, rfl, rfl, spillSlots_length _ _⟩

/-- `GetLocal` is a push followed by the stack-height guard. -/
theorem GetLocal_eq_some {cfg : Config} {s : State} {index : Nat} {s1 : State}
    (h : GetLocal cfg s index = some s1) :
    ∃ s0 : State, s1 = CheckStackSizeLimit cfg s0 ∧ s0.ok_ = s.ok_ ∧ s0.errors = s.errors ∧
      s0.num_locals = s.num_locals ∧ s0.control = s.control ∧
      s0.cache_state.stack_height = s.cache_state.stack_height + 1 := by
  unfold GetLocal at h
  cases hs : s.cache_state.stack_state[index]? with
  | none => simp [hs] at h
  | some slot =>
    cases slot with
    | kRegister reg =>
      simp only [hs, Option.some.injEq] at h
      exact ⟨_, h.symm, rfl, rfl, rfl, rfl, by
        simp [PushRegister, CacheState.emplace_back, CacheState.inc_used,
          CacheState.stack_height]⟩
    | kConstant v =>
      simp only [hs, Option.some.injEq] at h
      exact ⟨_, h.symm, rfl, rfl, rfl, rfl, by
        simp [CacheState.emplace_back, CacheState.stack_height]⟩
    | kStack =>
      simp only [hs] at h
      cases hg : GetUnusedRegister cfg s (s.local_type index) [] with
      | none => simp [hg] at h
      | some p =>
        obtain ⟨reg, s2⟩ := p
        simp only [hg, Option.some.injEq] at h
        obtain ⟨h1, h2, h3, h4, _, _, h7⟩ := GetUnusedRegister_frame hg
        refine ⟨_, h.symm, h1, h2, h3, h4, ?_⟩
        simp only [CacheState.stack_height] at h7
        simp [PushRegister, Fill, State.emit, CacheState.emplace_back, CacheState.inc_used,
          CacheState.stack_height, h7]

/-- C3: the stack-depth boundary.  From a state with `ok` true whose operand
stack has height `h = stack_height - num_locals`, the push of `I32Const` and
the push of `GetLocal` raise the height by one and leave `ok` true whenever
`h + 1` is at most `kMaxValueStackHeight` (= 8), so the push that makes the
height exactly 8 succeeds; when `h + 1` exceeds the bound (the push after
that), the handler bails out: `ok` is false and the reason reported is "value
stack grows too large" (the spec's StackTooDeep). -/
theorem C3_stack_depth_boundary (cfg : Config) (s : State) (value : Int) (index : Nat)
    (s1 : State) (hok : s.ok_ = true) (hlocals : s.num_locals ≤ s.cache_state.stack_height)
    (hget : GetLocal cfg s index = some s1) :
    kMaxValueStackHeight = 8 ∧
    (I32Const cfg s value).cache_state.stack_height = s.cache_state.stack_height + 1 ∧
    s1.cache_state.stack_height = s.cache_state.stack_height + 1 ∧
    (s.cache_state.stack_height - s.num_locals + 1 ≤ kMaxValueStackHeight →
      (I32Const cfg s value).ok_ = true ∧ (I32Const cfg s value).errors = s.errors ∧
      s1.ok_ = true ∧ s1.errors = s.errors) ∧
    (kMaxValueStackHeight < s.cache_state.stack_height - s.num_locals + 1 →
      (I32Const cfg s value).ok_ = false ∧
      (I32Const cfg s value).errors = s.errors ++ ["value stack grows too large"] ∧
      s1.ok_ = false ∧ s1.errors = s.errors ++ ["value stack grows too large"]) := by
  obtain ⟨s0, rfl, h1, h2, h3, _, h5⟩ := GetLocal_eq_some hget
  have hI : (({ s with cache_state := s.cache_state.emplace_back (.kConstant value) } :
      State).cache_state.stack_height) = s.cache_state.stack_height + 1 := by
    simp [CacheState.emplace_back, CacheState.stack_height]
  unfold I32Const
  rw [CheckStackSizeLimit_eq, CheckStackSizeLimit_eq, hI, h5, h3]
  refine ⟨?_, ?_, ?_, ?_, ?_⟩
  · rfl
  · split
    · rw [unsupported_eq]; exact hI
    · exact hI
  · split
    · rw [unsupported_eq]; exact h5
    · exact h5
  · intro hle
    have hn : ¬ (s.num_locals + kMaxValueStackHeight < s.cache_state.stack_height + 1) := by
      omega
    simp only [hn, if_false]
    exact ⟨hok, trivial, h1.trans hok, h2⟩
  · intro hgt
    have hn : s.num_locals + kMaxValueStackHeight < s.cache_state.stack_height + 1 := by
      omega
    simp only [hn, if_true]
    rw [unsupported_eq, unsupported_eq]
    exact ⟨rfl, rfl, rfl, by simp [h2]⟩

/-- Two locals (a constant and a register) under an operand stack of height 7
and of height 8. -/
def stackOfHeight (h : Nat) : State :=
  { num_locals := 2
    cache_state :=
      { stack_state := [.kConstant 0, .kRegister 1] ++ List.replicate h (.kConstant 5)
        register_use_count := fun r => if r = 1 then 1 else 0 } }

/-- C3 at concrete inputs: the eighth push succeeds. -/
theorem C3_stack_depth_boundary_witness :
    (I32Const releaseBuild (stackOfHeight 7) 3).ok_ = true ∧
    (GetLocal releaseBuild (stackOfHeight 7) 1).map (fun s => s.ok_) = some true ∧
    (I32Const releaseBuild (stackOfHeight 8) 3).ok_ = false ∧
    (GetLocal releaseBuild (stackOfHeight 8) 1).map (fun s => s.ok_) = some false :=
  have h7 := C3_stack_depth_boundary releaseBuild (stackOfHeight 7) 3 1
    (CheckStackSizeLimit releaseBuild (PushRegister (stackOfHeight 7) 1)) rfl (by decide) rfl
  have h8 := C3_stack_depth_boundary releaseBuild (stackOfHeight 8) 3 1
    (CheckStackSizeLimit releaseBuild (PushRegister (stackOfHeight 8) 1)) rfl (by decide) rfl
  ⟨(h7.2.2.2.1 (by decide)).1, by rw [show GetLocal releaseBuild (stackOfHeight 7) 1 = some _ from rfl]; exact congrArg some (h7.2.2.2.1 (by decide)).2.2.1,
   (h8.2.2.2.2 (by decide)).1, by rw [show GetLocal releaseBuild (stackOfHeight 8) 1 = some _ from rfl]; exact congrArg some (h8.2.2.2.2 (by decide)).2.2.1⟩

/-! ## The `ok` flag along handler calls -/

/-- A step that reports `new` further errors and clears `ok` exactly when it
reports one. -/
def State.reports (s s1 : State) : Prop :=
  ∃ new : List String, s1.errors = s.errors ++ new ∧ s1.ok_ = (s.ok_ && new.isEmpty)

theorem State.reports_of_quiet (s s1 : State) (h1 : s1.ok_ = s.ok_)
    (h2 : s1.errors = s.errors) : s.reports s1 :=
  ⟨[], by simp [h2], by simp [h1]⟩

theorem State.reports_refl (s : State) : s.reports s := State.reports_of_quiet s s rfl rfl

theorem State.reports_trans {s s1 s2 : State} (h1 : s.reports s1) (h2 : s1.reports s2) :
    s.reports s2 := by
  obtain ⟨n1, e1, o1⟩ := h1
  obtain ⟨n2, e2, o2⟩ := h2
  refine ⟨n1 ++ n2, by simp [e2, e1], ?_⟩
  rw [o2, o1]
  cases s.ok_ <;> cases n1 <;> cases n2 <;> simp

theorem unsupported_reports (cfg : Config) (s : State) (reason : String) :
    s.reports (unsupported cfg s reason) := by
  rw [unsupported_eq]
  exact ⟨[reason], rfl, by simp⟩

theorem CheckStackSizeLimit_reports (cfg : Config) (s : State) :
    s.reports (CheckStackSizeLimit cfg s) := by
  rw [CheckStackSizeLimit_eq]
  split
  · exact unsupported_reports cfg s _
  · exact s.reports_refl

theorem PopToRegister_frame {cfg : Config} {s : State} {type : ValueType}
    {pinned : List Register} {reg : Register} {s1 : State}
    (h : PopToRegister cfg s type pinned = some (reg, s1)) :
    s1.ok_ = s.ok_ ∧ s1.errors = s.errors ∧ s1.num_locals = s.num_locals ∧
    s1.control = s.control ∧ s1.local_type = s.local_type ∧
    s1.cache_state.stack_base = s.cache_state.stack_base ∧
    s1.cache_state.stack_height + 1 = s.cache_state.stack_height := by
  unfold PopToRegister at h
  cases hl : s.cache_state.stack_state.getLast? with
  | none => simp [hl] at h
  | some slot =>
    have hne : s.cache_state.stack_state ≠ [] := by
      intro h0; simp [h0] at hl
    have hlen : s.cache_state.stack_state.dropLast.length + 1 = s.cache_state.stack_state.length := by
      rw [List.length_dropLast]
      have := List.length_pos.mpr hne
      omega
    cases slot with
    | kRegister r =>
      simp only [hl, Option.some.injEq, Prod.mk.injEq] at h
      obtain ⟨rfl, rfl⟩ := h
      exact ⟨rfl, rfl, rfl, rfl, rfl, rfl, hlen⟩
    | kConstant v =>
      simp only [hl] at h
      cases hg : GetUnusedRegister cfg { s with cache_state := s.cache_state.pop_back } type pinned with
      | none => simp [hg] at h
      | some p =>
        obtain ⟨r, s2⟩ := p
        simp only [hg, Option.some.injEq, Prod.mk.injEq] at h
        obtain ⟨rfl, rfl⟩ := h
        obtain ⟨h1, h2, h3, h4, h5, h6, h7⟩ := GetUnusedRegister_frame hg
        refine ⟨h1, h2, h3, h4, h5, h6, ?_⟩
        simp only [CacheState.stack_height, CacheState.pop_back, State.emit] at h7 ⊢
        omega
    | kStack =>
      simp only [hl] at h
      cases hg : GetUnusedRegister cfg { s with cache_state := s.cache_state.pop_back } type pinned with
      | none => simp [hg] at h
      | some p =>
        obtain ⟨r, s2⟩ := p
        simp only [hg, Option.some.injEq, Prod.mk.injEq] at h
        obtain ⟨rfl, rfl⟩ := h
        obtain ⟨h1, h2, h3, h4, h5, h6, h7⟩ := GetUnusedRegister_frame hg
        refine ⟨h1, h2, h3, h4, h5, h6, ?_⟩
        simp only [CacheState.stack_height, CacheState.pop_back, State.emit, Fill] at h7 ⊢
        omega

theorem GetBinaryOpTargetRegister_frame {cfg : Config} {s : State} {type : ValueType}
    {pinned : List Register} {reg : Register} {s1 : State}
    (h : GetBinaryOpTargetRegister cfg s type pinned = some (reg, s1)) :
    s1.ok_ = s.ok_ ∧ s1.errors = s.errors ∧ s1.num_locals = s.num_locals ∧
    s1.control = s.control ∧ s1.local_type = s.local_type ∧
    s1.cache_state.stack_base = s.cache_state.stack_base ∧
    s1.cache_state.stack_height = s.cache_state.stack_height := by
  unfold GetBinaryOpTargetRegister at h
  split at h
  · simp only [Option.some.injEq, Prod.mk.injEq] at h
    obtain ⟨_, rfl⟩ := h
    exact ⟨rfl, rfl, rfl, rfl, rfl, rfl, rfl⟩
  · split at h
    · simp only [Option.some.injEq, Prod.mk.injEq] at h
      obtain ⟨_, rfl⟩ := h
      exact ⟨rfl, rfl, rfl, rfl, rfl, rfl, rfl⟩
    · exact GetUnusedRegister_frame h

theorem push_params_quiet (cfg : Config) (n : Nat) :
    ∀ (s : State) (param_idx : Nat) (s1 : State), push_params cfg s param_idx n = some s1 →
      s1.ok_ = s.ok_ ∧ s1.errors = s.errors := by
  induction n with
  | zero =>
    intro s param_idx s1 h
    simp only [push_params, Option.some.injEq] at h
    subst h
    exact ⟨rfl, rfl⟩
  | succ n ih =>
    intro s param_idx s1 h
    unfold push_params at h
    split at h
    · split at h
      · have h' := ih _ _ _ h
        exact h'
      · have h' := ih _ _ _ h
        exact h'
    · cases hg : GetUnusedRegister cfg s (s.local_type param_idx) [] with
      | none => simp [hg] at h
      | some p =>
        obtain ⟨r, s2⟩ := p
        simp only [hg] at h
        obtain ⟨h1, h2, _⟩ := GetUnusedRegister_frame hg
        obtain ⟨h3, h4⟩ := ih _ _ _ h
        exact ⟨h3.trans h1, h4.trans h2⟩
    · cases h

theorem push_locals_quiet (cfg : Config) (n : Nat) :
    ∀ (s : State) (param_idx : Nat) (s1 : State), push_locals cfg s param_idx n = some s1 →
      s1.ok_ = s.ok_ ∧ s1.errors = s.errors := by
  induction n with
  | zero =>
    intro s param_idx s1 h
    simp only [push_locals, Option.some.injEq] at h
    subst h
    exact ⟨rfl, rfl⟩
  | succ n ih =>
    intro s param_idx s1 h
    unfold push_locals at h
    split at h
    · have h' := ih _ _ _ h
      exact h'
    · cases h

theorem StartFunctionBody_reports {cfg : Config} {s s1 : State}
    (h : StartFunctionBody cfg s = some s1) : s.reports s1 := by
  unfold StartFunctionBody at h
  set_option maxRecDepth 4000 in
  dsimp only at h
  split at h
  · simp only [Option.some.injEq] at h
    subst h
    exact State.reports_trans (State.reports_of_quiet _ _ rfl rfl) (unsupported_reports cfg _ _)
  · split at h
    · cases h
    · rename_i s2 h2
      split at h
      · cases h
      · rename_i s3 h3
        split at h
        · cases h
        · simp only [Option.some.injEq] at h
          subst h
          obtain ⟨a1, a2⟩ := push_params_quiet cfg _ _ _ _ h2
          obtain ⟨b1, b2⟩ := push_locals_quiet cfg _ _ _ _ h3
          exact State.reports_trans
            (State.reports_of_quiet s (s3.set_control 0 _) (b1.trans a1) (b2.trans a2))
            (CheckStackSizeLimit_reports cfg _)

theorem Block_quiet {cfg : Config} {s s1 : State} (h : Block cfg s = some s1) :
    s1.ok_ = s.ok_ ∧ s1.errors = s.errors := by
  unfold Block at h
  split at h
  · cases h
  · simp only at h
    split at h <;>
    · simp only [Option.some.injEq] at h
      subst h
      exact ⟨rfl, rfl⟩

theorem FallThruTo_quiet {cfg : Config} {s s1 : State} {depth : Nat}
    (h : FallThruTo cfg s depth = some s1) : s1.ok_ = s.ok_ ∧ s1.errors = s.errors := by
  unfold FallThruTo at h
  split at h
  · cases h
  · split at h <;>
    · simp only [Option.some.injEq] at h
      subst h
      exact ⟨rfl, rfl⟩

theorem PopControl_quiet {cfg : Config} {s s1 : State} {depth : Nat}
    (h : PopControl cfg s depth = some s1) : s1.ok_ = s.ok_ ∧ s1.errors = s.errors := by
  unfold PopControl at h
  split at h
  · cases h
  · simp only at h
    split at h <;>
    · simp only [Option.some.injEq] at h
      subst h
      split <;> exact ⟨rfl, rfl⟩

theorem Drop_quiet {cfg : Config} {s s1 : State} (h : Drop cfg s = some s1) :
    s1.ok_ = s.ok_ ∧ s1.errors = s.errors := by
  unfold Drop at h
  split at h
  · cases h
  · simp only [Option.some.injEq] at h
    subst h
    exact ⟨rfl, rfl⟩

theorem Br_quiet {cfg : Config} {s s1 : State} {depth : Nat}
    (h : Br cfg s depth = some s1) : s1.ok_ = s.ok_ ∧ s1.errors = s.errors := by
  unfold Br at h
  split at h
  · cases h
  · simp only [Option.some.injEq] at h
    subst h
    exact ⟨rfl, rfl⟩

theorem BrIf_quiet {cfg : Config} {s s1 : State} {depth : Nat}
    (h : BrIf cfg s depth = some s1) : s1.ok_ = s.ok_ ∧ s1.errors = s.errors := by
  unfold BrIf at h
  split at h
  · cases h
  · rename_i value s2 hp
    split at h
    · cases h
    · rename_i s3 hb
      simp only [Option.some.injEq] at h
      subst h
      obtain ⟨a1, a2, _⟩ := PopToRegister_frame hp
      obtain ⟨b1, b2⟩ := Br_quiet hb
      exact ⟨b1.trans a1, b2.trans a2⟩

theorem BinOp_reports {cfg : Config} {s s1 : State} {opcode : WasmOpcode}
    (h : BinOp cfg s opcode = some s1) : s.reports s1 := by
  unfold BinOp at h
  split at h
  · simp only [Option.some.injEq] at h
    subst h
    exact unsupported_reports cfg s _
  · split at h
    · cases h
    · rename_i target_reg s2 h2
      split at h
      · cases h
      · rename_i rhs_reg s3 h3
        split at h
        · cases h
        · rename_i lhs_reg s4 h4
          simp only [Option.some.injEq] at h
          subst h
          obtain ⟨a1, a2, _⟩ := GetBinaryOpTargetRegister_frame h2
          obtain ⟨b1, b2, _⟩ := PopToRegister_frame h3
          obtain ⟨c1, c2, _⟩ := PopToRegister_frame h4
          exact State.reports_of_quiet s (PushRegister _ _)
            (c1.trans (b1.trans a1)) (c2.trans (b2.trans a2))

theorem DoReturn_reports {cfg : Config} {s s1 : State} {values : Nat} {implicit : Bool}
    (h : DoReturn cfg s values implicit = some s1) : s.reports s1 := by
  unfold DoReturn at h
  dsimp only at h
  split at h
  · cases h
  · rename_i sa ha
    have hsa : sa.ok_ = s.ok_ ∧ sa.errors = s.errors := by
      split at ha
      · split at ha
        · cases ha
        · simp only [Option.some.injEq] at ha
          subst ha
          exact ⟨rfl, rfl⟩
      · simp only [Option.some.injEq] at ha
        subst ha
        exact ⟨rfl, rfl⟩
    split at h
    · cases h
    · rename_i sb hb
      simp only [Option.some.injEq] at h
      subst h
      have hsb : sa.reports sb := by
        split at hb
        · split at hb
          · cases hb
          · rename_i reg s3 hp
            simp only [Option.some.injEq] at hb
            subst hb
            obtain ⟨p1, p2, _⟩ := PopToRegister_frame hp
            have hmid : sa.reports (if values > 1 then unsupported cfg sa "multi-return" else sa) := by
              split
              · exact unsupported_reports cfg sa _
              · exact sa.reports_refl
            exact State.reports_trans hmid (State.reports_of_quiet _ _ p1 p2)
        · simp only [Option.some.injEq] at hb
          subst hb
          exact sa.reports_refl
      exact State.reports_trans (State.reports_of_quiet s sa hsa.1 hsa.2)
        (State.reports_trans hsb (State.reports_of_quiet _ _ rfl rfl))

theorem SetLocal.use_new_register_frame {cfg : Config} {s s1 : State} {local_index : Nat}
    (h : SetLocal.use_new_register cfg s local_index = some s1) :
    s1.ok_ = s.ok_ ∧ s1.errors = s.errors ∧ s1.num_locals = s.num_locals ∧
    s1.control = s.control ∧ s1.local_type = s.local_type ∧
    s1.cache_state.stack_base = s.cache_state.stack_base ∧
    s1.cache_state.stack_height = s.cache_state.stack_height := by
  unfold SetLocal.use_new_register at h
  split at h
  · cases h
  · rename_i reg s2 hg
    simp only [Option.some.injEq] at h
    subst h
    obtain ⟨h1, h2, h3, h4, h5, h6, h7⟩ := GetUnusedRegister_frame hg
    refine ⟨h1, h2, h3, h4, h5, h6, ?_⟩
    simp only [CacheState.stack_height] at h7
    simp [CacheState.stack_height, CacheState.inc_used, CacheState.set_slot, Fill, State.emit, h7]

theorem SetLocal.impl_frame {cfg : Config} {s s1 : State} {local_index : Nat} {is_tee : Bool}
    (h : SetLocal.impl cfg s local_index is_tee = some s1) :
    s1.ok_ = s.ok_ ∧ s1.errors = s.errors ∧ s1.num_locals = s.num_locals ∧
    s1.control = s.control ∧ s1.local_type = s.local_type ∧
    s1.cache_state.stack_base = s.cache_state.stack_base := by
  unfold SetLocal.impl at h
  split at h
  · rename_i source_slot target_slot hs ht
    dsimp only at h
    split at h
    · cases h
    · rename_i s2 h2
      simp only [Option.some.injEq] at h
      have hs2 : s2.ok_ = s.ok_ ∧ s2.errors = s.errors ∧ s2.num_locals = s.num_locals ∧
          s2.control = s.control ∧ s2.local_type = s.local_type ∧
          s2.cache_state.stack_base = s.cache_state.stack_base := by
        split at h2
        · simp only [Option.some.injEq] at h2
          subst h2
          refine ⟨rfl, rfl, rfl, rfl, rfl, ?_⟩
          cases target_slot <;> cases is_tee <;> rfl
        · simp only [Option.some.injEq] at h2
          subst h2
          refine ⟨rfl, rfl, rfl, rfl, rfl, ?_⟩
          cases target_slot <;> rfl
        · split at h2
          · split at h2
            · simp only [Option.some.injEq] at h2
              subst h2
              exact ⟨rfl, rfl, rfl, rfl, rfl, rfl⟩
            · obtain ⟨a1, a2, a3, a4, a5, a6, _⟩ := SetLocal.use_new_register_frame h2
              exact ⟨a1, a2, a3, a4, a5, a6⟩
          · obtain ⟨a1, a2, a3, a4, a5, a6, _⟩ := SetLocal.use_new_register_frame h2
            exact ⟨a1, a2, a3, a4, a5, a6⟩
      subst h
      cases is_tee
      · exact hs2
      · exact hs2
  · cases h

theorem StartFunction_reports (cfg : Config) (s : State) : s.reports (StartFunction cfg s) := by
  unfold StartFunction
  split
  · exact unsupported_reports cfg s _
  · exact State.reports_of_quiet _ _ rfl rfl

/-- Every handler but `OnFirstError` clears `ok` exactly when it reports an
error through `unsupported`, and reports nothing otherwise. -/
theorem Handler.call_reports {cfg : Config} {s s1 : State} {h : Handler}
    (hc : h.call cfg s = some s1) (hne : h ≠ .OnFirstError) : s.reports s1 := by
  cases h <;> simp only [Handler.call, Option.some.injEq] at hc
  case OnFirstError => exact absurd rfl hne
  case StartFunction => subst hc; exact StartFunction_reports cfg s
  case StartFunctionBody => exact StartFunctionBody_reports hc
  case FinishFunction => subst hc; exact s.reports_refl
  case Block => exact State.reports_of_quiet _ _ (Block_quiet hc).1 (Block_quiet hc).2
  case Loop => exact State.reports_of_quiet _ _ (Block_quiet hc).1 (Block_quiet hc).2
  case FallThruTo => exact State.reports_of_quiet _ _ (FallThruTo_quiet hc).1 (FallThruTo_quiet hc).2
  case PopControl => exact State.reports_of_quiet _ _ (PopControl_quiet hc).1 (PopControl_quiet hc).2
  case EndControl => subst hc; exact s.reports_refl
  case BinOp => exact BinOp_reports hc
  case I32Const => subst hc; exact State.reports_trans (State.reports_of_quiet _ _ rfl rfl) (CheckStackSizeLimit_reports cfg _)
  case Drop => exact State.reports_of_quiet _ _ (Drop_quiet hc).1 (Drop_quiet hc).2
  case DoReturn => exact DoReturn_reports hc
  case GetLocal =>
    obtain ⟨s0, rfl, h1, h2, _⟩ := GetLocal_eq_some hc
    exact State.reports_trans (State.reports_of_quiet _ _ h1 h2) (CheckStackSizeLimit_reports cfg _)
  case SetLocal =>
    exact State.reports_of_quiet _ _ (SetLocal.impl_frame hc).1 (SetLocal.impl_frame hc).2.1
  case TeeLocal =>
    exact State.reports_of_quiet _ _ (SetLocal.impl_frame hc).1 (SetLocal.impl_frame hc).2.1
  case Br => exact State.reports_of_quiet _ _ (Br_quiet hc).1 (Br_quiet hc).2
  case BrIf => exact State.reports_of_quiet _ _ (BrIf_quiet hc).1 (BrIf_quiet hc).2
  all_goals (subst hc; exact unsupported_reports cfg s _)

theorem run_reports (cfg : Config) :
    ∀ (hs : List Handler) (s s1 : State), run cfg s hs = some s1 →
      ∃ new : List String, s1.errors = s.errors ++ new ∧
        s1.ok_ = (s.ok_ && new.isEmpty && !hs.contains .OnFirstError) := by
  intro hs
  induction hs with
  | nil =>
    intro s s1 h
    simp only [run, Option.some.injEq] at h
    subst h
    exact ⟨[], by simp, by simp⟩
  | cons h rest ih =>
    intro s s1 hr
    unfold run at hr
    cases hc : h.call cfg s with
    | none => simp [hc] at hr
    | some sm =>
      simp only [hc] at hr
      obtain ⟨n2, e2, o2⟩ := ih sm s1 hr
      by_cases hne : h = .OnFirstError
      · subst hne
        simp only [Handler.call, Option.some.injEq] at hc
        subst hc
        rw [OnFirstError_eq] at e2 o2
        exact ⟨n2, e2, by simp [o2]⟩
      · obtain ⟨n1, e1, o1⟩ := Handler.call_reports hc hne
        refine ⟨n1 ++ n2, by simp [e2, e1], ?_⟩
        have hcont : (h :: rest).contains Handler.OnFirstError = rest.contains Handler.OnFirstError := by
          simp [List.contains_cons, Ne.symm hne]
        rw [o2, o1, hcont]
        cases s.ok_ <;> cases n1 <;> cases n2 <;> simp

/-- C10: `ok` starts true; no handler call and no sequence of handler calls
turns a false `ok` back to true; and after any sequence of handler calls
started with `ok` true, `ok` is still true exactly when no call of the sequence
reported an error through `unsupported` (the errors reported are those of the
start) and `OnFirstError` is not among the calls. -/
theorem C10_bailed_out_is_terminal (cfg : Config) :
    ({} : State).ok_ = true ∧
    (∀ (h : Handler) (s s1 : State), h.call cfg s = some s1 → s.ok_ = false → s1.ok_ = false) ∧
    (∀ (hs : List Handler) (s s1 : State), run cfg s hs = some s1 → s.ok_ = false →
      s1.ok_ = false) ∧
    (∀ (hs : List Handler) (s s1 : State), run cfg s hs = some s1 → s.ok_ = true →
      (s1.ok_ = true ↔ s1.errors = s.errors ∧ Handler.OnFirstError ∉ hs)) := by
  refine ⟨rfl, ?_, ?_, ?_⟩
  · intro h s s1 hc hok
    have hr : run cfg s [h] = some s1 := by simp [run, hc]
    obtain ⟨n, _, o⟩ := run_reports cfg [h] s s1 hr
    simp [o, hok]
  · intro hs s s1 hr hok
    obtain ⟨n, _, o⟩ := run_reports cfg hs s s1 hr
    simp [o, hok]
  · intro hs s s1 hr hok
    obtain ⟨n, e, o⟩ := run_reports cfg hs s s1 hr
    rw [o, e, hok]
    cases n with
    | nil => simp
    | cons a n => simp

/-- C10 at a concrete sequence: a constant, an unsupported select, a constant. -/
theorem C10_bailed_out_is_terminal_example :
    (run releaseBuild {} [.I32Const 1, .Select, .I32Const 2]).map (fun s => s.ok_) = some false ∧
    (run releaseBuild {} [.I32Const 1, .I32Const 2]).map (fun s => s.ok_) = some true := by
  refine ⟨rfl, rfl⟩

/-! ## No handler reads `ok` -/

/-- One for a slot holding `reg`, zero for any other slot. -/
def VarState.holds (slot : VarState) (reg : Register) : Nat :=
  if slot = .kRegister reg then 1 else 0

theorem count_emplace (slots : List VarState) (slot : VarState) (reg : Register) :
    (slots ++ [slot]).count (.kRegister reg) = slots.count (.kRegister reg) + slot.holds reg := by
  rw [List.count_append, List.count_singleton]
  simp only [VarState.holds, beq_iff_eq]

theorem count_dropLast {slots : List VarState} {slot : VarState}
    (h : slots.getLast? = some slot) (reg : Register) :
    slots.dropLast.count (.kRegister reg) + slot.holds reg = slots.count (.kRegister reg) := by
  have hs : slots = slots.dropLast ++ [slot] := by
    have := List.dropLast_append_getLast? slot h
    exact this.symm
  conv_rhs => rw [hs]
  rw [count_emplace]

theorem count_set_slot :
    ∀ (slots : List VarState) (index : Nat) (old new : VarState) (reg : Register),
      slots[index]? = some old →
      (slots.set index new).count (.kRegister reg) + old.holds reg
        = slots.count (.kRegister reg) + new.holds reg := by
  intro slots
  induction slots with
  | nil => intro index old new reg h; simp at h
  | cons a rest ih =>
    intro index old new reg h
    cases index with
    | zero =>
      simp only [List.getElem?_cons_zero, Option.some.injEq] at h
      subst h
      simp only [List.set_cons_zero, List.count_cons, VarState.holds, beq_iff_eq]
      omega
    | succ i =>
      simp only [List.getElem?_cons_succ] at h
      have := ih i old new reg h
      simp only [List.set_cons_succ, List.count_cons]
      omega

theorem count_spillSlots (victim : Register) (slots : List VarState) (reg : Register) :
    (spillSlots victim slots).count (.kRegister reg)
      = if reg = victim then 0 else slots.count (.kRegister reg) := by
  induction slots with
  | nil => simp [spillSlots]
  | cons a rest ih =>
    simp only [spillSlots, List.map_cons] at ih ⊢
    rw [List.count_cons, List.count_cons, ih]
    by_cases hv : reg = victim
    · subst hv
      by_cases ha : a = .kRegister reg
      · simp [ha]
      · simp [ha]
    · by_cases ha : a = .kRegister victim
      · subst ha
        simp [hv, Ne.symm hv]
      · simp only [ha, if_false, hv]

theorem holds_kStack (reg : Register) : VarState.kStack.holds reg = 0 := by
  simp [VarState.holds]

theorem holds_kConstant (v : Int) (reg : Register) : (VarState.kConstant v).holds reg = 0 := by
  simp [VarState.holds]

theorem holds_kRegister (r reg : Register) :
    (VarState.kRegister r).holds reg = if reg = r then 1 else 0 := by
  simp only [VarState.holds, VarState.kRegister.injEq]
  by_cases h : reg = r
  · simp [h]
  · simp [h, Ne.symm h]

theorem inc_used_count (cs : CacheState) (r reg : Register) :
    (cs.inc_used r).register_use_count reg
      = cs.register_use_count reg + if reg = r then 1 else 0 := by
  simp only [CacheState.inc_used, Function.update_apply]
  by_cases h : reg = r
  · simp [h]
  · simp [h]

theorem dec_used_count (cs : CacheState) (r reg : Register) :
    (cs.dec_used r).register_use_count reg
      = cs.register_use_count reg - if reg = r then 1 else 0 := by
  simp only [CacheState.dec_used, Function.update_apply]
  by_cases h : reg = r
  · simp [h]
  · simp [h]

theorem mem_of_getLast? {slots : List VarState} {slot : VarState}
    (h : slots.getLast? = some slot) : slot ∈ slots :=
  List.mem_of_getLast?_eq_some h

theorem count_pos_of_getLast? {slots : List VarState} {r : Register}
    (h : slots.getLast? = some (.kRegister r)) : 0 < slots.count (.kRegister r) :=
  List.count_pos_iff.mpr (mem_of_getLast? h)

theorem count_pos_of_getElem? {slots : List VarState} {r : Register} {index : Nat}
    (h : slots[index]? = some (.kRegister r)) : 0 < slots.count (.kRegister r) :=
  List.count_pos_iff.mpr (List.mem_iff_getElem?.mpr ⟨index, h⟩)

theorem consistent_push_register {cs : CacheState} (h : cs.consistent) (r : Register) :
    ((cs.inc_used r).emplace_back (.kRegister r)).consistent := by
  intro reg
  have := h reg
  simp only [CacheState.slot_count, CacheState.emplace_back] at this ⊢
  rw [count_emplace, holds_kRegister, inc_used_count]
  simp only [CacheState.inc_used]
  omega

theorem consistent_emplace_constant {cs : CacheState} (h : cs.consistent) (v : Int) :
    (cs.emplace_back (.kConstant v)).consistent := by
  intro reg
  have := h reg
  simp only [CacheState.slot_count, CacheState.emplace_back] at this ⊢
  rw [count_emplace, holds_kConstant]
  omega

theorem consistent_emplace_stack {cs : CacheState} (h : cs.consistent) :
    (cs.emplace_back .kStack).consistent := by
  intro reg
  have := h reg
  simp only [CacheState.slot_count, CacheState.emplace_back] at this ⊢
  rw [count_emplace, holds_kStack]
  omega

theorem consistent_drop_top {cs : CacheState} (h : cs.consistent) {slot : VarState}
    (hl : cs.stack_state.getLast? = some slot) :
    ((DropStackSlot cs slot).pop_back).consistent := by
  intro reg
  have h1 := h reg
  have h2 := count_dropLast hl reg
  simp only [CacheState.slot_count] at h1
  cases slot with
  | kStack =>
    rw [holds_kStack] at h2
    simp only [DropStackSlot, CacheState.pop_back, CacheState.slot_count]
    omega
  | kConstant v =>
    rw [holds_kConstant] at h2
    simp only [DropStackSlot, CacheState.pop_back, CacheState.slot_count]
    omega
  | kRegister r =>
    rw [holds_kRegister] at h2
    simp only [DropStackSlot, CacheState.pop_back, CacheState.slot_count]
    rw [dec_used_count]
    simp only [CacheState.dec_used]
    omega

theorem consistent_pop_non_register {cs : CacheState} (h : cs.consistent) {slot : VarState}
    (hl : cs.stack_state.getLast? = some slot) (hn : ∀ r, slot ≠ .kRegister r) :
    cs.pop_back.consistent := by
  have := consistent_drop_top h hl
  cases slot with
  | kStack => exact this
  | kConstant v => exact this
  | kRegister r => exact absurd rfl (hn r)

theorem consistent_spilled {s : State} (h : s.cache_state.consistent) (victim : Register) :
    (s.spilled victim).cache_state.consistent := by
  intro reg
  have := h reg
  simp only [State.spilled, CacheState.slot_count, Function.update_apply] at this ⊢
  rw [count_spillSlots]
  by_cases hv : reg = victim
  · simp [hv]
  · simp only [hv, if_false]
    exact this

theorem GetUnusedRegister_consistent {cfg : Config} {s : State} {type : ValueType}
    {pinned : List Register} {reg : Register} {s1 : State}
    (h : GetUnusedRegister cfg s type pinned = some (reg, s1))
    (hc : s.cache_state.consistent) : s1.cache_state.consistent := by
  rcases GetUnusedRegister_eq_some h with ⟨rfl, _⟩ | ⟨_, _, rfl⟩
  · exact hc
  · exact consistent_spilled hc reg

theorem PopToRegister_consistent {cfg : Config} {s : State} {type : ValueType}
    {pinned : List Register} {reg : Register} {s1 : State}
    (h : PopToRegister cfg s type pinned = some (reg, s1))
    (hc : s.cache_state.consistent) : s1.cache_state.consistent := by
  unfold PopToRegister at h
  cases hl : s.cache_state.stack_state.getLast? with
  | none => simp [hl] at h
  | some slot =>
    cases slot with
    | kRegister r =>
      simp only [hl, Option.some.injEq, Prod.mk.injEq] at h
      obtain ⟨_, rfl⟩ := h
      exact consistent_drop_top hc hl
    | kConstant v =>
      simp only [hl] at h
      cases hg : GetUnusedRegister cfg { s with cache_state := s.cache_state.pop_back } type pinned with
      | none => simp [hg] at h
      | some p =>
        obtain ⟨r, s2⟩ := p
        simp only [hg, Option.some.injEq, Prod.mk.injEq] at h
        obtain ⟨_, rfl⟩ := h
        have hc2 := GetUnusedRegister_consistent hg
          (consistent_pop_non_register hc hl (by intro r hr; cases hr))
        exact hc2
    | kStack =>
      simp only [hl] at h
      cases hg : GetUnusedRegister cfg { s with cache_state := s.cache_state.pop_back } type pinned with
      | none => simp [hg] at h
      | some p =>
        obtain ⟨r, s2⟩ := p
        simp only [hg, Option.some.injEq, Prod.mk.injEq] at h
        obtain ⟨_, rfl⟩ := h
        have hc2 := GetUnusedRegister_consistent hg
          (consistent_pop_non_register hc hl (by intro r hr; cases hr))
        exact hc2

theorem GetBinaryOpTargetRegister_consistent {cfg : Config} {s : State} {type : ValueType}
    {pinned : List Register} {reg : Register} {s1 : State}
    (h : GetBinaryOpTargetRegister cfg s type pinned = some (reg, s1))
    (hc : s.cache_state.consistent) : s1.cache_state.consistent := by
  unfold GetBinaryOpTargetRegister at h
  split at h
  · simp only [Option.some.injEq, Prod.mk.injEq] at h
    obtain ⟨_, rfl⟩ := h
    exact hc
  · split at h
    · simp only [Option.some.injEq, Prod.mk.injEq] at h
      obtain ⟨_, rfl⟩ := h
      exact hc
    · exact GetUnusedRegister_consistent h hc

/-- Consistency up to one slot: the table accounts for every slot but one
occurrence of `slot`. -/
def CacheState.consistent_but (cs : CacheState) (slot : VarState) : Prop :=
  ∀ reg : Register, cs.register_use_count reg + slot.holds reg = cs.slot_count reg

theorem holds_le_count {slots : List VarState} {slot : VarState} (h : slot ∈ slots)
    (reg : Register) : slot.holds reg ≤ slots.count (.kRegister reg) := by
  unfold VarState.holds
  split
  · rename_i he
    subst he
    exact List.count_pos_iff.mpr h
  · exact Nat.zero_le _

theorem DropStackSlot_count (cs : CacheState) (slot : VarState) (reg : Register) :
    (DropStackSlot cs slot).register_use_count reg = cs.register_use_count reg - slot.holds reg := by
  cases slot with
  | kStack => simp [DropStackSlot, holds_kStack]
  | kConstant v => simp [DropStackSlot, holds_kConstant]
  | kRegister r => simp only [DropStackSlot, dec_used_count, holds_kRegister]

theorem DropStackSlot_stack_state (cs : CacheState) (slot : VarState) :
    (DropStackSlot cs slot).stack_state = cs.stack_state := by
  cases slot <;> rfl

theorem consistent_but_of_drop {cs : CacheState} (h : cs.consistent) {slot : VarState}
    (hm : slot ∈ cs.stack_state) : (DropStackSlot cs slot).consistent_but slot := by
  intro reg
  have h1 := h reg
  have h2 := holds_le_count hm reg
  simp only [CacheState.slot_count] at h1 ⊢
  rw [DropStackSlot_count, DropStackSlot_stack_state]
  omega

theorem consistent_but_of_dec {cs : CacheState} (h : cs.consistent) {r : Register}
    (hm : .kRegister r ∈ cs.stack_state) : (cs.dec_used r).consistent_but (.kRegister r) :=
  consistent_but_of_drop h hm

theorem consistent_but_set {cs : CacheState} {old : VarState} (h : cs.consistent_but old)
    {index : Nat} (hi : cs.stack_state[index]? = some old) (new : VarState) :
    (cs.set_slot index new).consistent_but new := by
  intro reg
  have h1 := h reg
  have h2 := count_set_slot cs.stack_state index old new reg hi
  simp only [CacheState.slot_count, CacheState.set_slot] at h1 ⊢
  omega

theorem consistent_of_consistent_but_register {cs : CacheState} {r : Register}
    (h : cs.consistent_but (.kRegister r)) : (cs.inc_used r).consistent := by
  intro reg
  have h1 := h reg
  rw [holds_kRegister] at h1
  rw [inc_used_count]
  simp only [CacheState.slot_count, CacheState.inc_used] at h1 ⊢
  omega

theorem consistent_of_consistent_but {cs : CacheState} {slot : VarState}
    (h : cs.consistent_but slot) (hn : ∀ r, slot ≠ .kRegister r) : cs.consistent := by
  intro reg
  have h1 := h reg
  have h0 : slot.holds reg = 0 := by
    unfold VarState.holds
    rw [if_neg (hn reg)]
  omega

theorem consistent_but_of_consistent {cs : CacheState} (h : cs.consistent) {slot : VarState}
    (hn : ∀ r, slot ≠ .kRegister r) : cs.consistent_but slot := by
  intro reg
  have h1 := h reg
  have h0 : slot.holds reg = 0 := by
    unfold VarState.holds
    rw [if_neg (hn reg)]
  omega

theorem consistent_pop_of_consistent_but {cs : CacheState} {slot : VarState}
    (h : cs.consistent_but slot) (hl : cs.stack_state.getLast? = some slot) :
    cs.pop_back.consistent := by
  intro reg
  have h1 := h reg
  have h2 := count_dropLast hl reg
  simp only [CacheState.slot_count, CacheState.pop_back] at h1 ⊢
  omega

/-- What spilling `victim` makes of a slot. -/
def VarState.spilled (slot : VarState) (victim : Register) : VarState :=
  if slot = .kRegister victim then .kStack else slot

theorem spillSlots_getElem? (victim : Register) (slots : List VarState) (index : Nat) :
    (spillSlots victim slots)[index]? = slots[index]?.map fun slot => slot.spilled victim := by
  simp only [spillSlots, List.getElem?_map]
  rfl

theorem spillSlots_getLast? (victim : Register) (slots : List VarState) :
    (spillSlots victim slots).getLast? = slots.getLast?.map fun slot => slot.spilled victim := by
  simp only [spillSlots, List.getLast?_map]
  rfl

theorem consistent_but_spilled {s : State} {old : VarState}
    (h : s.cache_state.consistent_but old) (victim : Register) :
    (s.spilled victim).cache_state.consistent_but (old.spilled victim) := by
  intro reg
  have h1 := h reg
  simp only [State.spilled, CacheState.slot_count, Function.update_apply] at h1 ⊢
  rw [count_spillSlots]
  by_cases hv : reg = victim
  · subst hv
    simp only [if_true, VarState.spilled, VarState.holds]
    by_cases ho : old = .kRegister reg
    · simp [ho]
    · simp [ho]
  · simp only [hv, if_false]
    have : (old.spilled victim).holds reg = old.holds reg := by
      simp only [VarState.spilled, VarState.holds]
      by_cases ho : old = .kRegister victim
      · subst ho
        simp [hv, Ne.symm hv]
      · simp [ho]
    omega

theorem GetUnusedRegister_consistent_but {cfg : Config} {s : State} {type : ValueType}
    {pinned : List Register} {reg : Register} {s1 : State} {old : VarState} {index : Nat}
    (h : GetUnusedRegister cfg s type pinned = some (reg, s1))
    (hc : s.cache_state.consistent_but old) (hi : s.cache_state.stack_state[index]? = some old) :
    ∃ old1 : VarState, s1.cache_state.consistent_but old1 ∧
      s1.cache_state.stack_state[index]? = some old1 := by
  rcases GetUnusedRegister_eq_some h with ⟨rfl, _⟩ | ⟨_, _, rfl⟩
  · exact ⟨old, hc, hi⟩
  · refine ⟨old.spilled reg, consistent_but_spilled hc reg, ?_⟩
    simp only [State.spilled]
    rw [spillSlots_getElem?, hi]
    rfl

theorem getLast?_set_of_lt {α : Type} (l : List α) (index : Nat) (x : α)
    (h : index + 1 < l.length) : (l.set index x).getLast? = l.getLast? := by
  rw [List.getLast?_eq_getElem?, List.getLast?_eq_getElem?, List.length_set, List.getElem?_set]
  have : ¬ index = l.length - 1 := by omega
  simp [this]

theorem getLast?_set_same {α : Type} (l : List α) (index : Nat) (x : α)
    (h : l.getLast? = some x) : (l.set index x).getLast? = some x := by
  rw [List.getLast?_eq_getElem?] at h ⊢
  rw [List.length_set, List.getElem?_set]
  split
  · rename_i he
    split
    · rfl
    · rename_i hlt
      have hlen : l.length - 1 < l.length := (List.getElem?_eq_some_iff.mp h).1
      omega
  · exact h

theorem SetLocal.use_new_register_consistent {cfg : Config} {s s1 : State} {local_index : Nat}
    {old : VarState} (h : SetLocal.use_new_register cfg s local_index = some s1)
    (hc : s.cache_state.consistent_but old)
    (hi : s.cache_state.stack_state[local_index]? = some old) :
    s1.cache_state.consistent := by
  unfold SetLocal.use_new_register at h
  split at h
  · cases h
  · rename_i reg s2 hg
    simp only [Option.some.injEq] at h
    subst h
    obtain ⟨old1, hc1, hi1⟩ := GetUnusedRegister_consistent_but hg hc hi
    exact consistent_of_consistent_but_register (consistent_but_set hc1 hi1 (.kRegister reg))

theorem SetLocal.use_new_register_getLast? {cfg : Config} {s s1 : State} {local_index : Nat}
    (h : SetLocal.use_new_register cfg s local_index = some s1)
    (hl : s.cache_state.stack_state.getLast? = some .kStack)
    (hv : local_index + 1 < s.cache_state.stack_height) :
    s1.cache_state.stack_state.getLast? = some .kStack := by
  unfold SetLocal.use_new_register at h
  split at h
  · cases h
  · rename_i reg s2 hg
    simp only [Option.some.injEq] at h
    subst h
    have hlen := (GetUnusedRegister_frame hg).2.2.2.2.2.2
    simp only [CacheState.stack_height] at hlen hv
    have hl2 : s2.cache_state.stack_state.getLast? = some .kStack := by
      rcases GetUnusedRegister_eq_some hg with ⟨rfl, _⟩ | ⟨_, _, rfl⟩
      · exact hl
      · simp only [State.spilled]
        rw [spillSlots_getLast?, hl]
        rfl
    simp only [CacheState.inc_used, CacheState.set_slot, Fill, State.emit]
    rw [getLast?_set_of_lt _ _ _ (by omega)]
    exact hl2

/-- `SetLocal` and `TeeLocal` keep the cache state consistent, provided the
local lies below the top slot. -/
theorem SetLocal.impl_consistent {cfg : Config} {s s1 : State} {local_index : Nat}
    {is_tee : Bool} (h : SetLocal.impl cfg s local_index is_tee = some s1)
    (hc : s.cache_state.consistent) (hv : local_index + 1 < s.cache_state.stack_height) :
    s1.cache_state.consistent := by
  unfold SetLocal.impl at h
  split at h
  · rename_i source_slot target_slot hs ht
    have htm : target_slot ∈ s.cache_state.stack_state := List.getElem?_mem ht
    have hts : ∀ cs : CacheState, cs.stack_state = s.cache_state.stack_state →
        cs.stack_state[local_index]? = some target_slot := by
      intro cs hcs; rw [hcs]; exact ht
    dsimp only at h
    cases source_slot with
    | kRegister reg =>
      simp only [Option.some.injEq] at h
      have hb := consistent_but_set (consistent_but_of_drop hc htm)
        (hts _ (DropStackSlot_stack_state _ _)) (.kRegister reg)
      have hlast : ((DropStackSlot s.cache_state target_slot).set_slot local_index
          (.kRegister reg)).stack_state.getLast? = some (.kRegister reg) := by
        simp only [CacheState.set_slot, DropStackSlot_stack_state]
        exact getLast?_set_same _ _ _ hs
      subst h
      cases is_tee with
      | true => exact consistent_of_consistent_but_register hb
      | false => exact consistent_pop_of_consistent_but hb hlast
    | kConstant v =>
      simp only [Option.some.injEq] at h
      have hb := consistent_but_set (consistent_but_of_drop hc htm)
        (hts _ (DropStackSlot_stack_state _ _)) (.kConstant v)
      have hlast : ((DropStackSlot s.cache_state target_slot).set_slot local_index
          (.kConstant v)).stack_state.getLast? = some (.kConstant v) := by
        simp only [CacheState.set_slot, DropStackSlot_stack_state]
        exact getLast?_set_same _ _ _ hs
      subst h
      cases is_tee with
      | true => exact consistent_of_consistent_but hb (by intro r hr; cases hr)
      | false => exact consistent_pop_of_consistent_but hb hlast
    | kStack =>
      have hfin : ∀ s2 : State, s2.cache_state.consistent →
          s2.cache_state.stack_state.getLast? = some .kStack →
          (if !is_tee then { s2 with cache_state := s2.cache_state.pop_back } else s2).cache_state.consistent := by
        intro s2 hc2 hl2
        cases is_tee with
        | true => exact hc2
        | false => exact consistent_pop_non_register hc2 hl2 (by intro r hr; cases hr)
      split at h
      · cases h
      · rename_i s2 h2
        simp only [Option.some.injEq] at h
        subst h
        cases target_slot with
        | kRegister reg =>
          dsimp only at h2
          split at h2
          · simp only [Option.some.injEq] at h2
            subst h2
            exact hfin _ hc hs
          · exact hfin s2
              (SetLocal.use_new_register_consistent h2 (consistent_but_of_dec hc htm) ht)
              (SetLocal.use_new_register_getLast? h2 hs hv)
        | kConstant v =>
          dsimp only at h2
          exact hfin s2
            (SetLocal.use_new_register_consistent h2
              (consistent_but_of_consistent hc (by intro r hr; cases hr)) ht)
            (SetLocal.use_new_register_getLast? h2 hs hv)
        | kStack =>
          dsimp only at h2
          exact hfin s2
            (SetLocal.use_new_register_consistent h2
              (consistent_but_of_consistent hc (by intro r hr; cases hr)) ht)
            (SetLocal.use_new_register_getLast? h2 hs hv)
  · cases h

/-- Register-use consistency of a compilation: of the ambient cache state and
of the cache state kept by every control construct. -/
def State.consistent (s : State) : Prop :=
  s.cache_state.consistent ∧ ∀ c ∈ s.control, c.label_state.consistent

theorem controls_consistent_set {controls : List Control} {depth : Nat} {c : Control}
    (h : ∀ c ∈ controls, c.label_state.consistent) (hc : c.label_state.consistent) :
    ∀ c1 ∈ controls.set depth c, c1.label_state.consistent := by
  intro c1 hm
  rcases List.mem_or_eq_of_mem_set hm with h1 | h1
  · exact h c1 h1
  · rw [h1]; exact hc

theorem unsupported_consistent (cfg : Config) (s : State) (reason : String)
    (h : s.consistent) : (unsupported cfg s reason).consistent := by
  rw [unsupported_eq]
  refine ⟨h.1, ?_⟩
  intro c hc
  dsimp only at hc
  split at hc
  · obtain ⟨c0, hc0, rfl⟩ := List.mem_map.mp hc
    exact h.2 c0 hc0
  · exact h.2 c hc

theorem CheckStackSizeLimit_consistent (cfg : Config) (s : State) (h : s.consistent) :
    (CheckStackSizeLimit cfg s).consistent := by
  rw [CheckStackSizeLimit_eq]
  split
  · exact unsupported_consistent cfg s _ h
  · exact h

theorem spillLocal_consistent {cs : CacheState} (h : cs.consistent) (index : Nat) :
    (spillLocal cs index).1.consistent := by
  unfold spillLocal
  cases hi : cs.stack_state[index]? with
  | none => exact h
  | some slot =>
    cases slot with
    | kStack => exact h
    | kRegister reg =>
      exact consistent_of_consistent_but
        (consistent_but_set (consistent_but_of_dec h (List.getElem?_mem hi)) hi .kStack)
        (by intro r hr; cases hr)
    | kConstant v =>
      exact consistent_of_consistent_but
        (consistent_but_set (consistent_but_of_consistent h (by intro r hr; cases hr)) hi .kStack)
        (by intro r hr; cases hr)

theorem spillLocalsFrom_consistent (n : Nat) :
    ∀ (cs : CacheState) (index : Nat), cs.consistent →
      (spillLocalsFrom cs index n).1.consistent := by
  induction n with
  | zero => intro cs index h; exact h
  | succ n ih =>
    intro cs index h
    exact ih _ _ (spillLocal_consistent h index)

theorem GetUnusedRegister_state_consistent {cfg : Config} {s : State} {type : ValueType}
    {pinned : List Register} {reg : Register} {s1 : State}
    (h : GetUnusedRegister cfg s type pinned = some (reg, s1)) (hc : s.consistent) :
    s1.consistent :=
  ⟨GetUnusedRegister_consistent h hc.1, by
    rw [(GetUnusedRegister_frame h).2.2.2.1]; exact hc.2⟩

theorem PopToRegister_state_consistent {cfg : Config} {s : State} {type : ValueType}
    {pinned : List Register} {reg : Register} {s1 : State}
    (h : PopToRegister cfg s type pinned = some (reg, s1)) (hc : s.consistent) :
    s1.consistent :=
  ⟨PopToRegister_consistent h hc.1, by
    rw [(PopToRegister_frame h).2.2.2.1]; exact hc.2⟩

theorem emit_consistent {s : State} (h : s.consistent) (i : Instr) : (s.emit i).consistent := h

theorem PushRegister_consistent {s : State} (h : s.consistent) (reg : Register) :
    (PushRegister s reg).consistent :=
  ⟨consistent_push_register h.1 reg, h.2⟩

theorem push_params_consistent (cfg : Config) (n : Nat) :
    ∀ (s : State) (param_idx : Nat) (s1 : State), push_params cfg s param_idx n = some s1 →
      s.consistent → s1.consistent := by
  induction n with
  | zero =>
    intro s param_idx s1 h hc
    simp only [push_params, Option.some.injEq] at h
    subst h
    exact hc
  | succ n ih =>
    intro s param_idx s1 h hc
    unfold push_params at h
    split at h
    · split at h
      · exact ih _ _ _ h (PushRegister_consistent hc _)
      · exact ih _ _ _ h ⟨consistent_emplace_stack hc.1, hc.2⟩
    · cases hg : GetUnusedRegister cfg s (s.local_type param_idx) [] with
      | none => simp [hg] at h
      | some p =>
        obtain ⟨r, s2⟩ := p
        simp only [hg] at h
        have h2 : s2.consistent := GetUnusedRegister_state_consistent hg hc
        exact ih _ _ _ h (PushRegister_consistent (emit_consistent h2 _) r)
    · cases h

theorem push_locals_consistent (cfg : Config) (n : Nat) :
    ∀ (s : State) (param_idx : Nat) (s1 : State), push_locals cfg s param_idx n = some s1 →
      s.consistent → s1.consistent := by
  induction n with
  | zero =>
    intro s param_idx s1 h hc
    simp only [push_locals, Option.some.injEq] at h
    subst h
    exact hc
  | succ n ih =>
    intro s param_idx s1 h hc
    unfold push_locals at h
    split at h
    · exact ih _ _ _ h ⟨consistent_emplace_constant hc.1 0, hc.2⟩
    · cases h

theorem StartFunctionBody_consistent {cfg : Config} {s s1 : State}
    (h : StartFunctionBody cfg s = some s1) (hc : s.consistent) : s1.consistent := by
  unfold StartFunctionBody at h
  dsimp only at h
  have hc0 : ((s.emit .EnterFrame).emit (.ReserveStackSpace
      (cfg.kPointerSize * (s.num_locals + kMaxValueStackHeight)))).consistent := hc
  split at h
  · simp only [Option.some.injEq] at h
    subst h
    exact unsupported_consistent cfg _ _ hc0
  · split at h
    · cases h
    · rename_i s2 h2
      split at h
      · cases h
      · rename_i s3 h3
        split at h
        · cases h
        · rename_i block hb
          simp only [Option.some.injEq] at h
          subst h
          have hc3 := push_locals_consistent cfg _ _ _ _ h3
            (push_params_consistent cfg _ _ _ _ h2 hc0)
          refine CheckStackSizeLimit_consistent cfg _ ⟨hc3.1, ?_⟩
          exact controls_consistent_set hc3.2 (hc3.2 block (List.getElem?_mem hb))

theorem Block_consistent {cfg : Config} {s s1 : State} (h : Block cfg s = some s1)
    (hc : s.consistent) : s1.consistent := by
  unfold Block at h
  split at h
  · cases h
  · rename_i new_block hb
    have hbl : new_block.label_state.consistent := hc.2 new_block (List.getElem?_mem hb)
    dsimp only at h
    split at h
    · simp only [Option.some.injEq] at h
      subst h
      have hsp : (spillLocalsFrom s.cache_state 0 s.num_locals).1.consistent :=
        spillLocalsFrom_consistent _ _ _ hc.1
      refine ⟨hsp, ?_⟩
      simp only [State.set_control, bind_control, State.emit, SpillLocals]
      exact controls_consistent_set
        (controls_consistent_set (controls_consistent_set hc.2 hbl) hbl) hsp
    · simp only [Option.some.injEq] at h
      subst h
      exact ⟨hc.1, controls_consistent_set hc.2 hbl⟩

theorem FallThruTo_consistent {cfg : Config} {s s1 : State} {depth : Nat}
    (h : FallThruTo cfg s depth = some s1) (hc : s.consistent) : s1.consistent := by
  unfold FallThruTo at h
  split at h
  · cases h
  · split at h
    · simp only [Option.some.injEq] at h
      subst h
      exact hc
    · simp only [Option.some.injEq] at h
      subst h
      exact ⟨hc.1, controls_consistent_set hc.2 hc.1⟩

theorem PopControl_consistent {cfg : Config} {s s1 : State} {depth : Nat}
    (h : PopControl cfg s depth = some s1) (hc : s.consistent) : s1.consistent := by
  unfold PopControl at h
  split at h
  · cases h
  · rename_i c hcd
    have hcl : c.label_state.consistent := hc.2 c (List.getElem?_mem hcd)
    dsimp only at h
    have h1 : (if (!c.is_loop && c.end_merge.reached) = true then
        { s with cache_state := s.cache_state.Steal c.label_state } else s).consistent := by
      split
      · exact ⟨hcl, hc.2⟩
      · exact hc
    split at h
    · simp only [Option.some.injEq] at h
      subst h
      refine ⟨h1.1, ?_⟩
      simp only [bind_control, State.set_control, State.emit]
      exact controls_consistent_set h1.2 hcl
    · simp only [Option.some.injEq] at h
      subst h
      exact h1

theorem Drop_consistent {cfg : Config} {s s1 : State} (h : Drop cfg s = some s1)
    (hc : s.consistent) : s1.consistent := by
  unfold Drop at h
  split at h
  · cases h
  · rename_i slot hl
    simp only [Option.some.injEq] at h
    subst h
    exact ⟨consistent_drop_top hc.1 hl, hc.2⟩

theorem Br_consistent {cfg : Config} {s s1 : State} {depth : Nat}
    (h : Br cfg s depth = some s1) (hc : s.consistent) : s1.consistent := by
  unfold Br at h
  split at h
  · cases h
  · rename_i target ht
    simp only [Option.some.injEq] at h
    subst h
    refine ⟨hc.1, ?_⟩
    simp only [MergeStackWith, MergeFullStackWith, State.set_control, State.emit]
    refine controls_consistent_set hc.2 ?_
    split
    · exact hc.1
    · exact hc.2 target (List.getElem?_mem ht)

theorem BrIf_consistent {cfg : Config} {s s1 : State} {depth : Nat}
    (h : BrIf cfg s depth = some s1) (hc : s.consistent) : s1.consistent := by
  unfold BrIf at h
  split at h
  · cases h
  · rename_i value s2 hp
    split at h
    · cases h
    · rename_i s3 hb
      simp only [Option.some.injEq] at h
      subst h
      have h2 : s2.consistent := PopToRegister_state_consistent hp hc
      have h3 : s3.consistent := Br_consistent hb h2
      exact h3

theorem BinOp_consistent {cfg : Config} {s s1 : State} {opcode : WasmOpcode}
    (h : BinOp cfg s opcode = some s1) (hc : s.consistent) : s1.consistent := by
  unfold BinOp at h
  split at h
  · simp only [Option.some.injEq] at h
    subst h
    exact unsupported_consistent cfg s _ hc
  · split at h
    · cases h
    · rename_i target_reg s2 h2
      split at h
      · cases h
      · rename_i rhs_reg s3 h3
        split at h
        · cases h
        · rename_i lhs_reg s4 h4
          simp only [Option.some.injEq] at h
          subst h
          have c2 : s2.consistent := ⟨GetBinaryOpTargetRegister_consistent h2 hc.1, by
            rw [(GetBinaryOpTargetRegister_frame h2).2.2.2.1]; exact hc.2⟩
          have c4 : s4.consistent :=
            PopToRegister_state_consistent h4 (PopToRegister_state_consistent h3 c2)
          exact PushRegister_consistent (emit_consistent c4 _) target_reg

theorem GetLocal_consistent {cfg : Config} {s s1 : State} {index : Nat}
    (h : GetLocal cfg s index = some s1) (hc : s.consistent) : s1.consistent := by
  unfold GetLocal at h
  split at h
  · cases h
  · simp only [Option.some.injEq] at h
    subst h
    exact CheckStackSizeLimit_consistent cfg _ (PushRegister_consistent hc _)
  · simp only [Option.some.injEq] at h
    subst h
    exact CheckStackSizeLimit_consistent cfg _ ⟨consistent_emplace_constant hc.1 _, hc.2⟩
  · split at h
    · cases h
    · rename_i reg s2 hg
      simp only [Option.some.injEq] at h
      subst h
      have h2 : s2.consistent := GetUnusedRegister_state_consistent hg hc
      have h3 : (Fill s2 reg index).consistent := h2
      exact CheckStackSizeLimit_consistent cfg _ (PushRegister_consistent h3 reg)

theorem DoReturn_consistent {cfg : Config} {s s1 : State} {values : Nat} {implicit : Bool}
    (h : DoReturn cfg s values implicit = some s1) (hc : s.consistent) : s1.consistent := by
  unfold DoReturn at h
  dsimp only at h
  split at h
  · cases h
  · rename_i sa ha
    have hsa : sa.consistent := by
      split at ha
      · split at ha
        · cases ha
        · rename_i func_block hf
          simp only [Option.some.injEq] at ha
          subst ha
          have hfl := hc.2 func_block (List.getElem?_mem hf)
          refine ⟨hfl, ?_⟩
          simp only [bind_control, State.set_control, State.emit]
          exact controls_consistent_set hc.2 hfl
      · simp only [Option.some.injEq] at ha
        subst ha
        exact hc
    split at h
    · cases h
    · rename_i sb hb
      simp only [Option.some.injEq] at h
      subst h
      have hsb : sb.consistent := by
        split at hb
        · split at hb
          · cases hb
          · rename_i reg s3 hp
            simp only [Option.some.injEq] at hb
            subst hb
            have hmid : (if values > 1 then unsupported cfg sa "multi-return" else sa).consistent := by
              split
              · exact unsupported_consistent cfg sa _ hsa
              · exact hsa
            have h3 : s3.consistent := PopToRegister_state_consistent hp hmid
            exact h3
        · simp only [Option.some.injEq] at hb
          subst hb
          exact hsa
      exact hsb

/-- What the decoder's validation guarantees of a call of `SetLocal` or
`TeeLocal`: the index names a local and the operand stack holds a value. -/
def Handler.validated (s : State) : Handler → Bool
  | .SetLocal index => index < s.num_locals && s.num_locals < s.cache_state.stack_height
  | .TeeLocal index => index < s.num_locals && s.num_locals < s.cache_state.stack_height
  | _ => true

/-- C1: register-use consistency is an invariant of every handler.  When the
use count of every register equals the number of slots (locals and operand
stack entries) holding that register, in the ambient cache state and in the
cache state kept by every control construct, the same holds after any handler
call (for `SetLocal` and `TeeLocal`: a call the decoder validated, with a value
on the operand stack above the locals).  This includes `SetLocal` with a
spilled source and a target register used more than once, and a
`GetUnusedRegister` that has to spill. -/
theorem C1_register_use_consistency_invariant (cfg : Config) (s s1 : State) (h : Handler)
    (hv : h.validated s = true) (hc : s.consistent) (hcall : h.call cfg s = some s1) :
    s1.consistent := by
  cases h <;> simp only [Handler.call, Option.some.injEq] at hcall
  case StartFunction =>
    subst hcall
    unfold StartFunction
    split
    · exact unsupported_consistent cfg s _ hc
    · exact hc
  case StartFunctionBody => exact StartFunctionBody_consistent hcall hc
  case FinishFunction => subst hcall; exact hc
  case OnFirstError =>
    subst hcall
    rw [OnFirstError_eq]
    refine ⟨hc.1, ?_⟩
    intro c hm
    dsimp only at hm
    split at hm
    · obtain ⟨c0, hc0, rfl⟩ := List.mem_map.mp hm
      exact hc.2 c0 hc0
    · exact hc.2 c hm
  case Block => exact Block_consistent hcall hc
  case Loop => exact Block_consistent hcall hc
  case FallThruTo => exact FallThruTo_consistent hcall hc
  case PopControl => exact PopControl_consistent hcall hc
  case EndControl => subst hcall; exact hc
  case BinOp => exact BinOp_consistent hcall hc
  case I32Const =>
    subst hcall
    exact CheckStackSizeLimit_consistent cfg _ ⟨consistent_emplace_constant hc.1 _, hc.2⟩
  case Drop => exact Drop_consistent hcall hc
  case DoReturn => exact DoReturn_consistent hcall hc
  case GetLocal => exact GetLocal_consistent hcall hc
  case SetLocal index =>
    simp only [Handler.validated, Bool.and_eq_true, decide_eq_true_eq] at hv
    exact ⟨SetLocal.impl_consistent hcall hc.1 (by omega), by
      rw [(SetLocal.impl_frame hcall).2.2.2.1]; exact hc.2⟩
  case TeeLocal index =>
    simp only [Handler.validated, Bool.and_eq_true, decide_eq_true_eq] at hv
    exact ⟨SetLocal.impl_consistent hcall hc.1 (by omega), by
      rw [(SetLocal.impl_frame hcall).2.2.2.1]; exact hc.2⟩
  case Br => exact Br_consistent hcall hc
  case BrIf => exact BrIf_consistent hcall hc
  all_goals (subst hcall; exact unsupported_consistent cfg s _ hc)

/-- Two locals sharing register 0, every cache register in use, and a spilled
value on top of the operand stack. -/
def allRegistersInUse : State :=
  { num_locals := 2
    cache_state :=
      { stack_state := [.kRegister 0, .kRegister 0, .kRegister 1, .kRegister 2, .kStack]
        register_use_count := fun r => if r = 0 then 2 else if r = 1 then 1 else if r = 2 then 1 else 0 } }

theorem allRegistersInUse_consistent : allRegistersInUse.consistent := by
  refine ⟨?_, by intro c hc; cases hc⟩
  intro reg
  by_cases h0 : reg = 0
  · subst h0; rfl
  · by_cases h1 : reg = 1
    · subst h1; rfl
    · by_cases h2 : reg = 2
      · subst h2; rfl
      · simp [allRegistersInUse, CacheState.slot_count, h0, h1, h2, Ne.symm h0, Ne.symm h1,
          Ne.symm h2]

/-- C1 at a concrete input: `SetLocal 1` with a spilled source, a target
register used twice and no free cache register, so that `GetUnusedRegister`
spills register 1. -/
theorem C1_register_use_consistency_witness :
    ∃ s1 : State, Handler.call releaseBuild allRegistersInUse (.SetLocal 1) = some s1 ∧
      s1.cache_state.stack_state = [.kRegister 0, .kRegister 1, .kStack, .kRegister 2] ∧
      s1.code = [.Spill 2 1, .Fill 1 4] ∧
      s1.consistent :=
  ⟨_, rfl, rfl, rfl,
    C1_register_use_consistency_invariant releaseBuild allRegistersInUse _ (.SetLocal 1) rfl
      allRegistersInUse_consistent rfl⟩

/-! ## Running the emitted code: spill and fill are transparent -/

/-- The machine the emitted code runs on: the register file and the frame
slots. -/
structure Machine where
  regs : Register → Int
  frame : Nat → Int

/-- Effect of one emitted data-movement instruction on the machine.  The
other instructions do not occur in the code of the local handlers, or (label
bindings) move no data. -/
def Instr.exec (m : Machine) : Instr → Machine
  | .Fill reg index => { m with regs := Function.update m.regs reg (m.frame index) }
  | .Spill index reg => { m with frame := Function.update m.frame index (m.regs reg) }
  | .SpillConstant index value => { m with frame := Function.update m.frame index value }
  | .LoadConstant reg value => { m with regs := Function.update m.regs reg value }
  | .Move dst src => { m with regs := Function.update m.regs dst (m.regs src) }
  | _ => m

/-- The machine after running a piece of emitted code. -/
def Machine.exec (m : Machine) (code : List Instr) : Machine :=
  code.foldl Instr.exec m

/-- The value a slot at position `index` denotes: the content of its register,
its literal, or the frame slot of its own index. -/
def VarState.denote (m : Machine) (index : Nat) : VarState → Int
  | .kStack => m.frame index
  | .kRegister reg => m.regs reg
  | .kConstant value => value

/-- State of the reference stack machine: the values of the locals and the
operand stack (top last). -/
structure RefState where
  locals : List Int
  stack : List Int
  deriving DecidableEq, Repr

/-- The instructions on constants and locals. -/
inductive LocalOp where
  | I32Const (value : Int)
  | GetLocal (index : Nat)
  | SetLocal (index : Nat)
  | TeeLocal (index : Nat)
  deriving DecidableEq, Repr

/-- Reference semantics of one instruction: `i32.const` pushes its literal,
`get_local` pushes the local's value, `set_local` pops the top value into the
local, `tee_local` writes the top value to the local and keeps it. -/
def LocalOp.ref (r : RefState) : LocalOp → Option RefState
  | .I32Const value => some { r with stack := r.stack ++ [value] }
  | .GetLocal index =>
    match r.locals[index]? with
    | none => none
    | some v => some { r with stack := r.stack ++ [v] }
  | .SetLocal index =>
    match r.stack.getLast? with
    | none => none
    | some v =>
      if index < r.locals.length then
        some { locals := r.locals.set index v, stack := r.stack.dropLast }
      else none
  | .TeeLocal index =>
    match r.stack.getLast? with
    | none => none
    | some v =>
      if index < r.locals.length then some { r with locals := r.locals.set index v }
      else none

/-- Reference semantics of a sequence of instructions. -/
def RefState.run (r : RefState) : List LocalOp → Option RefState
  | [] => some r
  | op :: rest =>
    match op.ref r with
    | none => none
    | some r1 => r1.run rest

/-- The handler the decoder calls for an instruction. -/
def LocalOp.handler : LocalOp → Handler
  | .I32Const value => .I32Const value
  | .GetLocal index => .GetLocal index
  | .SetLocal index => .SetLocal index
  | .TeeLocal index => .TeeLocal index

/-- The slots `slots`, read on machine `m`, hold the values `vals`, position
by position. -/
def denotes (m : Machine) (slots : List VarState) (vals : List Int) : Prop :=
  slots.length = vals.length ∧
    ∀ (index : Nat) (slot : VarState), slots[index]? = some slot →
      vals[index]? = some (slot.denote m index)

theorem Machine.exec_append (m : Machine) (a b : List Instr) :
    m.exec (a ++ b) = (m.exec a).exec b := by
  simp [Machine.exec, List.foldl_append]

theorem Machine.exec_nil (m : Machine) : m.exec [] = m := rfl

theorem exec_binds (m : Machine) (binds : List Instr)
    (h : ∀ i ∈ binds, ∃ l : LabelId, i = .bind l) : m.exec binds = m := by
  induction binds generalizing m with
  | nil => rfl
  | cons a rest ih =>
    obtain ⟨l, rfl⟩ := h _ (List.mem_cons_self _ _)
    simp only [Machine.exec, List.foldl_cons, Instr.exec]
    exact ih m (fun i hi => h i (List.mem_cons_of_mem _ hi))

/-- Running the stores of `spillCode` leaves the registers alone and writes
the victim's content to the frame slot of every slot that held it. -/
theorem exec_spillCode (reg : Register) :
    ∀ (slots : List VarState) (k : Nat) (m : Machine),
      (m.exec (spillCode reg k slots)).regs = m.regs ∧
      ∀ j : Nat, (m.exec (spillCode reg k slots)).frame j =
        if k ≤ j ∧ slots[j - k]? = some (.kRegister reg) then m.regs reg else m.frame j := by
  intro slots
  induction slots with
  | nil =>
    intro k m
    simp [spillCode, Machine.exec]
  | cons a rest ih =>
    intro k m
    unfold spillCode
    rw [Machine.exec_append]
    by_cases ha : a = .kRegister reg
    · subst ha
      simp only [if_true]
      obtain ⟨h1, h2⟩ := ih (k + 1) (m.exec [.Spill k reg])
      have hm : m.exec [.Spill k reg]
          = { m with frame := Function.update m.frame k (m.regs reg) } := rfl
      refine ⟨by rw [h1, hm], ?_⟩
      intro j
      rw [h2 j, hm]
      by_cases hj : j = k
      · subst hj
        simp
      · by_cases hlt : k + 1 ≤ j
        · have hk : k ≤ j := by omega
          have hsub : j - k = (j - (k + 1)) + 1 := by omega
          simp only [hlt, hk, true_and, hsub, List.getElem?_cons_succ, Function.update_apply, hj,
            if_false]
        · have hk : ¬ k ≤ j := by omega
          simp [hlt, hk, Function.update_apply, hj]
    · simp only [ha, if_false, Machine.exec_nil]
      obtain ⟨h1, h2⟩ := ih (k + 1) m
      refine ⟨h1, ?_⟩
      intro j
      rw [h2 j]
      by_cases hj : j = k
      · subst hj
        simp [ha]
      · by_cases hlt : k + 1 ≤ j
        · have hk : k ≤ j := by omega
          have hsub : j - k = (j - (k + 1)) + 1 := by omega
          simp only [hlt, hk, true_and, hsub, List.getElem?_cons_succ]
        · have hk : ¬ k ≤ j := by omega
          simp [hlt, hk]

theorem denotes_spilled {m : Machine} {slots : List VarState} {vals : List Int}
    (h : denotes m slots vals) (reg : Register) :
    denotes (m.exec (spillCode reg 0 slots)) (spillSlots reg slots) vals := by
  obtain ⟨hlen, hval⟩ := h
  obtain ⟨hregs, hframe⟩ := exec_spillCode reg slots 0 m
  refine ⟨by rw [spillSlots_length]; exact hlen, ?_⟩
  intro index slot hs
  rw [spillSlots_getElem?] at hs
  cases ho : slots[index]? with
  | none => simp [ho] at hs
  | some old =>
    simp only [ho, Option.map_some', Option.some.injEq] at hs
    subst hs
    rw [hval index old ho]
    congr 1
    by_cases hv : old = .kRegister reg
    · subst hv
      simp only [VarState.spilled, if_true, VarState.denote]
      rw [hframe index]
      simp [ho]
    · simp only [VarState.spilled, hv, if_false]
      cases old with
      | kStack =>
        simp only [VarState.denote]
        rw [hframe index]
        simp [ho]
      | kRegister r => simp only [VarState.denote, hregs]
      | kConstant v => rfl

theorem not_mem_spillSlots (reg : Register) (slots : List VarState) :
    .kRegister reg ∉ spillSlots reg slots := by
  intro hm
  have := List.count_pos_iff.mpr hm
  rw [count_spillSlots] at this
  simp at this

/-- `GetUnusedRegister` keeps the value of every slot, and the register it
hands out is held by no slot, provided a use count of zero means so. -/
theorem GetUnusedRegister_denotes {cfg : Config} {s : State} {type : ValueType}
    {pinned : List Register} {reg : Register} {s1 : State} {m : Machine} {vals : List Int}
    (h : GetUnusedRegister cfg s type pinned = some (reg, s1))
    (hd : denotes m s.cache_state.stack_state vals)
    (hz : ∀ r, s.cache_state.register_use_count r = 0 → .kRegister r ∉ s.cache_state.stack_state) :
    ∃ new : List Instr, s1.code = s.code ++ new ∧
      denotes (m.exec new) s1.cache_state.stack_state vals ∧
      .kRegister reg ∉ s1.cache_state.stack_state ∧
      ∀ index : Nat, s.cache_state.stack_state[index]? = some .kStack →
        s1.cache_state.stack_state[index]? = some .kStack := by
  rcases GetUnusedRegister_eq_some h with ⟨rfl, _, h0, _⟩ | ⟨_, _, rfl⟩
  · exact ⟨[], by simp, hd, hz reg h0, fun _ hi => hi⟩
  · refine ⟨spillCode reg 0 s.cache_state.stack_state, rfl, denotes_spilled hd reg,
      not_mem_spillSlots reg _, ?_⟩
    intro index hi
    simp only [State.spilled]
    rw [spillSlots_getElem?, hi]
    rfl

theorem denotes_push {m : Machine} {slots : List VarState} {vals : List Int}
    (h : denotes m slots vals) (slot : VarState) :
    denotes m (slots ++ [slot]) (vals ++ [slot.denote m slots.length]) := by
  obtain ⟨hlen, hval⟩ := h
  refine ⟨by simp [hlen], ?_⟩
  intro index sl hs
  by_cases hlt : index < slots.length
  · rw [List.getElem?_append_left hlt] at hs
    rw [List.getElem?_append_left (by omega)]
    exact hval index sl hs
  · have hge : slots.length ≤ index := by omega
    rw [List.getElem?_append_right hge] at hs
    rw [List.getElem?_append_right (by omega)]
    have hix : index - slots.length = 0 := by
      by_contra hne
      have : 1 ≤ index - slots.length := by omega
      rw [List.getElem?_eq_none (by simpa using this)] at hs
      cases hs
    rw [hix] at hs
    simp only [List.getElem?_cons_zero, Option.some.injEq] at hs
    subst hs
    have hidx : index = slots.length := by omega
    subst hidx
    simp [hlen]

theorem denotes_dropLast {m : Machine} {slots : List VarState} {vals : List Int}
    (h : denotes m slots vals) : denotes m slots.dropLast vals.dropLast := by
  obtain ⟨hlen, hval⟩ := h
  refine ⟨by simp [hlen], ?_⟩
  intro index sl hs
  have hlt : index < slots.length - 1 := by
    have := (List.getElem?_eq_some_iff.mp hs).1
    simpa using this
  rw [List.dropLast_eq_take] at hs ⊢
  rw [List.getElem?_take_of_lt hlt] at hs
  rw [List.getElem?_take_of_lt (by omega)]
  exact hval index sl hs

/-- Overwriting the slot at `index` by a slot whose value does not depend on
its position. -/
theorem denotes_set {m : Machine} {slots : List VarState} {vals : List Int}
    (h : denotes m slots vals) (index : Nat) (slot : VarState) (v : Int)
    (hv : slot.denote m index = v) :
    denotes m (slots.set index slot) (vals.set index v) := by
  obtain ⟨hlen, hval⟩ := h
  refine ⟨by simp [hlen], ?_⟩
  intro j sl hs
  rw [List.getElem?_set] at hs ⊢
  by_cases hj : index = j
  · subst hj
    simp only [if_true] at hs ⊢
    split at hs
    · simp only [Option.some.injEq] at hs
      subst hs
      rw [if_pos (by omega), hv]
    · cases hs
  · simp only [hj, if_false] at hs ⊢
    exact hval j sl hs

/-- A fill into a register that no other slot holds changes the value of the
slot that receives the register and of no other slot. -/
theorem denotes_fill {m : Machine} {slots : List VarState} {vals : List Int}
    (h : denotes m slots vals) (reg : Register) (source : Nat)
    (hfresh : ∀ j : Nat, slots[j]? = some (.kRegister reg) → False) :
    denotes (m.exec [.Fill reg source]) slots vals := by
  obtain ⟨hlen, hval⟩ := h
  refine ⟨hlen, ?_⟩
  intro j sl hs
  rw [hval j sl hs]
  congr 1
  cases sl with
  | kStack => rfl
  | kConstant v => rfl
  | kRegister r =>
    have hne : r ≠ reg := by
      intro he
      subst he
      exact hfresh j hs
    simp [VarState.denote, Machine.exec, Instr.exec, Function.update_apply, hne]

theorem exec_fill_regs (m : Machine) (reg : Register) (source : Nat) :
    (m.exec [.Fill reg source]).regs reg = m.frame source := by
  simp [Machine.exec, Instr.exec]

/-- The code generator's state `s`, read on machine `m`, agrees with the
state `r` of the reference machine. -/
def Sim (s : State) (m : Machine) (r : RefState) : Prop :=
  s.cache_state.consistent ∧ s.num_locals = r.locals.length ∧
    denotes m s.cache_state.stack_state (r.locals ++ r.stack)

theorem CheckStackSizeLimit_clean (cfg : Config) (s : State) :
    (CheckStackSizeLimit cfg s).cache_state = s.cache_state ∧
    (CheckStackSizeLimit cfg s).num_locals = s.num_locals ∧
    ∃ binds : List Instr, (CheckStackSizeLimit cfg s).code = s.code ++ binds ∧
      ∀ i ∈ binds, ∃ l : LabelId, i = .bind l := by
  rw [CheckStackSizeLimit_eq]
  split
  · refine ⟨(unsupported_clean cfg s _).2.1, ?_, (unsupported_clean cfg s _).2.2⟩
    rw [unsupported_eq]
  · exact ⟨rfl, rfl, [], by simp, by intro i hi; cases hi⟩

theorem not_mem_of_count_zero {cs : CacheState} (h : cs.consistent) (r : Register)
    (h0 : cs.register_use_count r = 0) : .kRegister r ∉ cs.stack_state := by
  intro hm
  have := List.count_pos_iff.mpr hm
  have h1 := h r
  simp only [CacheState.slot_count] at h1
  omega

theorem mem_of_count_ne_zero {cs : CacheState} (h : cs.consistent) (r : Register)
    (h0 : cs.register_use_count r ≠ 0) : .kRegister r ∈ cs.stack_state := by
  have h1 := h r
  simp only [CacheState.slot_count] at h1
  exact List.count_pos_iff.mp (by omega)

/-- After a push and the stack-height guard the reference machine is still
matched; the guard emits label bindings at most. -/
theorem Sim_after_check (cfg : Config) (s0 : State) (m : Machine) (r : RefState)
    (h : Sim s0 m r) (code0 : List Instr) (new : List Instr) (hcode : s0.code = code0 ++ new)
    (m0 : Machine) (hm : m0.exec new = m) :
    ∃ new1 : List Instr, (CheckStackSizeLimit cfg s0).code = code0 ++ new1 ∧
      Sim (CheckStackSizeLimit cfg s0) (m0.exec new1) r := by
  obtain ⟨hcs, hnl, binds, hb, hall⟩ := CheckStackSizeLimit_clean cfg s0
  refine ⟨new ++ binds, by rw [hb, hcode, List.append_assoc], ?_⟩
  rw [Machine.exec_append, hm, exec_binds m binds hall]
  unfold Sim
  rw [hcs, hnl]
  exact h

theorem I32Const_sim (cfg : Config) {s : State} {m : Machine} {r : RefState} (value : Int)
    (h : Sim s m r) :
    ∃ new : List Instr, (I32Const cfg s value).code = s.code ++ new ∧
      Sim (I32Const cfg s value) (m.exec new) { r with stack := r.stack ++ [value] } := by
  unfold I32Const
  refine Sim_after_check cfg _ m { r with stack := r.stack ++ [value] } ?_ s.code []
    (by simp) m rfl
  refine ⟨consistent_emplace_constant h.1 value, h.2.1, ?_⟩
  have := denotes_push h.2.2 (.kConstant value)
  simp only [CacheState.emplace_back, ← List.append_assoc]
  exact this

theorem GetLocal_sim (cfg : Config) {s : State} {m : Machine} {r : RefState} (index : Nat)
    (v : Int) (h : Sim s m r) (hne : cfg.kGpCacheRegs ≠ []) (hv : r.locals[index]? = some v) :
    ∃ (s1 : State) (new : List Instr), GetLocal cfg s index = some s1 ∧
      s1.code = s.code ++ new ∧ Sim s1 (m.exec new) { r with stack := r.stack ++ [v] } := by
  obtain ⟨hc, hn, hd⟩ := h
  have hlt : index < r.locals.length := (List.getElem?_eq_some_iff.mp hv).1
  have hvv : (r.locals ++ r.stack)[index]? = some v := by
    rw [List.getElem?_append_left hlt]; exact hv
  have hlen : index < s.cache_state.stack_state.length := by
    rw [hd.1, List.length_append]; omega
  obtain ⟨slot, hslot⟩ : ∃ slot, s.cache_state.stack_state[index]? = some slot :=
    ⟨_, List.getElem?_eq_getElem hlen⟩
  have hval := hd.2 index slot hslot
  rw [hvv, Option.some.injEq] at hval
  unfold GetLocal
  rw [hslot]
  cases slot with
  | kRegister reg =>
    obtain ⟨new, h1, h2⟩ := Sim_after_check cfg (PushRegister s reg) m
      { r with stack := r.stack ++ [v] }
      ⟨consistent_push_register hc reg, hn, by
        have := denotes_push hd (.kRegister reg)
        simp only [PushRegister, CacheState.emplace_back, CacheState.inc_used,
          ← List.append_assoc]
        rw [hval]
        exact this⟩ s.code [] (by simp [PushRegister]) m rfl
    exact ⟨_, new, rfl, h1, h2⟩
  | kConstant c =>
    obtain ⟨new, h1, h2⟩ := Sim_after_check cfg
      { s with cache_state := s.cache_state.emplace_back (.kConstant c) } m
      { r with stack := r.stack ++ [v] }
      ⟨consistent_emplace_constant hc c, hn, by
        have := denotes_push hd (.kConstant c)
        simp only [CacheState.emplace_back, ← List.append_assoc]
        rw [hval]
        exact this⟩ s.code [] (by simp) m rfl
    exact ⟨_, new, rfl, h1, h2⟩
  | kStack =>
    obtain ⟨r0, hr0⟩ := List.exists_mem_of_ne_nil _ hne
    obtain ⟨reg, s2, hg⟩ := GetUnusedRegister_isSome cfg s (s.local_type index) [] r0 hr0
      (by simp) (mem_of_count_ne_zero hc r0)
    obtain ⟨new1, hcode1, hd1, hfresh, hkeep⟩ :=
      GetUnusedRegister_denotes hg hd (not_mem_of_count_zero hc)
    have hc2 := GetUnusedRegister_consistent hg hc
    have hn2 := (GetUnusedRegister_frame hg).2.2.1
    simp only [hg]
    have hslot2 := hkeep index hslot
    have hval2 := hd1.2 index .kStack hslot2
    rw [hvv, Option.some.injEq] at hval2
    have hd2 : denotes ((m.exec new1).exec [.Fill reg index]) s2.cache_state.stack_state
        (r.locals ++ r.stack) :=
      denotes_fill hd1 reg index (fun j hj => hfresh (List.getElem?_mem hj))
    obtain ⟨new, h1, h2⟩ := Sim_after_check cfg
      (PushRegister (Fill s2 reg index) reg) ((m.exec new1).exec [.Fill reg index])
      { r with stack := r.stack ++ [v] }
      ⟨consistent_push_register hc2 reg, by rw [← hn]; exact hn2, by
        have := denotes_push hd2 (.kRegister reg)
        simp only [PushRegister, Fill, State.emit, CacheState.emplace_back, CacheState.inc_used,
          ← List.append_assoc]
        simp only [VarState.denote, exec_fill_regs] at this
        rw [hval2]
        exact this⟩ s.code (new1 ++ [.Fill reg index])
      (by simp [PushRegister, Fill, State.emit, hcode1]) m (by rw [Machine.exec_append])
    exact ⟨_, new, rfl, h1, h2⟩

theorem count_ge_two_of_two_positions {α : Type} [DecidableEq α] (a : α) :
    ∀ (l : List α) (i j : Nat), l[i]? = some a → l[j]? = some a → i < j → 2 ≤ l.count a := by
  intro l
  induction l with
  | nil => intro i j hi; simp at hi
  | cons b rest ih =>
    intro i j hi hj hlt
    cases j with
    | zero => omega
    | succ j =>
      simp only [List.getElem?_cons_succ] at hj
      cases i with
      | zero =>
        simp only [List.getElem?_cons_zero, Option.some.injEq] at hi
        subst hi
        have : 0 < rest.count b := List.count_pos_iff.mpr (List.getElem?_mem hj)
        simp only [List.count_cons_self]
        omega
      | succ i =>
        simp only [List.getElem?_cons_succ] at hi
        have := ih i j hi hj (by omega)
        rw [List.count_cons]
        omega

/-- A register used once is held by one slot only. -/
theorem unique_of_count_one {slots : List VarState} {reg : Register} {index j : Nat}
    (h1 : slots.count (.kRegister reg) = 1) (hi : slots[index]? = some (.kRegister reg))
    (hj : slots[j]? = some (.kRegister reg)) : j = index := by
  by_contra hne
  rcases Nat.lt_or_gt_of_ne hne with hlt | hgt
  · have := count_ge_two_of_two_positions _ slots j index hj hi hlt
    omega
  · have := count_ge_two_of_two_positions _ slots index j hi hj hgt
    omega

/-- A fill into the register of the slot at `index`, once no other slot holds
that register: the slot takes the value of the frame slot read, the others
keep theirs. -/
theorem denotes_set_fill {m : Machine} {slots : List VarState} {vals : List Int}
    (h : denotes m slots vals) (reg : Register) (source index : Nat)
    (hfresh : ∀ j : Nat, j ≠ index → slots[j]? ≠ some (.kRegister reg)) :
    denotes (m.exec [.Fill reg source]) (slots.set index (.kRegister reg))
      (vals.set index (m.frame source)) := by
  obtain ⟨hlen, hval⟩ := h
  refine ⟨by simp [hlen], ?_⟩
  intro j sl hs
  rw [List.getElem?_set] at hs ⊢
  by_cases hj : index = j
  · subst hj
    simp only [if_true] at hs ⊢
    split at hs
    · simp only [Option.some.injEq] at hs
      subst hs
      rw [if_pos (by omega)]
      simp [VarState.denote, Machine.exec, Instr.exec]
    · cases hs
  · simp only [hj, if_false] at hs ⊢
    rw [hval j sl hs]
    congr 1
    cases sl with
    | kStack => rfl
    | kConstant v => rfl
    | kRegister r =>
      have hne : r ≠ reg := by
        intro he
        subst he
        exact hfresh j (Ne.symm hj) hs
      simp [VarState.denote, Machine.exec, Instr.exec, Function.update_apply, hne]

theorem set_getElem?_self {α : Type} (l : List α) (index : Nat) (a : α)
    (h : l[index]? = some a) : l.set index a = l := by
  apply List.ext_getElem?
  intro j
  rw [List.getElem?_set]
  by_cases hj : index = j
  · subst hj
    simp only [if_true]
    rw [if_pos (List.getElem?_eq_some_iff.mp h).1, h]
  · simp [hj]

/-- The reference machine's view of `SetLocal` and `TeeLocal` on the flat list
of values. -/
theorem ref_set_flat (locals stack : List Int) (index : Nat) (v : Int)
    (hi : index < locals.length) (hv : stack.getLast? = some v) :
    (locals ++ stack).set index v = locals.set index v ++ stack ∧
    ((locals ++ stack).set index v).dropLast = locals.set index v ++ stack.dropLast ∧
    (locals ++ stack).getLast? = some v ∧
    (locals ++ stack)[(locals ++ stack).length - 1]? = some v ∧
    index + 1 < (locals ++ stack).length := by
  have hne : stack ≠ [] := by
    intro h0; simp [h0] at hv
  have hpos : 0 < stack.length := List.length_pos.mpr hne
  have hset : (locals ++ stack).set index v = locals.set index v ++ stack :=
    List.set_append_left _ _ hi
  have hlast : (locals ++ stack).getLast? = some v := by
    rw [List.getLast?_append_of_ne_nil _ hne]; exact hv
  refine ⟨hset, ?_, hlast, ?_, by rw [List.length_append]; omega⟩
  · rw [hset, List.dropLast_append_of_ne_nil _ hne]
  · rw [← List.getLast?_eq_getElem?]; exact hlast

theorem SetLocal.use_new_register_denotes (cfg : Config) {s : State} {m : Machine}
    {vals : List Int} (index : Nat) (v : Int) (hne : cfg.kGpCacheRegs ≠ [])
    (hd : denotes m s.cache_state.stack_state vals)
    (hz : ∀ r, s.cache_state.register_use_count r = 0 → .kRegister r ∉ s.cache_state.stack_state)
    (hheld : ∀ r, s.cache_state.register_use_count r ≠ 0 →
      .kRegister r ∈ s.cache_state.stack_state)
    (hlast : s.cache_state.stack_state.getLast? = some .kStack)
    (hvv : vals.getLast? = some v) :
    ∃ (s1 : State) (new : List Instr), SetLocal.use_new_register cfg s index = some s1 ∧
      s1.code = s.code ++ new ∧ s1.num_locals = s.num_locals ∧
      denotes (m.exec new) s1.cache_state.stack_state (vals.set index v) := by
  obtain ⟨r0, hr0⟩ := List.exists_mem_of_ne_nil _ hne
  obtain ⟨reg, s2, hg⟩ := GetUnusedRegister_isSome cfg s (s.local_type index) [] r0 hr0
    (by simp) (hheld r0)
  obtain ⟨new1, hcode1, hd1, hfresh, hkeep⟩ := GetUnusedRegister_denotes hg hd hz
  have hfr := GetUnusedRegister_frame hg
  have hh : s2.cache_state.stack_height = s.cache_state.stack_height := hfr.2.2.2.2.2.2
  simp only [CacheState.stack_height] at hh
  rw [List.getLast?_eq_getElem?] at hlast hvv
  have hl2 := hkeep _ hlast
  have hval := hd1.2 _ _ hl2
  rw [← hd.1] at hvv
  rw [hvv, Option.some.injEq] at hval
  unfold SetLocal.use_new_register
  simp only [hg]
  refine ⟨_, new1 ++ [.Fill reg (s.cache_state.stack_state.length - 1)], rfl, ?_, hfr.2.2.1, ?_⟩
  · simp [Fill, State.emit, hcode1, CacheState.stack_height, hh]
  · rw [Machine.exec_append]
    have := denotes_set_fill hd1 reg (s.cache_state.stack_state.length - 1) index
      (fun j _ hj => hfresh (List.getElem?_mem hj))
    simp only [VarState.denote] at hval
    rw [← hval] at this
    simpa [Fill, State.emit, CacheState.inc_used, CacheState.set_slot] using this

/-- The values after the assignment of `SetLocal.impl`, before the source is
popped. -/
theorem SetLocal.impl_denotes (cfg : Config) {s : State} {m : Machine} {vals : List Int}
    (index : Nat) (is_tee : Bool) (v : Int) (hne : cfg.kGpCacheRegs ≠ [])
    (hc : s.cache_state.consistent) (hd : denotes m s.cache_state.stack_state vals)
    (hi : index + 1 < vals.length) (hvv : vals.getLast? = some v) :
    ∃ (s1 : State) (new : List Instr), SetLocal.impl cfg s index is_tee = some s1 ∧
      s1.code = s.code ++ new ∧ s1.num_locals = s.num_locals ∧
      denotes (m.exec new) s1.cache_state.stack_state
        (if is_tee then vals.set index v else (vals.set index v).dropLast) := by
  have hlen := hd.1
  have hpos : s.cache_state.stack_state.length - 1 < s.cache_state.stack_state.length := by omega
  obtain ⟨source, hs⟩ : ∃ source, s.cache_state.stack_state.getLast? = some source := by
    rw [List.getLast?_eq_getElem?]
    exact ⟨_, List.getElem?_eq_getElem hpos⟩
  obtain ⟨target, ht⟩ : ∃ target, s.cache_state.stack_state[index]? = some target :=
    ⟨_, List.getElem?_eq_getElem (by omega)⟩
  have hsv : source.denote m (s.cache_state.stack_state.length - 1) = v := by
    have h1 := hs
    rw [List.getLast?_eq_getElem?] at h1
    have h2 := hd.2 _ _ h1
    have h3 := hvv
    rw [List.getLast?_eq_getElem?, ← hlen] at h3
    rw [h3, Option.some.injEq] at h2
    exact h2.symm
  -- the state after the `switch`, and the result once the source is popped
  have hfinish : ∀ (s2 : State) (new : List Instr),
      s2.code = s.code ++ new → s2.num_locals = s.num_locals →
      denotes (m.exec new) s2.cache_state.stack_state (vals.set index v) →
      ∃ (s1 : State) (new1 : List Instr),
        some (if !is_tee then { s2 with cache_state := s2.cache_state.pop_back } else s2) = some s1 ∧
        s1.code = s.code ++ new1 ∧ s1.num_locals = s.num_locals ∧
        denotes (m.exec new1) s1.cache_state.stack_state
          (if is_tee then vals.set index v else (vals.set index v).dropLast) := by
    intro s2 new h1 h2 h3
    cases is_tee with
    | true => exact ⟨s2, new, rfl, h1, h2, h3⟩
    | false => exact ⟨_, new, rfl, h1, h2, denotes_dropLast h3⟩
  unfold SetLocal.impl
  simp only [hs, ht]
  cases source with
  | kRegister reg =>
    refine hfinish _ [] (by cases is_tee <;> simp) (by cases is_tee <;> rfl) ?_
    have := denotes_set hd index (.kRegister reg) v hsv
    cases is_tee <;>
      simpa [CacheState.set_slot, CacheState.inc_used, DropStackSlot_stack_state,
        Machine.exec_nil] using this
  | kConstant c =>
    refine hfinish _ [] (by simp) rfl ?_
    have := denotes_set hd index (.kConstant c) v hsv
    simpa [CacheState.set_slot, DropStackSlot_stack_state, Machine.exec_nil] using this
  | kStack =>
    simp only [VarState.denote] at hsv
    have hnew : ∀ s0 : State, s0.code = s.code → s0.num_locals = s.num_locals →
        s0.cache_state.stack_state = s.cache_state.stack_state →
        (∀ r, s0.cache_state.register_use_count r = 0 →
          .kRegister r ∉ s0.cache_state.stack_state) →
        (∀ r, s0.cache_state.register_use_count r ≠ 0 →
          .kRegister r ∈ s0.cache_state.stack_state) →
        ∃ (s1 : State) (new1 : List Instr),
          (match SetLocal.use_new_register cfg s0 index with
            | none => none
            | some s1 =>
              some (if !is_tee then { s1 with cache_state := s1.cache_state.pop_back } else s1))
            = some s1 ∧
          s1.code = s.code ++ new1 ∧ s1.num_locals = s.num_locals ∧
          denotes (m.exec new1) s1.cache_state.stack_state
            (if is_tee then vals.set index v else (vals.set index v).dropLast) := by
      intro s0 h1 h2 h3 hz hheld
      obtain ⟨s2, new, e1, e2, e3, e4⟩ := SetLocal.use_new_register_denotes cfg index v hne
        (s := s0) (by rw [h3]; exact hd) hz hheld (by rw [h3]; exact hs) hvv
      rw [e1]
      exact hfinish s2 new (by rw [e2, h1]) (by rw [e3, h2]) e4
    cases target with
    | kRegister reg =>
      dsimp only
      by_cases h1 : (s.cache_state.register_use_count reg == 1) = true
      · simp only [h1, if_true]
        refine hfinish _ [.Fill reg (s.cache_state.stack_height - 1)] rfl rfl ?_
        have hcount : s.cache_state.stack_state.count (.kRegister reg) = 1 := by
          have := hc reg
          simp only [CacheState.slot_count] at this
          rw [← this]
          simpa using h1
        have := denotes_set_fill hd reg (s.cache_state.stack_state.length - 1) index
          (fun j hj hjr => hj (unique_of_count_one hcount ht hjr))
        rw [set_getElem?_self _ _ _ ht, hsv] at this
        exact this
      · simp only [h1, Bool.false_eq_true, if_false]
        have hmem : VarState.kRegister reg ∈ s.cache_state.stack_state := List.getElem?_mem ht
        have hcnt : 2 ≤ s.cache_state.register_use_count reg := by
          have h2 := hc reg
          have h3 := List.count_pos_iff.mpr hmem
          simp only [CacheState.slot_count] at h2
          have h4 : s.cache_state.register_use_count reg ≠ 1 := by simpa using h1
          omega
        refine hnew { s with cache_state := s.cache_state.dec_used reg } rfl rfl rfl ?_ ?_
        · intro r h0
          rw [dec_used_count] at h0
          by_cases hr : r = reg
          · subst hr
            simp only [if_true] at h0
            omega
          · simp only [hr, if_false, Nat.sub_zero] at h0
            exact not_mem_of_count_zero hc r h0
        · intro r h0
          rw [dec_used_count] at h0
          exact mem_of_count_ne_zero hc r (by omega)
    | kConstant c =>
      exact hnew s rfl rfl rfl (not_mem_of_count_zero hc) (mem_of_count_ne_zero hc)
    | kStack =>
      exact hnew s rfl rfl rfl (not_mem_of_count_zero hc) (mem_of_count_ne_zero hc)

theorem SetLocal.impl_sim (cfg : Config) {s : State} {m : Machine} {r : RefState}
    (index : Nat) (is_tee : Bool) (v : Int) (h : Sim s m r) (hne : cfg.kGpCacheRegs ≠ [])
    (hi : index < r.locals.length) (hv : r.stack.getLast? = some v) :
    ∃ (s1 : State) (new : List Instr), SetLocal.impl cfg s index is_tee = some s1 ∧
      s1.code = s.code ++ new ∧
      Sim s1 (m.exec new)
        { locals := r.locals.set index v, stack := if is_tee then r.stack else r.stack.dropLast } := by
  obtain ⟨hc, hn, hd⟩ := h
  obtain ⟨f1, f2, f3, _, f5⟩ := ref_set_flat r.locals r.stack index v hi hv
  obtain ⟨s1, new, e1, e2, e3, e4⟩ :=
    SetLocal.impl_denotes cfg index is_tee v hne hc hd f5 f3
  refine ⟨s1, new, e1, e2, ?_, ?_, ?_⟩
  · refine SetLocal.impl_consistent e1 hc ?_
    rw [CacheState.stack_height, hd.1]
    exact f5
  · rw [e3, hn]
    simp
  · cases is_tee with
    | true =>
      simp only [if_true] at e4 ⊢
      rw [f1] at e4
      exact e4
    | false =>
      simp only [Bool.false_eq_true, if_false] at e4 ⊢
      rw [f2] at e4
      exact e4

theorem LocalOp.step_sim (cfg : Config) (hne : cfg.kGpCacheRegs ≠ []) {s : State}
    {m : Machine} {r : RefState} (op : LocalOp) (r1 : RefState) (h : Sim s m r)
    (href : op.ref r = some r1) :
    ∃ (s1 : State) (new : List Instr), op.handler.call cfg s = some s1 ∧
      s1.code = s.code ++ new ∧ Sim s1 (m.exec new) r1 := by
  cases op with
  | I32Const value =>
    simp only [LocalOp.ref, Option.some.injEq] at href
    subst href
    obtain ⟨new, h1, h2⟩ := I32Const_sim cfg value h
    exact ⟨_, new, rfl, h1, h2⟩
  | GetLocal index =>
    simp only [LocalOp.ref] at href
    cases hv : r.locals[index]? with
    | none => simp [hv] at href
    | some v =>
      simp only [hv, Option.some.injEq] at href
      subst href
      exact GetLocal_sim cfg index v h hne hv
  | SetLocal index =>
    simp only [LocalOp.ref] at href
    cases hv : r.stack.getLast? with
    | none => simp [hv] at href
    | some v =>
      simp only [hv] at href
      split at href
      · rename_i hi
        simp only [Option.some.injEq] at href
        subst href
        exact SetLocal.impl_sim cfg index false v h hne hi hv
      · cases href
  | TeeLocal index =>
    simp only [LocalOp.ref] at href
    cases hv : r.stack.getLast? with
    | none => simp [hv] at href
    | some v =>
      simp only [hv] at href
      split at href
      · rename_i hi
        simp only [Option.some.injEq] at href
        subst href
        exact SetLocal.impl_sim cfg index true v h hne hi hv
      · cases href

theorem LocalOp.run_sim (cfg : Config) (hne : cfg.kGpCacheRegs ≠ []) :
    ∀ (ops : List LocalOp) (s : State) (m : Machine) (r r1 : RefState), Sim s m r →
      r.run ops = some r1 →
      ∃ (s1 : State) (new : List Instr), run cfg s (ops.map LocalOp.handler) = some s1 ∧
        s1.code = s.code ++ new ∧ Sim s1 (m.exec new) r1 := by
  intro ops
  induction ops with
  | nil =>
    intro s m r r1 h href
    simp only [RefState.run, Option.some.injEq] at href
    subst href
    exact ⟨s, [], rfl, by simp, h⟩
  | cons op rest ih =>
    intro s m r r1 h href
    unfold RefState.run at href
    cases hop : op.ref r with
    | none => simp [hop] at href
    | some r2 =>
      simp only [hop] at href
      obtain ⟨s2, new2, c2, e2, h2⟩ := LocalOp.step_sim cfg hne op r2 h hop
      obtain ⟨s1, new1, c1, e1, h1⟩ := ih s2 (m.exec new2) r2 r1 h2 href
      refine ⟨s1, new2 ++ new1, ?_, by rw [e1, e2, List.append_assoc], ?_⟩
      · simp only [List.map_cons, run, c2]
        exact c1
      · rw [Machine.exec_append]
        exact h1

theorem LocalOp.ref_locals_length {op : LocalOp} {r r1 : RefState} (h : op.ref r = some r1) :
    r1.locals.length = r.locals.length := by
  cases op <;> simp only [LocalOp.ref] at h
  · simp only [Option.some.injEq] at h
    subst h
    rfl
  · split at h
    · cases h
    · simp only [Option.some.injEq] at h
      subst h
      rfl
  · split at h
    · cases h
    · split at h
      · simp only [Option.some.injEq] at h
        subst h
        simp
      · cases h
  · split at h
    · cases h
    · split at h
      · simp only [Option.some.injEq] at h
        subst h
        simp
      · cases h

theorem RefState.run_locals_length :
    ∀ (ops : List LocalOp) (r r1 : RefState), r.run ops = some r1 →
      r1.locals.length = r.locals.length := by
  intro ops
  induction ops with
  | nil =>
    intro r r1 h
    simp only [RefState.run, Option.some.injEq] at h
    subst h
    rfl
  | cons op rest ih =>
    intro r r1 h
    unfold RefState.run at h
    cases hop : op.ref r with
    | none => simp [hop] at h
    | some r2 =>
      simp only [hop] at h
      rw [ih r2 r1 h, LocalOp.ref_locals_length hop]

/-- C2: spill and fill are transparent for locals.  Take a consistent cache
state whose slots, read on a machine `m` (register file and frame slots: a
register slot denotes the register's content, a constant slot its literal, a
spilled slot the frame slot of its own index), hold the values `locals ++
stack`, and any sequence of `I32Const`, `GetLocal`, `SetLocal`, `TeeLocal`
that the reference stack machine can run from there.  Then the handlers all
return, and after running the code they emitted, the slot of each local
denotes the value the reference machine has for that local, whatever was
spilled on the way. -/
theorem C2_spill_fill_transparent_for_locals (cfg : Config) (s : State) (m : Machine)
    (locals stack : List Int) (ops : List LocalOp) (r1 : RefState)
    (hne : cfg.kGpCacheRegs ≠ []) (hc : s.cache_state.consistent)
    (hn : s.num_locals = locals.length)
    (hd : denotes m s.cache_state.stack_state (locals ++ stack))
    (href : RefState.run { locals := locals, stack := stack } ops = some r1) :
    ∃ (s1 : State) (new : List Instr), run cfg s (ops.map LocalOp.handler) = some s1 ∧
      s1.code = s.code ++ new ∧ s1.num_locals = s.num_locals ∧
      r1.locals.length = s.num_locals ∧
      ∀ index : Nat, index < s.num_locals →
        ∃ slot : VarState, s1.cache_state.stack_state[index]? = some slot ∧
          r1.locals[index]? = some (slot.denote (m.exec new) index) := by
  obtain ⟨s1, new, c1, e1, hc1, hn1, hd1⟩ :=
    LocalOp.run_sim cfg hne ops s m { locals := locals, stack := stack } r1 ⟨hc, hn, hd⟩ href
  have hnum : s1.num_locals = s.num_locals := by
    rw [hn1, hn]
    exact RefState.run_locals_length ops _ r1 href
  refine ⟨s1, new, c1, e1, hnum, by rw [← hn1, hnum], ?_⟩
  intro index hi
  have hlt : index < r1.locals.length := by rw [← hn1, hnum]; exact hi
  have hlen : index < s1.cache_state.stack_state.length := by
    rw [hd1.1, List.length_append]; omega
  refine ⟨_, List.getElem?_eq_getElem hlen, ?_⟩
  have := hd1.2 index _ (List.getElem?_eq_getElem hlen)
  rw [List.getElem?_append_left hlt] at this
  exact this

/-- A register file with one cache register. -/
def oneRegister : Config := { DEBUG := false, kGpCacheRegs := [0] }

/-- Two locals, both spilled. -/
def twoSpilledLocals : State :=
  { num_locals := 2, cache_state := { stack_state := [.kStack, .kStack] } }

/-- A machine whose frame slots 0 and 1 hold 10 and 20. -/
def frame_10_20 : Machine :=
  { regs := fun _ => 0, frame := fun i => if i = 0 then 10 else if i = 1 then 20 else 0 }

theorem twoSpilledLocals_denotes :
    denotes frame_10_20 twoSpilledLocals.cache_state.stack_state ([10, 20] ++ []) := by
  refine ⟨rfl, ?_⟩
  intro index slot hs
  rcases index with _ | _ | n
  · simp only [twoSpilledLocals, List.getElem?_cons_zero, Option.some.injEq] at hs
    subst hs
    rfl
  · simp only [twoSpilledLocals, List.getElem?_cons_succ, List.getElem?_cons_zero,
      Option.some.injEq] at hs
    subst hs
    rfl
  · simp [twoSpilledLocals] at hs

theorem twoSpilledLocals_consistent : twoSpilledLocals.cache_state.consistent := by
  intro reg
  simp [twoSpilledLocals, CacheState.slot_count]

/-- C2 at a concrete input: two spilled locals are swapped through the operand
stack with a single cache register, which is spilled twice on the way. -/
theorem C2_spill_fill_transparent_witness :
    (run oneRegister twoSpilledLocals
        [.GetLocal 0, .GetLocal 1, .SetLocal 0, .SetLocal 1]).map (fun s => s.code)
      = some [.Fill 0 0, .Spill 2 0, .Fill 0 1, .Spill 0 0, .Fill 0 2] ∧
    ∃ (s1 : State) (new : List Instr),
      run oneRegister twoSpilledLocals
        ([LocalOp.GetLocal 0, .GetLocal 1, .SetLocal 0, .SetLocal 1].map LocalOp.handler)
        = some s1 ∧
      s1.code = twoSpilledLocals.code ++ new ∧ s1.num_locals = twoSpilledLocals.num_locals ∧
      ({ locals := [20, 10], stack := [] } : RefState).locals.length
        = twoSpilledLocals.num_locals ∧
      ∀ index : Nat, index < twoSpilledLocals.num_locals →
        ∃ slot : VarState, s1.cache_state.stack_state[index]? = some slot ∧
          ({ locals := [20, 10], stack := [] } : RefState).locals[index]?
            = some (slot.denote (frame_10_20.exec new) index) :=
  ⟨rfl,
    C2_spill_fill_transparent_for_locals oneRegister twoSpilledLocals frame_10_20 [10, 20] []
      [.GetLocal 0, .GetLocal 1, .SetLocal 0, .SetLocal 1] { locals := [20, 10], stack := [] }
      (by decide) twoSpilledLocals_consistent rfl twoSpilledLocals_denotes rfl⟩

/-! ## Constants and locals: stack effect -/

/-- The stack-height guard changes neither the cache state nor the locals; it
emits no native instruction, and nothing at all while the operand stack is
within the limit. -/
theorem CheckStackSizeLimit_effect (cfg : Config) (s : State) :
    (CheckStackSizeLimit cfg s).cache_state = s.cache_state ∧
    (CheckStackSizeLimit cfg s).num_locals = s.num_locals ∧
    ∃ binds : List Instr, (CheckStackSizeLimit cfg s).code = s.code ++ binds ∧
      (∀ i ∈ binds, i.is_native = false) ∧
      (s.cache_state.stack_height ≤ s.num_locals + kMaxValueStackHeight → binds = []) := by
  rw [CheckStackSizeLimit_eq]
  split
  · rename_i hlt
    obtain ⟨_, h2, binds, h3, h4⟩ := unsupported_clean cfg s "value stack grows too large"
    refine ⟨h2, by rw [unsupported_eq], binds, h3, ?_, by intro h; omega⟩
    intro i hi
    obtain ⟨l, rfl⟩ := h4 i hi
    rfl
  · refine ⟨rfl, rfl, [], ?_, ?_, ?_⟩
    · simp
    · intro i hi
      cases hi
    · intro _
      rfl

/-- C16: a constant push is bookkeeping.  `I32Const v` appends one `Constant v`
slot to the slots, leaves the register use table and every existing slot as
they were, and emits no native instruction (nothing at all while the operand
stack is within its limit). -/
theorem C16_I32Const_is_pure_bookkeeping (cfg : Config) (s : State) (value : Int) :
    (I32Const cfg s value).cache_state.stack_state
      = s.cache_state.stack_state ++ [.kConstant value] ∧
    (I32Const cfg s value).cache_state.register_use_count
      = s.cache_state.register_use_count ∧
    (∀ (index : Nat) (slot : VarState), s.cache_state.stack_state[index]? = some slot →
      (I32Const cfg s value).cache_state.stack_state[index]? = some slot) ∧
    ∃ binds : List Instr, (I32Const cfg s value).code = s.code ++ binds ∧
      (∀ i ∈ binds, i.is_native = false) ∧
      (s.cache_state.stack_height + 1 ≤ s.num_locals + kMaxValueStackHeight → binds = []) := by
  unfold I32Const
  obtain ⟨h1, _, binds, h3, h4, h5⟩ := CheckStackSizeLimit_effect cfg
    { s with cache_state := s.cache_state.emplace_back (.kConstant value) }
  rw [h1]
  refine ⟨rfl, rfl, ?_, binds, h3, h4, ?_⟩
  · intro index slot hs
    have hlt : index < s.cache_state.stack_state.length := (List.getElem?_eq_some_iff.mp hs).1
    simp only [CacheState.emplace_back]
    rw [List.getElem?_append_left hlt]
    exact hs
  · intro hle
    apply h5
    simpa [CacheState.emplace_back, CacheState.stack_height] using hle

theorem mem_spillCode (reg : Register) :
    ∀ (slots : List VarState) (k : Nat) (i : Instr), i ∈ spillCode reg k slots →
      ∃ index : Nat, i = .Spill index reg := by
  intro slots
  induction slots with
  | nil => intro k i hi; simp [spillCode] at hi
  | cons a rest ih =>
    intro k i hi
    unfold spillCode at hi
    rcases List.mem_append.mp hi with h1 | h1
    · split at h1
      · simp only [List.mem_singleton] at h1
        exact ⟨k, h1⟩
      · cases h1
    · exact ih (k + 1) i h1

/-- What `GetUnusedRegister` does to the state: it emits stores of the
register it hands out only, leaves that register with use count zero and the
other use counts alone, and changes no slot other than those holding the
register, which become spilled. -/
theorem GetUnusedRegister_effect {cfg : Config} {s : State} {type : ValueType}
    {pinned : List Register} {reg : Register} {s1 : State}
    (h : GetUnusedRegister cfg s type pinned = some (reg, s1)) :
    reg ∉ pinned ∧
    (∃ spills : List Instr, s1.code = s.code ++ spills ∧
      ∀ i ∈ spills, ∃ index : Nat, i = .Spill index reg) ∧
    s1.cache_state.register_use_count reg = 0 ∧
    (∀ r, r ≠ reg → s1.cache_state.register_use_count r = s.cache_state.register_use_count r) ∧
    s1.cache_state.stack_state.length = s.cache_state.stack_state.length ∧
    (∀ (index : Nat) (slot : VarState), s.cache_state.stack_state[index]? = some slot →
      slot ≠ .kRegister reg → s1.cache_state.stack_state[index]? = some slot) := by
  rcases GetUnusedRegister_eq_some h with ⟨rfl, _, h0, hp⟩ | ⟨hfree, hv, rfl⟩
  · exact ⟨hp, ⟨[], by simp, by intro i hi; cases hi⟩, h0, fun _ _ => rfl, rfl,
      fun _ _ hs _ => hs⟩
  · refine ⟨(spillVictim_mem hv).2, ⟨_, rfl, fun i hi => mem_spillCode reg _ 0 i hi⟩, ?_, ?_,
      spillSlots_length _ _, ?_⟩
    · simp [State.spilled]
    · intro r hr
      simp [State.spilled, Function.update_apply, hr]
    · intro index slot hs hne
      simp only [State.spilled]
      rw [spillSlots_getElem?, hs]
      simp [VarState.spilled, hne]

/-- C14: `GetLocal` pushes a copy of the local.  For a local index below
`num_locals`, `GetLocal` returns, raises the stack height by exactly one and
leaves the local's own slot unchanged.  The new top slot is `Register r`, with
the use count of `r` raised by exactly one and no native instruction emitted,
when the local is `Register r`; it is `Constant c`, with the use table
unchanged and no native instruction emitted, when the local is `Constant c`;
and when the local is spilled it is a register handed out by
`GetUnusedRegister`, with use count 1, loaded by exactly one fill from frame
slot `index` (stores of the allocator may precede the fill). -/
theorem C14_GetLocal_pushes_copy_of_local (cfg : Config) (s : State) (index : Nat)
    (hi : index < s.num_locals) (hn : s.num_locals ≤ s.cache_state.stack_height)
    (hc : s.cache_state.consistent) (hne : cfg.kGpCacheRegs ≠ []) :
    ∃ (s1 : State) (loc top : VarState), GetLocal cfg s index = some s1 ∧
      s.cache_state.stack_state[index]? = some loc ∧
      s1.cache_state.stack_height = s.cache_state.stack_height + 1 ∧
      s1.cache_state.stack_state[index]? = some loc ∧
      s1.cache_state.stack_state[s.cache_state.stack_height]? = some top ∧
      (∀ r, loc = .kRegister r →
        top = .kRegister r ∧
        s1.cache_state.register_use_count r = s.cache_state.register_use_count r + 1 ∧
        (∀ r1, r1 ≠ r →
          s1.cache_state.register_use_count r1 = s.cache_state.register_use_count r1) ∧
        ∃ binds : List Instr, s1.code = s.code ++ binds ∧ ∀ i ∈ binds, i.is_native = false) ∧
      (∀ c, loc = .kConstant c →
        top = .kConstant c ∧
        s1.cache_state.register_use_count = s.cache_state.register_use_count ∧
        ∃ binds : List Instr, s1.code = s.code ++ binds ∧ ∀ i ∈ binds, i.is_native = false) ∧
      (loc = .kStack →
        ∃ (reg : Register) (spills binds : List Instr),
          top = .kRegister reg ∧ s1.cache_state.register_use_count reg = 1 ∧
          s1.code = s.code ++ spills ++ [.Fill reg index] ++ binds ∧
          (∀ i ∈ spills, ∃ j : Nat, i = .Spill j reg) ∧
          (∀ i ∈ binds, i.is_native = false)) := by
  have hlen : index < s.cache_state.stack_state.length := by
    simp only [CacheState.stack_height] at hn; omega
  obtain ⟨loc, hloc⟩ : ∃ loc, s.cache_state.stack_state[index]? = some loc :=
    ⟨_, List.getElem?_eq_getElem hlen⟩
  unfold GetLocal
  rw [hloc]
  cases loc with
  | kRegister reg =>
    obtain ⟨e1, _, binds, e3, e4, _⟩ := CheckStackSizeLimit_effect cfg (PushRegister s reg)
    refine ⟨_, .kRegister reg, .kRegister reg, rfl, rfl, ?_, ?_, ?_, ?_, ?_, ?_⟩
    · rw [e1]; simp [PushRegister, CacheState.emplace_back, CacheState.inc_used,
        CacheState.stack_height]
    · rw [e1]
      simp only [PushRegister, CacheState.emplace_back, CacheState.inc_used]
      rw [List.getElem?_append_left hlen]; exact hloc
    · rw [e1]
      simp [PushRegister, CacheState.emplace_back, CacheState.inc_used, CacheState.stack_height]
    · intro r hr
      cases hr
      rw [e1]
      refine ⟨rfl, ?_, ?_, binds, e3, e4⟩
      · simp [PushRegister, CacheState.emplace_back, CacheState.inc_used]
      · intro r1 hr1
        simp [PushRegister, CacheState.emplace_back, CacheState.inc_used, Function.update_apply,
          hr1]
    · intro c hcc; cases hcc
    · intro hk; cases hk
  | kConstant c =>
    obtain ⟨e1, _, binds, e3, e4, _⟩ := CheckStackSizeLimit_effect cfg
      { s with cache_state := s.cache_state.emplace_back (.kConstant c) }
    refine ⟨_, .kConstant c, .kConstant c, rfl, rfl, ?_, ?_, ?_, ?_, ?_, ?_⟩
    · rw [e1]; simp [CacheState.emplace_back, CacheState.stack_height]
    · rw [e1]
      simp only [CacheState.emplace_back]
      rw [List.getElem?_append_left hlen]; exact hloc
    · rw [e1]
      simp [CacheState.emplace_back, CacheState.stack_height]
    · intro r hr; cases hr
    · intro c1 hcc
      cases hcc
      rw [e1]
      exact ⟨rfl, rfl, binds, e3, e4⟩
    · intro hk; cases hk
  | kStack =>
    obtain ⟨r0, hr0⟩ := List.exists_mem_of_ne_nil _ hne
    obtain ⟨reg, s2, hg⟩ := GetUnusedRegister_isSome cfg s (s.local_type index) [] r0 hr0
      (by simp) (mem_of_count_ne_zero hc r0)
    obtain ⟨_, ⟨spills, g1, g2⟩, g3, _, g5, g6⟩ := GetUnusedRegister_effect hg
    simp only [hg]
    obtain ⟨e1, _, binds, e3, e4, _⟩ := CheckStackSizeLimit_effect cfg
      (PushRegister (Fill s2 reg index) reg)
    have hloc2 := g6 index .kStack hloc (by intro h; cases h)
    refine ⟨_, .kStack, .kRegister reg, rfl, rfl, ?_, ?_, ?_, ?_, ?_, ?_⟩
    · rw [e1]; simp [PushRegister, Fill, State.emit, CacheState.emplace_back, CacheState.inc_used,
        CacheState.stack_height, g5]
    · rw [e1]
      simp only [PushRegister, Fill, State.emit, CacheState.emplace_back, CacheState.inc_used]
      rw [List.getElem?_append_left (by rw [g5]; exact hlen)]; exact hloc2
    · rw [e1]
      simp only [PushRegister, Fill, State.emit, CacheState.emplace_back, CacheState.inc_used,
        CacheState.stack_height, ← g5]
      simp
    · intro r hr; cases hr
    · intro c hcc; cases hcc
    · intro _
      refine ⟨reg, spills, binds, rfl, ?_, ?_, g2, e4⟩
      · rw [e1]
        simp [PushRegister, Fill, State.emit, CacheState.emplace_back, CacheState.inc_used, g3]
      · rw [e3]
        simp [PushRegister, Fill, State.emit, g1]

/-- A spilled local under a full register file: `GetLocal` has to spill. -/
def spilledLocalNoFreeRegister : State :=
  { num_locals := 1
    cache_state :=
      { stack_state := [.kStack, .kRegister 0]
        register_use_count := fun r => if r = 0 then 1 else 0 } }

theorem spilledLocalNoFreeRegister_consistent :
    spilledLocalNoFreeRegister.cache_state.consistent := by
  intro reg
  by_cases h0 : reg = 0
  · subst h0; rfl
  · simp [spilledLocalNoFreeRegister, CacheState.slot_count, h0, Ne.symm h0]

/-- C14 at a concrete input: a spilled local is read with the single cache
register in use. -/
theorem C14_GetLocal_pushes_copy_witness :
    (GetLocal oneRegister spilledLocalNoFreeRegister 0).map (fun s => s.code)
      = some [.Spill 1 0, .Fill 0 0] ∧
    (GetLocal oneRegister spilledLocalNoFreeRegister 0).map (fun s => s.cache_state.stack_state)
      = some [.kStack, .kStack, .kRegister 0] ∧
    ∃ (s1 : State) (loc top : VarState),
      GetLocal oneRegister spilledLocalNoFreeRegister 0 = some s1 ∧
      spilledLocalNoFreeRegister.cache_state.stack_state[0]? = some loc ∧
      s1.cache_state.stack_height = spilledLocalNoFreeRegister.cache_state.stack_height + 1 ∧
      s1.cache_state.stack_state[0]? = some loc ∧
      s1.cache_state.stack_state[spilledLocalNoFreeRegister.cache_state.stack_height]?
        = some top :=
  ⟨rfl, rfl, by
    obtain ⟨s1, loc, top, h1, h2, h3, h4, h5, _⟩ :=
      C14_GetLocal_pushes_copy_of_local oneRegister spilledLocalNoFreeRegister 0
        (by decide) (by decide) spilledLocalNoFreeRegister_consistent (by decide)
    exact ⟨s1, loc, top, h1, h2, h3, h4, h5⟩⟩

/-- The state after the assignment of `SetLocal.impl`: the source is popped
unless the call is a tee. -/
def SetLocal.finish (is_tee : Bool) (s : State) : State :=
  if !is_tee then { s with cache_state := s.cache_state.pop_back } else s

theorem SetLocal.impl_register {cfg : Config} {s : State} {index : Nat} {is_tee : Bool}
    {reg : Register} {target : VarState}
    (hs : s.cache_state.stack_state.getLast? = some (.kRegister reg))
    (ht : s.cache_state.stack_state[index]? = some target) :
    SetLocal.impl cfg s index is_tee =
      some (SetLocal.finish is_tee
        { s with cache_state :=
            if is_tee then
              ((DropStackSlot s.cache_state target).set_slot index (.kRegister reg)).inc_used reg
            else (DropStackSlot s.cache_state target).set_slot index (.kRegister reg) }) := by
  unfold SetLocal.impl
  simp only [hs, ht]
  rfl

theorem SetLocal.impl_constant {cfg : Config} {s : State} {index : Nat} {is_tee : Bool}
    {c : Int} {target : VarState}
    (hs : s.cache_state.stack_state.getLast? = some (.kConstant c))
    (ht : s.cache_state.stack_state[index]? = some target) :
    SetLocal.impl cfg s index is_tee =
      some (SetLocal.finish is_tee
        { s with cache_state :=
            (DropStackSlot s.cache_state target).set_slot index (.kConstant c) }) := by
  unfold SetLocal.impl
  simp only [hs, ht]
  rfl

theorem SetLocal.impl_stack_reuse {cfg : Config} {s : State} {index : Nat} {is_tee : Bool}
    {reg : Register}
    (hs : s.cache_state.stack_state.getLast? = some .kStack)
    (ht : s.cache_state.stack_state[index]? = some (.kRegister reg))
    (h1 : s.cache_state.register_use_count reg = 1) :
    SetLocal.impl cfg s index is_tee =
      some (SetLocal.finish is_tee (Fill s reg (s.cache_state.stack_height - 1))) := by
  unfold SetLocal.impl
  simp only [hs, ht, h1, beq_self_eq_true, if_true]
  rfl

theorem SetLocal.impl_stack_shared {cfg : Config} {s : State} {index : Nat} {is_tee : Bool}
    {reg : Register}
    (hs : s.cache_state.stack_state.getLast? = some .kStack)
    (ht : s.cache_state.stack_state[index]? = some (.kRegister reg))
    (h1 : s.cache_state.register_use_count reg ≠ 1) :
    SetLocal.impl cfg s index is_tee =
      (SetLocal.use_new_register cfg
        { s with cache_state := s.cache_state.dec_used reg } index).map
        (SetLocal.finish is_tee) := by
  unfold SetLocal.impl
  have hb : (s.cache_state.register_use_count reg == 1) = false := by simpa using h1
  simp only [hs, ht, hb, Bool.false_eq_true, if_false]
  cases SetLocal.use_new_register cfg { s with cache_state := s.cache_state.dec_used reg } index
    <;> rfl

theorem SetLocal.impl_stack_other {cfg : Config} {s : State} {index : Nat} {is_tee : Bool}
    {target : VarState}
    (hs : s.cache_state.stack_state.getLast? = some .kStack)
    (ht : s.cache_state.stack_state[index]? = some target)
    (hn : ∀ r, target ≠ .kRegister r) :
    SetLocal.impl cfg s index is_tee =
      (SetLocal.use_new_register cfg s index).map (SetLocal.finish is_tee) := by
  unfold SetLocal.impl
  simp only [hs, ht]
  cases target with
  | kRegister r => exact absurd rfl (hn r)
  | kConstant c => cases SetLocal.use_new_register cfg s index <;> rfl
  | kStack => cases SetLocal.use_new_register cfg s index <;> rfl

/-- What `SetLocal.use_new_register` does: it fills the value from the frame
slot of the top of the stack into the register `GetUnusedRegister` hands out,
and makes the local that register, with use count one. -/
theorem SetLocal.use_new_register_effect {cfg : Config} {s s1 : State} {local_index : Nat}
    (h : SetLocal.use_new_register cfg s local_index = some s1) :
    ∃ (reg : Register) (s2 : State),
      GetUnusedRegister cfg s (s.local_type local_index) [] = some (reg, s2) ∧
      s1 = { Fill s2 reg (s.cache_state.stack_height - 1) with
        cache_state :=
          (s2.cache_state.set_slot local_index (.kRegister reg)).inc_used reg } := by
  unfold SetLocal.use_new_register at h
  split at h
  · cases h
  · rename_i reg s2 hg
    simp only [Option.some.injEq] at h
    subst h
    refine ⟨reg, s2, hg, ?_⟩
    rw [(GetUnusedRegister_frame hg).2.2.2.2.2.2]
    rfl

theorem GetUnusedRegister_fresh {cfg : Config} {s : State} {type : ValueType}
    {pinned : List Register} {reg : Register} {s1 : State}
    (h : GetUnusedRegister cfg s type pinned = some (reg, s1))
    (hz : ∀ r, s.cache_state.register_use_count r = 0 → .kRegister r ∉ s.cache_state.stack_state) :
    .kRegister reg ∉ s1.cache_state.stack_state := by
  rcases GetUnusedRegister_eq_some h with ⟨rfl, _, h0, _⟩ | ⟨_, _, rfl⟩
  · exact hz reg h0
  · exact not_mem_spillSlots reg _

theorem getElem?_dropLast_of_lt {α : Type} (l : List α) (j : Nat) (h : j + 1 < l.length) :
    l.dropLast[j]? = l[j]? := by
  rw [List.dropLast_eq_take, List.getElem?_take_of_lt (by omega)]

theorem SetLocal.finish_getElem? (is_tee : Bool) (s : State) (j : Nat)
    (h : j + 1 < s.cache_state.stack_state.length) :
    (SetLocal.finish is_tee s).cache_state.stack_state[j]? = s.cache_state.stack_state[j]? := by
  cases is_tee with
  | true => rfl
  | false =>
    simp only [SetLocal.finish, Bool.not_false, if_true, CacheState.pop_back]
    exact getElem?_dropLast_of_lt _ _ h

theorem SetLocal.finish_frame (is_tee : Bool) (s : State) :
    (SetLocal.finish is_tee s).code = s.code ∧
    (SetLocal.finish is_tee s).cache_state.register_use_count
      = s.cache_state.register_use_count ∧
    (SetLocal.finish is_tee s).cache_state.stack_height + (if is_tee then 0 else 1)
      = s.cache_state.stack_height + (if s.cache_state.stack_state = [] ∧ is_tee = false then 1 else 0) := by
  cases is_tee with
  | true => simp [SetLocal.finish]
  | false =>
    refine ⟨rfl, rfl, ?_⟩
    simp only [SetLocal.finish, Bool.not_false, if_true, CacheState.pop_back,
      CacheState.stack_height, List.length_dropLast]
    by_cases h0 : s.cache_state.stack_state = []
    · simp [h0]
    · have := List.length_pos.mpr h0
      simp [h0]
      omega

/-- C20: `SetLocal` never clobbers an aliased register.  In a consistent
state whose top slot is spilled, `SetLocal` and `TeeLocal` on a local index
below `num_locals` emit exactly one fill, reading frame slot `stack_height-1`
(stores of the allocator may precede it).  When the local holds a register
whose use count is exactly 1, the fill goes to that register and nothing else
is emitted; otherwise the local's register, if any, is released and the
destination is the register `GetUnusedRegister` hands out.  At the moment of
the fill no slot other than the local refers to the destination, and
afterwards the local is `Register(destination)` with use count 1. -/
theorem C20_SetLocal_never_clobbers_aliased_register (cfg : Config) (s : State) (index : Nat)
    (is_tee : Bool) (hi : index < s.num_locals) (hn : s.num_locals < s.cache_state.stack_height)
    (hc : s.cache_state.consistent) (hne : cfg.kGpCacheRegs ≠ [])
    (hs : s.cache_state.stack_state.getLast? = some .kStack) :
    ∃ (s1 : State) (target : VarState) (dest : Register) (at_fill : State)
      (spills : List Instr),
      SetLocal.impl cfg s index is_tee = some s1 ∧
      s.cache_state.stack_state[index]? = some target ∧
      s1.code = s.code ++ spills ++ [.Fill dest (s.cache_state.stack_height - 1)] ∧
      (∀ i ∈ spills, ∃ j : Nat, i = .Spill j dest) ∧
      (∀ t, target = .kRegister t → s.cache_state.register_use_count t = 1 →
        dest = t ∧ at_fill = s ∧ spills = []) ∧
      ((∀ t, target = .kRegister t → s.cache_state.register_use_count t ≠ 1) →
        GetUnusedRegister cfg { s with cache_state := DropStackSlot s.cache_state target }
          (s.local_type index) [] = some (dest, at_fill)) ∧
      at_fill.code = s.code ++ spills ∧
      (∀ (j : Nat), j ≠ index → at_fill.cache_state.stack_state[j]? ≠ some (.kRegister dest)) ∧
      s1.cache_state.stack_state[index]? = some (.kRegister dest) ∧
      s1.cache_state.register_use_count dest = 1 := by
  simp only [CacheState.stack_height] at hn
  have hidx : index + 1 < s.cache_state.stack_state.length := by omega
  obtain ⟨target, ht⟩ : ∃ target, s.cache_state.stack_state[index]? = some target :=
    ⟨_, List.getElem?_eq_getElem (by omega)⟩
  obtain ⟨r0, hr0⟩ := List.exists_mem_of_ne_nil _ hne
  -- the path through `GetUnusedRegister`, from a state `s0` that has released the target
  have hnew : ∀ s0 : State, s0.code = s.code → s0.local_type = s.local_type →
      s0.cache_state.stack_state = s.cache_state.stack_state →
      (∀ r, s0.cache_state.register_use_count r = 0 →
        .kRegister r ∉ s0.cache_state.stack_state) →
      (∀ r, s0.cache_state.register_use_count r ≠ 0 →
        .kRegister r ∈ s0.cache_state.stack_state) →
      ∃ (s1 : State) (dest : Register) (at_fill : State) (spills : List Instr),
        (SetLocal.use_new_register cfg s0 index).map (SetLocal.finish is_tee) = some s1 ∧
        s1.code = s.code ++ spills ++ [.Fill dest (s.cache_state.stack_height - 1)] ∧
        (∀ i ∈ spills, ∃ j : Nat, i = .Spill j dest) ∧
        GetUnusedRegister cfg s0 (s.local_type index) [] = some (dest, at_fill) ∧
        at_fill.code = s.code ++ spills ∧
        (∀ (j : Nat), j ≠ index → at_fill.cache_state.stack_state[j]? ≠ some (.kRegister dest)) ∧
        s1.cache_state.stack_state[index]? = some (.kRegister dest) ∧
        s1.cache_state.register_use_count dest = 1 := by
    intro s0 e1 e2 e3 hz hheld
    obtain ⟨reg, s2, hg⟩ := GetUnusedRegister_isSome cfg s0 (s0.local_type index) [] r0 hr0
      (by simp) (hheld r0)
    have hfresh := GetUnusedRegister_fresh hg hz
    obtain ⟨_, ⟨spills, g1, g2⟩, g3, _, g5, _⟩ := GetUnusedRegister_effect hg
    have hu : SetLocal.use_new_register cfg s0 index = some
        { Fill s2 reg (s0.cache_state.stack_height - 1) with
          cache_state := (s2.cache_state.set_slot index (.kRegister reg)).inc_used reg } := by
      unfold SetLocal.use_new_register
      simp only [hg]
      rw [(GetUnusedRegister_frame hg).2.2.2.2.2.2]
      rfl
    rw [hu]
    rw [e2] at hg
    refine ⟨_, reg, s2, spills, rfl, ?_, g2, hg, by rw [g1, e1], ?_, ?_, ?_⟩
    · rw [(SetLocal.finish_frame _ _).1]
      simp [Fill, State.emit, g1, e1, CacheState.stack_height, e3]
    · intro j _ hj
      exact hfresh (List.getElem?_mem hj)
    · rw [SetLocal.finish_getElem? _ _ _ (by
        simp [CacheState.inc_used, CacheState.set_slot, g5, e3]; omega)]
      simp only [CacheState.inc_used, CacheState.set_slot]
      rw [List.getElem?_set_self (by rw [g5, e3]; omega)]
    · rw [(SetLocal.finish_frame _ _).2.1]
      simp [CacheState.inc_used, CacheState.set_slot, g3]
  cases target with
  | kRegister t =>
    by_cases h1 : s.cache_state.register_use_count t = 1
    · refine ⟨_, .kRegister t, t, s, [], SetLocal.impl_stack_reuse hs ht h1, ht, ?_, ?_, ?_, ?_,
        by simp, ?_, ?_, ?_⟩
      · rw [(SetLocal.finish_frame _ _).1]
        simp [Fill, State.emit]
      · intro i hi; cases hi
      · intro t1 ht1 _
        cases ht1
        exact ⟨rfl, rfl, rfl⟩
      · intro hall
        exact absurd h1 (hall t rfl)
      · intro j hj hjr
        have hcount : s.cache_state.stack_state.count (.kRegister t) = 1 := by
          have := hc t
          simp only [CacheState.slot_count] at this
          omega
        exact hj (unique_of_count_one hcount ht hjr)
      · rw [SetLocal.finish_getElem? _ _ _ (by simpa [Fill, State.emit] using hidx)]
        exact ht
      · rw [(SetLocal.finish_frame _ _).2.1]
        exact h1
    · have hmem : VarState.kRegister t ∈ s.cache_state.stack_state := List.getElem?_mem ht
      have hcnt : 2 ≤ s.cache_state.register_use_count t := by
        have h2 := hc t
        have h3 := List.count_pos_iff.mpr hmem
        simp only [CacheState.slot_count] at h2
        omega
      obtain ⟨s1, dest, at_fill, spills, a1, a2, a3, a4, a5, a6, a7, a8⟩ :=
        hnew { s with cache_state := s.cache_state.dec_used t } rfl rfl rfl
          (by
            intro r h0
            rw [dec_used_count] at h0
            by_cases hr : r = t
            · subst hr
              simp only [if_true] at h0
              omega
            · simp only [hr, if_false, Nat.sub_zero] at h0
              exact not_mem_of_count_zero hc r h0)
          (by
            intro r h0
            rw [dec_used_count] at h0
            exact mem_of_count_ne_zero hc r (by omega))
      refine ⟨s1, .kRegister t, dest, at_fill, spills, ?_, ht, a2, a3, ?_, ?_, a5, a6, a7, a8⟩
      · rw [SetLocal.impl_stack_shared hs ht h1]
        exact a1
      · intro t1 ht1 h11
        cases ht1
        exact absurd h11 h1
      · intro _
        exact a4
  | kConstant c =>
    obtain ⟨s1, dest, at_fill, spills, a1, a2, a3, a4, a5, a6, a7, a8⟩ :=
      hnew s rfl rfl rfl (not_mem_of_count_zero hc) (mem_of_count_ne_zero hc)
    refine ⟨s1, .kConstant c, dest, at_fill, spills, ?_, ht, a2, a3, ?_, ?_, a5, a6, a7, a8⟩
    · rw [SetLocal.impl_stack_other hs ht (by intro r hr; cases hr)]
      exact a1
    · intro t1 ht1; cases ht1
    · intro _
      exact a4
  | kStack =>
    obtain ⟨s1, dest, at_fill, spills, a1, a2, a3, a4, a5, a6, a7, a8⟩ :=
      hnew s rfl rfl rfl (not_mem_of_count_zero hc) (mem_of_count_ne_zero hc)
    refine ⟨s1, .kStack, dest, at_fill, spills, ?_, ht, a2, a3, ?_, ?_, a5, a6, a7, a8⟩
    · rw [SetLocal.impl_stack_other hs ht (by intro r hr; cases hr)]
      exact a1
    · intro t1 ht1; cases ht1
    · intro _
      exact a4

/-- C20 at a concrete input: the local shares register 0 with another local
and no cache register is free; the fill goes to register 1, which the
allocator spilled. -/
theorem C20_SetLocal_never_clobbers_witness :
    (SetLocal.impl releaseBuild allRegistersInUse 1 false).map (fun s => s.code)
      = some [.Spill 2 1, .Fill 1 4] ∧
    ∃ (s1 : State) (dest : Register),
      SetLocal.impl releaseBuild allRegistersInUse 1 false = some s1 ∧
      s1.cache_state.stack_state[1]? = some (.kRegister dest) ∧
      s1.cache_state.register_use_count dest = 1 :=
  ⟨rfl, by
    obtain ⟨s1, _, dest, _, _, h1, _, _, _, _, _, _, _, h9, h10⟩ :=
      C20_SetLocal_never_clobbers_aliased_register releaseBuild allRegistersInUse 1 false
        (by decide) (by decide) allRegistersInUse_consistent.1 (by decide) rfl
    exact ⟨s1, dest, h1, h9, h10⟩⟩

/-- Some cache register of the state is unused. -/
def State.has_free_register (cfg : Config) (s : State) : Prop :=
  ∃ r ∈ cfg.kGpCacheRegs, s.cache_state.register_use_count r = 0

/-- `SetLocal.impl` on a spilled source: the assignment leaves the height and
the spilled top as they are; a slot other than the local is unchanged, or, when
no cache register is free, spilled by the allocator. -/
theorem SetLocal.impl_stack_effect (cfg : Config) (s : State) (index : Nat)
    (hidx : index + 1 < s.cache_state.stack_state.length)
    (hc : s.cache_state.consistent) (hne : cfg.kGpCacheRegs ≠ [])
    (hs : s.cache_state.stack_state.getLast? = some .kStack) :
    ∃ u : State, (∀ is_tee, SetLocal.impl cfg s index is_tee = some (SetLocal.finish is_tee u)) ∧
      u.cache_state.stack_state.length = s.cache_state.stack_state.length ∧
      u.cache_state.stack_state.getLast? = some .kStack ∧
      ∀ (j : Nat) (slot : VarState), j ≠ index → s.cache_state.stack_state[j]? = some slot →
        u.cache_state.stack_state[j]? = some slot ∨
        ((∃ v, slot = .kRegister v) ∧ u.cache_state.stack_state[j]? = some .kStack ∧
          ¬ s.has_free_register cfg) := by
  obtain ⟨target, ht⟩ : ∃ target, s.cache_state.stack_state[index]? = some target :=
    ⟨_, List.getElem?_eq_getElem (by omega)⟩
  obtain ⟨r0, hr0⟩ := List.exists_mem_of_ne_nil _ hne
  have hnew : ∀ s0 : State,
      s0.cache_state.stack_state = s.cache_state.stack_state →
      (∀ r, s0.cache_state.register_use_count r ≤ s.cache_state.register_use_count r) →
      (∀ r, s0.cache_state.register_use_count r ≠ 0 →
        .kRegister r ∈ s0.cache_state.stack_state) →
      ∃ u : State, SetLocal.use_new_register cfg s0 index = some u ∧
        u.cache_state.stack_state.length = s.cache_state.stack_state.length ∧
        u.cache_state.stack_state.getLast? = some .kStack ∧
        ∀ (j : Nat) (slot : VarState), j ≠ index → s.cache_state.stack_state[j]? = some slot →
          u.cache_state.stack_state[j]? = some slot ∨
          ((∃ v, slot = .kRegister v) ∧ u.cache_state.stack_state[j]? = some .kStack ∧
            ¬ s.has_free_register cfg) := by
    intro s0 e3 hle hheld
    obtain ⟨reg, s2, hg⟩ := GetUnusedRegister_isSome cfg s0 (s0.local_type index) [] r0 hr0
      (by simp) (hheld r0)
    have hu : SetLocal.use_new_register cfg s0 index = some
        { Fill s2 reg (s0.cache_state.stack_height - 1) with
          cache_state := (s2.cache_state.set_slot index (.kRegister reg)).inc_used reg } := by
      unfold SetLocal.use_new_register
      simp only [hg]
      rw [(GetUnusedRegister_frame hg).2.2.2.2.2.2]
      rfl
    have hlen : s2.cache_state.stack_state.length = s.cache_state.stack_state.length := by
      rw [(GetUnusedRegister_effect hg).2.2.2.2.1, e3]
    refine ⟨_, hu, by simp [CacheState.inc_used, CacheState.set_slot, hlen], ?_, ?_⟩
    · exact SetLocal.use_new_register_getLast? hu (by rw [e3]; exact hs)
        (by rw [CacheState.stack_height, e3]; exact hidx)
    · intro j slot hj hslot
      simp only [CacheState.inc_used, CacheState.set_slot]
      rw [List.getElem?_set_ne (Ne.symm hj)]
      rcases GetUnusedRegister_eq_some hg with ⟨rfl, _⟩ | ⟨hfree, _, rfl⟩
      · left
        rw [e3]; exact hslot
      · simp only [State.spilled]
        rw [spillSlots_getElem?, e3, hslot]
        by_cases hv : slot = .kRegister reg
        · right
          refine ⟨⟨reg, hv⟩, by simp [VarState.spilled, hv], ?_⟩
          rintro ⟨r, hr, h0⟩
          have := hfree r hr (by have := hle r; omega)
          simp at this
        · left
          simp [VarState.spilled, hv]
  cases target with
  | kRegister t =>
    by_cases h1 : s.cache_state.register_use_count t = 1
    · refine ⟨Fill s t (s.cache_state.stack_height - 1),
        fun is_tee => SetLocal.impl_stack_reuse hs ht h1, rfl, hs, ?_⟩
      intro j slot _ hslot
      exact Or.inl hslot
    · obtain ⟨u, a1, a2, a3, a4⟩ := hnew { s with cache_state := s.cache_state.dec_used t } rfl
        (by intro r; rw [dec_used_count]; omega)
        (by
          intro r h0
          rw [dec_used_count] at h0
          exact mem_of_count_ne_zero hc r (by omega))
      refine ⟨u, fun is_tee => ?_, a2, a3, a4⟩
      rw [SetLocal.impl_stack_shared hs ht h1, a1]
      rfl
  | kConstant c =>
    obtain ⟨u, a1, a2, a3, a4⟩ := hnew s rfl (fun _ => Nat.le_refl _) (mem_of_count_ne_zero hc)
    refine ⟨u, fun is_tee => ?_, a2, a3, a4⟩
    rw [SetLocal.impl_stack_other hs ht (by intro r hr; cases hr), a1]
    rfl
  | kStack =>
    obtain ⟨u, a1, a2, a3, a4⟩ := hnew s rfl (fun _ => Nat.le_refl _) (mem_of_count_ne_zero hc)
    refine ⟨u, fun is_tee => ?_, a2, a3, a4⟩
    rw [SetLocal.impl_stack_other hs ht (by intro r hr; cases hr), a1]
    rfl

/-- `SetLocal.impl` on a register or constant source: the state after the
assignment, before the source is popped. -/
theorem SetLocal.impl_copy_effect (cfg : Config) (s : State) (index : Nat)
    (source target : VarState)
    (hs : s.cache_state.stack_state.getLast? = some source)
    (ht : s.cache_state.stack_state[index]? = some target) (hk : source ≠ .kStack) :
    ∃ u : State, (∀ is_tee, SetLocal.impl cfg s index is_tee = some (SetLocal.finish is_tee
        (if is_tee then u else
          { u with cache_state :=
              { u.cache_state with
                register_use_count := (DropStackSlot s.cache_state target).register_use_count } }))) ∧
      u.code = s.code ∧
      u.cache_state.stack_state = s.cache_state.stack_state.set index source ∧
      ∀ reg, u.cache_state.register_use_count reg
        = s.cache_state.register_use_count reg - target.holds reg + source.holds reg := by
  cases source with
  | kStack => exact absurd rfl hk
  | kRegister r =>
    refine ⟨{ s with cache_state :=
        ((DropStackSlot s.cache_state target).set_slot index (.kRegister r)).inc_used r }, ?_, rfl,
      ?_, ?_⟩
    · intro is_tee
      rw [SetLocal.impl_register hs ht]
      cases is_tee <;> rfl
    · simp [CacheState.inc_used, CacheState.set_slot, DropStackSlot_stack_state]
    · intro reg
      rw [inc_used_count, holds_kRegister]
      simp only [CacheState.set_slot]
      rw [DropStackSlot_count]
  | kConstant c =>
    refine ⟨{ s with cache_state :=
        (DropStackSlot s.cache_state target).set_slot index (.kConstant c) }, ?_, rfl, ?_, ?_⟩
    · intro is_tee
      rw [SetLocal.impl_constant hs ht]
      cases is_tee <;> rfl
    · simp [CacheState.set_slot, DropStackSlot_stack_state]
    · intro reg
      rw [holds_kConstant]
      simp only [CacheState.set_slot]
      rw [DropStackSlot_count]
      rfl

/-- C15, as stated, fails in its last clause: `SetLocal 1` with a spilled
source and no free cache register changes slot 2, which is neither the local
nor the top, from `Register 1` to spilled, because `GetUnusedRegister` spills
register 1. -/
theorem C15_allocator_spill_changes_another_slot :
    allRegistersInUse.num_locals = 2 ∧
    allRegistersInUse.cache_state.stack_state
      = [.kRegister 0, .kRegister 0, .kRegister 1, .kRegister 2, .kStack] ∧
    (SetLocal releaseBuild allRegistersInUse 1).map (fun s => s.cache_state.stack_state)
      = some [.kRegister 0, .kRegister 1, .kStack, .kRegister 2] ∧
    (TeeLocal releaseBuild allRegistersInUse 1).map (fun s => s.cache_state.stack_state)
      = some [.kRegister 0, .kRegister 1, .kStack, .kRegister 2, .kStack] := by
  refine ⟨rfl, rfl, rfl, rfl⟩

/-- C15 (amended): for a local index below `num_locals` and a non-empty operand
stack, `SetLocal` lowers the stack height by exactly one and `TeeLocal` leaves
the height and the top slot unchanged.  When the old top slot is a register or
a constant, the local's slot afterwards equals the old top slot, the use count
of the register the local held is lowered by one on account of the local (for
a tee the source register gains the use of the local), and nothing is emitted.
A slot other than the local and the top is unchanged, except that with a
spilled top and no free cache register the slots holding the register the
allocator spills become spilled. -/
theorem C15_SetLocal_TeeLocal_stack_effect (cfg : Config) (s : State) (index : Nat)
    (hi : index < s.num_locals) (hn : s.num_locals < s.cache_state.stack_height)
    (hc : s.cache_state.consistent) (hne : cfg.kGpCacheRegs ≠ []) :
    ∃ (s_set s_tee : State) (source target : VarState),
      SetLocal cfg s index = some s_set ∧ TeeLocal cfg s index = some s_tee ∧
      s.cache_state.stack_state.getLast? = some source ∧
      s.cache_state.stack_state[index]? = some target ∧
      s_set.cache_state.stack_height + 1 = s.cache_state.stack_height ∧
      s_tee.cache_state.stack_height = s.cache_state.stack_height ∧
      s_tee.cache_state.stack_state.getLast? = some source ∧
      (source ≠ .kStack →
        s_set.cache_state.stack_state[index]? = some source ∧
        s_tee.cache_state.stack_state[index]? = some source ∧
        (∀ reg, s_set.cache_state.register_use_count reg
          = s.cache_state.register_use_count reg - target.holds reg) ∧
        (∀ reg, s_tee.cache_state.register_use_count reg
          = s.cache_state.register_use_count reg - target.holds reg + source.holds reg) ∧
        s_set.code = s.code ∧ s_tee.code = s.code) ∧
      ∀ (j : Nat) (slot : VarState), j ≠ index → j + 1 < s.cache_state.stack_height →
        s.cache_state.stack_state[j]? = some slot →
        (s_set.cache_state.stack_state[j]? = some slot ∧
          s_tee.cache_state.stack_state[j]? = some slot) ∨
        (source = .kStack ∧ (∃ v, slot = .kRegister v) ∧ ¬ s.has_free_register cfg ∧
          s_set.cache_state.stack_state[j]? = some .kStack ∧
          s_tee.cache_state.stack_state[j]? = some .kStack) := by
  simp only [CacheState.stack_height] at hn ⊢
  have hidx : index + 1 < s.cache_state.stack_state.length := by omega
  have hpos : s.cache_state.stack_state.length - 1 < s.cache_state.stack_state.length := by omega
  obtain ⟨source, hs⟩ : ∃ source, s.cache_state.stack_state.getLast? = some source := by
    rw [List.getLast?_eq_getElem?]
    exact ⟨_, List.getElem?_eq_getElem hpos⟩
  obtain ⟨target, ht⟩ : ∃ target, s.cache_state.stack_state[index]? = some target :=
    ⟨_, List.getElem?_eq_getElem (by omega)⟩
  by_cases hk : source = .kStack
  · subst hk
    obtain ⟨u, hu, ulen, ulast, uother⟩ := SetLocal.impl_stack_effect cfg s index hidx hc hne hs
    refine ⟨SetLocal.finish false u, SetLocal.finish true u, .kStack, target, hu false, hu true,
      hs, ht, ?_, ?_, ulast, fun h => absurd rfl h, ?_⟩
    · simp only [SetLocal.finish, Bool.not_false, if_true, CacheState.pop_back,
        List.length_dropLast, ulen]
      omega
    · simpa [SetLocal.finish] using ulen
    · intro j slot hj hjlt hslot
      have e1 := SetLocal.finish_getElem? false u j (by rw [ulen]; exact hjlt)
      have e2 := SetLocal.finish_getElem? true u j (by rw [ulen]; exact hjlt)
      rcases uother j slot hj hslot with h1 | ⟨h1, h2, h3⟩
      · left
        rw [e1, e2]
        exact ⟨h1, h1⟩
      · right
        rw [e1, e2]
        exact ⟨rfl, h1, h3, h2, h2⟩
  · obtain ⟨u, hu, ucode, uslots, ucount⟩ :=
      SetLocal.impl_copy_effect cfg s index source target hs ht hk
    have hlenu : u.cache_state.stack_state.length = s.cache_state.stack_state.length := by
      rw [uslots, List.length_set]
    have h_set := hu false
    have h_tee := hu true
    simp only [Bool.false_eq_true, if_false, if_true] at h_set h_tee
    refine ⟨_, _, source, target, h_set, h_tee, hs, ht, ?_, ?_, ?_, fun _ => ⟨?_, ?_, ?_, ?_, ?_, ?_⟩,
      ?_⟩
    · simp only [SetLocal.finish, Bool.not_false, if_true, CacheState.pop_back,
        List.length_dropLast, hlenu]
      omega
    · simpa [SetLocal.finish] using hlenu
    · simp only [SetLocal.finish, Bool.not_true, Bool.false_eq_true, if_false, uslots]
      exact getLast?_set_same _ _ _ hs
    · rw [SetLocal.finish_getElem? _ _ _ (by simpa [hlenu] using hidx)]
      simp only [uslots]
      rw [List.getElem?_set_self (by omega)]
    · rw [SetLocal.finish_getElem? _ _ _ (by simpa [hlenu] using hidx), uslots,
        List.getElem?_set_self (by omega)]
    · intro reg
      rw [(SetLocal.finish_frame _ _).2.1]
      exact DropStackSlot_count _ _ _
    · intro reg
      rw [(SetLocal.finish_frame _ _).2.1]
      exact ucount reg
    · rw [(SetLocal.finish_frame _ _).1]
      exact ucode
    · rw [(SetLocal.finish_frame _ _).1]
      exact ucode
    · intro j slot hj hjlt hslot
      left
      rw [SetLocal.finish_getElem? _ _ _ (by simpa [hlenu] using hjlt),
        SetLocal.finish_getElem? _ _ _ (by simpa [hlenu] using hjlt)]
      simp only [uslots]
      rw [List.getElem?_set_ne (Ne.symm hj)]
      exact ⟨hslot, hslot⟩

/-- C15 (amended) at a concrete input: a register on top is written to a
local that holds a constant. -/
theorem C15_SetLocal_TeeLocal_witness :
    (SetLocal releaseBuild (PushRegister (stackOfHeight 0) 2) 0).map
      (fun s => s.cache_state.stack_state) = some [.kRegister 2, .kRegister 1] ∧
    ∃ (s_set s_tee : State),
      SetLocal releaseBuild (PushRegister (stackOfHeight 0) 2) 0 = some s_set ∧
      TeeLocal releaseBuild (PushRegister (stackOfHeight 0) 2) 0 = some s_tee ∧
      s_set.cache_state.stack_height + 1 = (PushRegister (stackOfHeight 0) 2).cache_state.stack_height ∧
      s_tee.cache_state.stack_height = (PushRegister (stackOfHeight 0) 2).cache_state.stack_height :=
  ⟨rfl, by
    obtain ⟨s_set, s_tee, _, _, h1, h2, _, _, h5, h6, _⟩ :=
      C15_SetLocal_TeeLocal_stack_effect releaseBuild (PushRegister (stackOfHeight 0) 2) 0
        (by decide) (by decide)
        (consistent_push_register (by
          intro reg
          by_cases h1 : reg = 1
          · subst h1; rfl
          · simp [stackOfHeight, CacheState.slot_count, h1, Ne.symm h1]) 2)
        (by decide)
    exact ⟨s_set, s_tee, h1, h2, h5, h6⟩⟩

theorem dropLast_set_append_last {α : Type} (l : List α) (index : Nat) (a : α)
    (h : l.getLast? = some a) : (l.set index a).dropLast ++ [a] = l.set index a :=
  List.dropLast_append_getLast? a (getLast?_set_same l index a h)

/-- C19: tee equals set-then-get.  With a register or a constant on top of a
non-empty operand stack and a local index below `num_locals`, `TeeLocal` and
`SetLocal` followed by `GetLocal` of the same local all return and yield the
same cache state (slots, use counts, `stack_base`); `TeeLocal` emits nothing
and the pair emits no native instruction (nothing at all while the operand
stack is within its limit). -/
theorem C19_tee_equals_set_then_get (cfg : Config) (s : State) (index : Nat)
    (source : VarState) (hi : index < s.num_locals)
    (hn : s.num_locals < s.cache_state.stack_height)
    (hs : s.cache_state.stack_state.getLast? = some source) (hk : source ≠ .kStack) :
    ∃ (s_tee s_set s_get : State),
      TeeLocal cfg s index = some s_tee ∧ SetLocal cfg s index = some s_set ∧
      GetLocal cfg s_set index = some s_get ∧
      s_get.cache_state = s_tee.cache_state ∧
      s_tee.code = s.code ∧
      ∃ binds : List Instr, s_get.code = s.code ++ binds ∧
        (∀ i ∈ binds, i.is_native = false) ∧
        (s.cache_state.stack_height ≤ s.num_locals + kMaxValueStackHeight → binds = []) := by
  simp only [CacheState.stack_height] at hn
  have hidx : index + 1 < s.cache_state.stack_state.length := by omega
  obtain ⟨target, ht⟩ : ∃ target, s.cache_state.stack_state[index]? = some target :=
    ⟨_, List.getElem?_eq_getElem (by omega)⟩
  have hslot : ∀ tbl : Register → Nat,
      (({ (DropStackSlot s.cache_state target).set_slot index source with
          register_use_count := tbl } : CacheState).pop_back).stack_state[index]? = some source := by
    intro tbl
    simp only [CacheState.pop_back, CacheState.set_slot, DropStackSlot_stack_state]
    rw [getElem?_dropLast_of_lt _ _ (by simpa using hidx), List.getElem?_set_self (by omega)]
  cases source with
  | kStack => exact absurd rfl hk
  | kRegister r =>
    have h_set := @SetLocal.impl_register cfg s index false r target hs ht
    have h_tee := @SetLocal.impl_register cfg s index true r target hs ht
    simp only [SetLocal.finish, Bool.not_false, Bool.not_true, Bool.false_eq_true, if_true,
      if_false] at h_set h_tee
    have hg : (({ s with cache_state :=
        ((DropStackSlot s.cache_state target).set_slot index (.kRegister r)).pop_back } :
        State).cache_state.stack_state)[index]? = some (.kRegister r) := hslot _
    obtain ⟨e1, e2, binds, e3, e4, e5⟩ := CheckStackSizeLimit_effect cfg
      (PushRegister { s with cache_state :=
        ((DropStackSlot s.cache_state target).set_slot index (.kRegister r)).pop_back } r)
    refine ⟨_, _, _, h_tee, h_set, ?_, ?_, rfl, binds, e3, e4, ?_⟩
    · unfold GetLocal
      simp only [hg]
    · rw [e1]
      simp only [PushRegister, CacheState.emplace_back, CacheState.inc_used,
        CacheState.pop_back, CacheState.set_slot, DropStackSlot_stack_state]
      rw [dropLast_set_append_last _ _ _ hs]
    · intro hle
      apply e5
      simp only [PushRegister, CacheState.emplace_back, CacheState.inc_used,
        CacheState.pop_back, CacheState.set_slot, DropStackSlot_stack_state,
        CacheState.stack_height, List.length_append, List.length_dropLast, List.length_set,
        List.length_singleton] at hle ⊢
      omega
  | kConstant c =>
    have h_set := @SetLocal.impl_constant cfg s index false c target hs ht
    have h_tee := @SetLocal.impl_constant cfg s index true c target hs ht
    simp only [SetLocal.finish, Bool.not_false, Bool.not_true, Bool.false_eq_true, if_true,
      if_false] at h_set h_tee
    have hg : (({ s with cache_state :=
        ((DropStackSlot s.cache_state target).set_slot index (.kConstant c)).pop_back } :
        State).cache_state.stack_state)[index]? = some (.kConstant c) := hslot _
    obtain ⟨e1, e2, binds, e3, e4, e5⟩ := CheckStackSizeLimit_effect cfg
      { s with cache_state :=
          (CacheState.emplace_back
            ((DropStackSlot s.cache_state target).set_slot index (.kConstant c)).pop_back
            (.kConstant c)) }
    refine ⟨_, _, _, h_tee, h_set, ?_, ?_, rfl, binds, e3, e4, ?_⟩
    · unfold GetLocal
      simp only [hg]
    · rw [e1]
      simp only [CacheState.emplace_back, CacheState.pop_back, CacheState.set_slot,
        DropStackSlot_stack_state]
      rw [dropLast_set_append_last _ _ _ hs]
    · intro hle
      apply e5
      simp only [CacheState.emplace_back, CacheState.pop_back, CacheState.set_slot,
        DropStackSlot_stack_state, CacheState.stack_height, List.length_append,
        List.length_dropLast, List.length_set, List.length_singleton] at hle ⊢
      omega

/-- C19 at a concrete input: register 2 on top is teed into local 0. -/
theorem C19_tee_equals_set_then_get_witness :
    (TeeLocal releaseBuild (PushRegister (stackOfHeight 0) 2) 0).map
      (fun s => s.cache_state.stack_state) = some [.kRegister 2, .kRegister 1, .kRegister 2] ∧
    ∃ (s_tee s_set s_get : State),
      TeeLocal releaseBuild (PushRegister (stackOfHeight 0) 2) 0 = some s_tee ∧
      SetLocal releaseBuild (PushRegister (stackOfHeight 0) 2) 0 = some s_set ∧
      GetLocal releaseBuild s_set 0 = some s_get ∧
      s_get.cache_state = s_tee.cache_state :=
  ⟨rfl, by
    obtain ⟨s_tee, s_set, s_get, h1, h2, h3, h4, _⟩ :=
      C19_tee_equals_set_then_get releaseBuild (PushRegister (stackOfHeight 0) 2) 0
        (.kRegister 2) (by decide) (by decide) rfl (by decide)
    exact ⟨s_tee, s_set, s_get, h1, h2, h3, h4⟩⟩

/-! ## Operands, arithmetic and return -/

/-- The entries the allocator and the materialisation of an operand emit:
stores, fills and constant loads. -/
def Instr.is_operand_move : Instr → Bool
  | .Spill _ _ => true
  | .Fill _ _ => true
  | .LoadConstant _ _ => true
  | _ => false

/-- What `PopToRegister` does: the top slot is removed; a register slot gives
its register with the use count lowered and nothing emitted; a constant is
loaded, a spilled slot is filled from the frame slot of its own index, into
the register `GetUnusedRegister` hands out, which is not pinned. -/
theorem PopToRegister_effect {cfg : Config} {s : State} {type : ValueType}
    {pinned : List Register} {reg : Register} {s1 : State}
    (h : PopToRegister cfg s type pinned = some (reg, s1)) :
    ∃ (top : VarState) (pre : List Instr),
      s.cache_state.stack_state.getLast? = some top ∧
      s1.code = s.code ++ pre ∧ (∀ i ∈ pre, i.is_operand_move = true) ∧
      s1.cache_state.stack_height + 1 = s.cache_state.stack_height ∧
      (∀ r, top = .kRegister r →
        reg = r ∧ pre = [] ∧ s1.cache_state = (s.cache_state.dec_used r).pop_back) ∧
      (∀ c, top = .kConstant c →
        ∃ (spills : List Instr) (s2 : State),
          GetUnusedRegister cfg { s with cache_state := s.cache_state.pop_back } type pinned
            = some (reg, s2) ∧
          s1.cache_state = s2.cache_state ∧
          pre = spills ++ [.LoadConstant reg c] ∧ s2.code = s.code ++ spills ∧ reg ∉ pinned) ∧
      (top = .kStack →
        ∃ (spills : List Instr) (s2 : State),
          GetUnusedRegister cfg { s with cache_state := s.cache_state.pop_back } type pinned
            = some (reg, s2) ∧
          s1.cache_state = s2.cache_state ∧
          pre = spills ++ [.Fill reg (s.cache_state.stack_height - 1)] ∧
          s2.code = s.code ++ spills ∧ reg ∉ pinned) := by
  have hf := (PopToRegister_frame h).2.2.2.2.2.2
  unfold PopToRegister at h
  cases hl : s.cache_state.stack_state.getLast? with
  | none => simp [hl] at h
  | some top =>
    cases top with
    | kRegister r =>
      simp only [hl, Option.some.injEq, Prod.mk.injEq] at h
      obtain ⟨rfl, rfl⟩ := h
      refine ⟨.kRegister r, [], rfl, by simp, ?_, hf, ?_, ?_, ?_⟩
      · intro i hi; cases hi
      · intro r1 hr1
        cases hr1
        exact ⟨rfl, rfl, rfl⟩
      · intro c hcc; cases hcc
      · intro hk; cases hk
    | kConstant c =>
      simp only [hl] at h
      cases hg : GetUnusedRegister cfg { s with cache_state := s.cache_state.pop_back } type pinned with
      | none => simp [hg] at h
      | some p =>
        obtain ⟨r, s2⟩ := p
        simp only [hg, Option.some.injEq, Prod.mk.injEq] at h
        obtain ⟨rfl, rfl⟩ := h
        obtain ⟨g0, ⟨spills, g1, g2⟩, _⟩ := GetUnusedRegister_effect hg
        refine ⟨.kConstant c, spills ++ [.LoadConstant r c], rfl, ?_, ?_, hf, ?_, ?_, ?_⟩
        · simp [State.emit, g1]
        · intro i hi
          rcases List.mem_append.mp hi with h1 | h1
          · obtain ⟨j, rfl⟩ := g2 i h1; rfl
          · simp only [List.mem_singleton] at h1; subst h1; rfl
        · intro r1 hr1; cases hr1
        · intro c1 hc1
          cases hc1
          exact ⟨spills, s2, rfl, rfl, rfl, g1, g0⟩
        · intro hk; cases hk
    | kStack =>
      simp only [hl] at h
      cases hg : GetUnusedRegister cfg { s with cache_state := s.cache_state.pop_back } type pinned with
      | none => simp [hg] at h
      | some p =>
        obtain ⟨r, s2⟩ := p
        simp only [hg, Option.some.injEq, Prod.mk.injEq] at h
        obtain ⟨rfl, rfl⟩ := h
        obtain ⟨g0, ⟨spills, g1, g2⟩, _⟩ := GetUnusedRegister_effect hg
        refine ⟨.kStack, spills ++ [.Fill r (s.cache_state.stack_height - 1)], rfl, ?_, ?_, hf,
          ?_, ?_, ?_⟩
        · simp [Fill, State.emit, g1]
        · intro i hi
          rcases List.mem_append.mp hi with h1 | h1
          · obtain ⟨j, rfl⟩ := g2 i h1; rfl
          · simp only [List.mem_singleton] at h1; subst h1; rfl
        · intro r1 hr1; cases hr1
        · intro c1 hc1; cases hc1
        · intro _
          exact ⟨spills, s2, rfl, rfl, rfl, g1, g0⟩

/-- The state `DoReturn` works on once an implicit return has bound the label
of the function block and taken over its label state. -/
def DoReturn.entry (s : State) (implicit : Bool) : Option State :=
  if implicit then
    match s.control[0]? with
    | none => none
    | some func_block =>
      some { bind_control s 0 func_block with cache_state := func_block.label_state }
  else some s

/-- C17: a return of zero or one value emits, as its last two entries, one
frame teardown followed by one return instruction, and neither occurs among
the entries before them.  With one value the top slot is first popped into a
register (the height drops by one, only operand moves are emitted for it) and
exactly one move of that register to the return location follows; with no
value nothing is popped and no move is emitted.  An implicit return starts
from the state in which the label of the function block is bound (one binding
recorded) and the ambient cache state is the label state of that block. -/
theorem C17_DoReturn_emits_epilogue_once (cfg : Config) (s s1 : State) (values : Nat)
    (implicit : Bool) (hv : values ≤ 1) (h : DoReturn cfg s values implicit = some s1) :
    ∃ (entry : State) (body : List Instr),
      DoReturn.entry s implicit = some entry ∧
      (implicit = false → entry = s) ∧
      (implicit = true → ∃ func_block, s.control[0]? = some func_block ∧
        entry.code = s.code ++ [func_block.bind_instr] ∧
        entry.cache_state = func_block.label_state ∧
        entry.control = s.control.set 0 func_block.bind_label ∧
        (entry.control[0]?).map (fun c => c.label.is_bound) = some true) ∧
      s1.code = entry.code ++ body ++ [.LeaveFrame, .Ret] ∧
      (∀ i ∈ body, i ≠ .LeaveFrame ∧ i ≠ .Ret) ∧
      s1.control = entry.control ∧ s1.ok_ = entry.ok_ ∧
      (values = 0 → body = [] ∧ s1.cache_state = entry.cache_state) ∧
      (values = 1 → ∃ (reg : Register) (popped : State) (pre : List Instr),
        PopToRegister cfg entry .kWasmI32 [] = some (reg, popped) ∧
        body = pre ++ [.MoveToReturnRegister reg] ∧
        (∀ i ∈ pre, i.is_operand_move = true) ∧
        s1.cache_state = popped.cache_state ∧
        s1.cache_state.stack_height + 1 = entry.cache_state.stack_height) := by
  have key : ∀ entry : State, DoReturn.entry s implicit = some entry →
      ∃ body : List Instr,
        s1.code = entry.code ++ body ++ [.LeaveFrame, .Ret] ∧
        (∀ i ∈ body, i ≠ .LeaveFrame ∧ i ≠ .Ret) ∧
        s1.control = entry.control ∧ s1.ok_ = entry.ok_ ∧
        (values = 0 → body = [] ∧ s1.cache_state = entry.cache_state) ∧
        (values = 1 → ∃ (reg : Register) (popped : State) (pre : List Instr),
          PopToRegister cfg entry .kWasmI32 [] = some (reg, popped) ∧
          body = pre ++ [.MoveToReturnRegister reg] ∧
          (∀ i ∈ pre, i.is_operand_move = true) ∧
          s1.cache_state = popped.cache_state ∧
          s1.cache_state.stack_height + 1 = entry.cache_state.stack_height) := by
    intro entry he
    have h' : (match (if values != 0 then
          (match PopToRegister cfg (if values > 1 then unsupported cfg entry "multi-return"
              else entry) .kWasmI32 [] with
            | none => none
            | some (reg, s3) => some (s3.emit (.MoveToReturnRegister reg)))
          else some entry : Option State) with
        | none => none
        | some s4 => some ((s4.emit .LeaveFrame).emit .Ret)) = some s1 := by
      unfold DoReturn at h
      unfold DoReturn.entry at he
      cases implicit with
      | false =>
        simp only [Bool.false_eq_true, if_false, Option.some.injEq] at he
        subst he
        simpa using h
      | true =>
        simp only [if_true] at he h
        cases hc : s.control[0]? with
        | none => simp [hc] at he
        | some fb =>
          simp only [hc, Option.some.injEq] at he h
          subst he
          simpa [CacheState.Steal] using h
    have h0 : values = 0 ∨ values = 1 := by omega
    rcases h0 with rfl | rfl
    · simp only [bne_self_eq_false, Bool.false_eq_true, if_false, Option.some.injEq] at h'
      subst h'
      refine ⟨[], by simp [State.emit], ?_, rfl, rfl, ?_, ?_⟩
      · intro i hi; cases hi
      · intro _; exact ⟨rfl, rfl⟩
      · intro h1; cases h1
    · have e1 : ((1 : Nat) != 0) = true := by decide
      have e2 : ¬ ((1 : Nat) > 1) := by decide
      simp only [e1, e2, if_true, if_false] at h'
      cases hp : PopToRegister cfg entry .kWasmI32 [] with
      | none => simp [hp] at h'
      | some p =>
        obtain ⟨reg, popped⟩ := p
        simp only [hp, Option.some.injEq] at h'
        subst h'
        obtain ⟨top, pre, _, p1, p2, p3, _⟩ := PopToRegister_effect hp
        have pf := PopToRegister_frame hp
        refine ⟨pre ++ [.MoveToReturnRegister reg], by simp [State.emit, p1], ?_, ?_, ?_, ?_, ?_⟩
        · intro i hi
          rcases List.mem_append.mp hi with h1 | h1
          · have := p2 i h1
            constructor <;> (intro e; subst e; simp [Instr.is_operand_move] at this)
          · simp only [List.mem_singleton] at h1
            subst h1
            constructor <;> (intro e; cases e)
        · simpa [State.emit] using pf.2.2.2.1
        · simpa [State.emit] using pf.1
        · intro h1; cases h1
        · intro _
          exact ⟨reg, popped, pre, rfl, rfl, p2, rfl, p3⟩
  cases hi : implicit with
  | false =>
    subst hi
    obtain ⟨body, hb⟩ := key s (by simp [DoReturn.entry])
    exact ⟨s, body, by simp [DoReturn.entry], fun _ => rfl, (fun e => by cases e), hb⟩
  | true =>
    subst hi
    cases hc : s.control[0]? with
    | none => simp [DoReturn, hc] at h
    | some fb =>
      have he : DoReturn.entry s true =
          some { bind_control s 0 fb with cache_state := fb.label_state } := by
        simp [DoReturn.entry, hc]
      obtain ⟨body, hb⟩ := key _ he
      refine ⟨_, body, he, (fun e => by cases e), fun _ => ⟨fb, rfl, ?_, rfl, ?_, ?_⟩, hb⟩
      · simp [bind_control, State.emit, State.set_control, Control.bind_instr]
      · simp [bind_control, State.emit, State.set_control, Control.bind_label]
      · have hlt : 0 < s.control.length := by
          rcases Nat.eq_zero_or_pos s.control.length with h0 | h0
          · rw [List.getElem?_eq_none (by omega)] at hc; cases hc
          · exact h0
        simp [bind_control, State.emit, State.set_control, hlt]


/-- C17 at a concrete input: an implicit return of one spilled value. -/
def implicitReturn : State :=
  { control := [{ label := { id := 0 }, label_state := { stack_state := [.kStack] } }] }

theorem C17_DoReturn_emits_epilogue_once_witness :
    (DoReturn releaseBuild implicitReturn 1 true).map (fun s => s.code)
      = some [.bind (.control 0), .Fill 0 0, .MoveToReturnRegister 0, .LeaveFrame, .Ret] ∧
    ∃ (s1 entry : State) (body : List Instr),
      DoReturn releaseBuild implicitReturn 1 true = some s1 ∧
      DoReturn.entry implicitReturn true = some entry ∧
      s1.code = entry.code ++ body ++ [.LeaveFrame, .Ret] :=
  ⟨rfl, by
    obtain ⟨s1, h1⟩ := Option.isSome_iff_exists.mp
      (show (DoReturn releaseBuild implicitReturn 1 true).isSome = true from rfl)
    obtain ⟨entry, body, he, _, _, hcode, _⟩ :=
      C17_DoReturn_emits_epilogue_once releaseBuild implicitReturn s1 1 true (by decide) h1
    exact ⟨s1, entry, body, h1, he, hcode⟩⟩

/-- Writing a register no slot holds keeps the value of every slot. -/
theorem denotes_update_reg {m : Machine} {slots : List VarState} {vals : List Int}
    (h : denotes m slots vals) (reg : Register) (x : Int) (hfresh : .kRegister reg ∉ slots) :
    denotes { m with regs := Function.update m.regs reg x } slots vals := by
  obtain ⟨hlen, hval⟩ := h
  refine ⟨hlen, ?_⟩
  intro j sl hs
  rw [hval j sl hs]
  congr 1
  cases sl with
  | kStack => rfl
  | kConstant v => rfl
  | kRegister r =>
    have hne : r ≠ reg := by
      intro he
      subst he
      exact hfresh (List.getElem?_mem hs)
    simp [VarState.denote, Function.update_apply, hne]

/-- The top slot of a slot list that holds `vals ++ [v]` denotes `v`. -/
theorem denotes_top {m : Machine} {slots : List VarState} {vals : List Int} {v : Int}
    {slot : VarState} (h : denotes m slots (vals ++ [v])) (hl : slots.getLast? = some slot) :
    slots.length = vals.length + 1 ∧ slot.denote m vals.length = v := by
  obtain ⟨hlen, hval⟩ := h
  have hlen1 : slots.length = vals.length + 1 := by simpa using hlen
  refine ⟨hlen1, ?_⟩
  have hs : slots[vals.length]? = some slot := by
    rw [List.getLast?_eq_getElem?] at hl
    rw [hlen1] at hl
    simpa using hl
  have := hval _ _ hs
  simpa using this.symm

/-- The code `GetUnusedRegister` emits stores the register it hands out: on the
machine it leaves every register and every frame slot above the slots
untouched, and the slots keep their values. -/
theorem GetUnusedRegister_exec {cfg : Config} {s : State} {type : ValueType}
    {pinned : List Register} {reg : Register} {s1 : State} (m : Machine)
    (h : GetUnusedRegister cfg s type pinned = some (reg, s1)) :
    ∃ new : List Instr, s1.code = s.code ++ new ∧
      (∀ i ∈ new, i.is_operand_move = true) ∧
      (m.exec new).regs = m.regs ∧
      (∀ j : Nat, s.cache_state.stack_state.length ≤ j → (m.exec new).frame j = m.frame j) ∧
      ∀ vals : List Int, denotes m s.cache_state.stack_state vals →
        denotes (m.exec new) s1.cache_state.stack_state vals := by
  rcases GetUnusedRegister_eq_some h with ⟨rfl, _, _, _⟩ | ⟨_, _, rfl⟩
  · exact ⟨[], by simp, (by intro i hi; cases hi), rfl, fun _ _ => rfl, fun _ hd => hd⟩
  · obtain ⟨hregs, hframe⟩ := exec_spillCode reg s.cache_state.stack_state 0 m
    refine ⟨spillCode reg 0 s.cache_state.stack_state, rfl, ?_, hregs, ?_, ?_⟩
    · intro i hi
      obtain ⟨index, rfl⟩ := mem_spillCode reg _ 0 i hi
      rfl
    · intro j hj
      rw [hframe j]
      have : s.cache_state.stack_state[j]? = none := by
        rw [List.getElem?_eq_none]; omega
      simp [this]
    · intro vals hd
      exact denotes_spilled hd reg

/-- `GetBinaryOpTargetRegister` on the machine: as `GetUnusedRegister`. -/
theorem GetBinaryOpTargetRegister_exec {cfg : Config} {s : State} {type : ValueType}
    {pinned : List Register} {reg : Register} {s1 : State} (m : Machine)
    (h : GetBinaryOpTargetRegister cfg s type pinned = some (reg, s1)) :
    ∃ new : List Instr, s1.code = s.code ++ new ∧
      (∀ i ∈ new, i.is_operand_move = true) ∧
      (m.exec new).regs = m.regs ∧
      ∀ vals : List Int, denotes m s.cache_state.stack_state vals →
        denotes (m.exec new) s1.cache_state.stack_state vals := by
  unfold GetBinaryOpTargetRegister at h
  split at h
  · simp only [Option.some.injEq, Prod.mk.injEq] at h
    obtain ⟨_, rfl⟩ := h
    exact ⟨[], by simp, (by intro i hi; cases hi), rfl, fun _ hd => hd⟩
  · split at h
    · simp only [Option.some.injEq, Prod.mk.injEq] at h
      obtain ⟨_, rfl⟩ := h
      exact ⟨[], by simp, (by intro i hi; cases hi), rfl, fun _ hd => hd⟩
    · obtain ⟨new, h1, h2, h3, _, h5⟩ := GetUnusedRegister_exec m h
      exact ⟨new, h1, h2, h3, h5⟩

/-- `PopToRegister` on the machine: after the code it emits, the register it
hands out holds the value of the former top slot, the remaining slots keep
their values and the pinned registers theirs. -/
theorem PopToRegister_denotes {cfg : Config} {s : State} {type : ValueType}
    {pinned : List Register} {reg : Register} {s1 : State} {m : Machine} {vals : List Int}
    {v : Int} (h : PopToRegister cfg s type pinned = some (reg, s1))
    (hc : s.cache_state.consistent)
    (hd : denotes m s.cache_state.stack_state (vals ++ [v])) :
    ∃ pre : List Instr, s1.code = s.code ++ pre ∧
      (∀ i ∈ pre, i.is_operand_move = true) ∧
      denotes (m.exec pre) s1.cache_state.stack_state vals ∧
      (m.exec pre).regs reg = v ∧
      ∀ p ∈ pinned, (m.exec pre).regs p = m.regs p := by
  have hdrop : denotes m s.cache_state.stack_state.dropLast vals := by
    have := denotes_dropLast hd
    simpa using this
  unfold PopToRegister at h
  cases hl : s.cache_state.stack_state.getLast? with
  | none => simp [hl] at h
  | some top =>
    obtain ⟨hlen, htop⟩ := denotes_top hd hl
    cases top with
    | kRegister r =>
      simp only [hl, Option.some.injEq, Prod.mk.injEq] at h
      obtain ⟨rfl, rfl⟩ := h
      refine ⟨[], by simp, (by intro i hi; cases hi), hdrop, htop, fun _ _ => rfl⟩
    | kConstant c =>
      simp only [hl] at h
      cases hg : GetUnusedRegister cfg { s with cache_state := s.cache_state.pop_back } type pinned with
      | none => simp [hg] at h
      | some p =>
        obtain ⟨r, s2⟩ := p
        simp only [hg, Option.some.injEq, Prod.mk.injEq] at h
        obtain ⟨rfl, rfl⟩ := h
        have hcp : s.cache_state.pop_back.consistent :=
          consistent_pop_non_register hc hl (by intro r1 h1; cases h1)
        obtain ⟨new, g1, g2, g3, _, g5⟩ := GetUnusedRegister_exec m hg
        have hfresh := GetUnusedRegister_fresh hg (not_mem_of_count_zero hcp)
        have hnp := (GetUnusedRegister_effect hg).1
        refine ⟨new ++ [.LoadConstant r c], by simp [State.emit, g1], ?_, ?_, ?_, ?_⟩
        · intro i hi
          rcases List.mem_append.mp hi with h1 | h1
          · exact g2 i h1
          · simp only [List.mem_singleton] at h1; subst h1; rfl
        · rw [Machine.exec_append]
          exact denotes_update_reg (g5 vals hdrop) r c hfresh
        · rw [Machine.exec_append]
          simpa [Machine.exec, Instr.exec, VarState.denote] using htop
        · intro p hp
          have hne : p ≠ r := by intro e; subst e; exact hnp hp
          rw [Machine.exec_append]
          simp [Machine.exec, Instr.exec, Function.update_apply, hne] 
          have := congrFun g3 p
          simpa [Machine.exec] using this
    | kStack =>
      simp only [hl] at h
      cases hg : GetUnusedRegister cfg { s with cache_state := s.cache_state.pop_back } type pinned with
      | none => simp [hg] at h
      | some p =>
        obtain ⟨r, s2⟩ := p
        simp only [hg, Option.some.injEq, Prod.mk.injEq] at h
        obtain ⟨rfl, rfl⟩ := h
        have hcp : s.cache_state.pop_back.consistent :=
          consistent_pop_non_register hc hl (by intro r1 h1; cases h1)
        obtain ⟨new, g1, g2, g3, g4, g5⟩ := GetUnusedRegister_exec m hg
        have hfresh := GetUnusedRegister_fresh hg (not_mem_of_count_zero hcp)
        have hnp := (GetUnusedRegister_effect hg).1
        have hh : s.cache_state.stack_height - 1 = vals.length := by
          simp only [CacheState.stack_height]; omega
        have hfr : (m.exec new).frame vals.length = m.frame vals.length := by
          apply g4
          simp only [CacheState.pop_back, List.length_dropLast]
          omega
        refine ⟨new ++ [.Fill r (s.cache_state.stack_height - 1)],
          by simp [Fill, State.emit, g1], ?_, ?_, ?_, ?_⟩
        · intro i hi
          rcases List.mem_append.mp hi with h1 | h1
          · exact g2 i h1
          · simp only [List.mem_singleton] at h1; subst h1; rfl
        · rw [Machine.exec_append]
          exact denotes_update_reg (g5 vals hdrop) r _ hfresh
        · rw [Machine.exec_append, hh, exec_fill_regs, hfr]
          exact htop
        · intro p hp
          have hne : p ≠ r := by intro e; subst e; exact hnp hp
          rw [Machine.exec_append]
          have := congrFun g3 p
          simp only [Machine.exec, List.foldl_cons, List.foldl_nil, Instr.exec,
            Function.update_apply, hne, if_false]
          simpa [Machine.exec] using this

/-- Among three distinct cache registers one differs from two given ones. -/
theorem exists_unpinned_of_three {cfg : Config} {r0 r1 r2 : Nat}
    (h0 : r0 ∈ cfg.kGpCacheRegs) (h1 : r1 ∈ cfg.kGpCacheRegs) (h2 : r2 ∈ cfg.kGpCacheRegs)
    (h01 : r0 ≠ r1) (h02 : r0 ≠ r2) (h12 : r1 ≠ r2) (x y : Nat) :
    ∃ r ∈ cfg.kGpCacheRegs, r ≠ x ∧ r ≠ y := by
  by_cases a : r0 = x ∨ r0 = y
  · by_cases b : r1 = x ∨ r1 = y
    · have c : r2 ≠ x ∧ r2 ≠ y := by omega
      exact ⟨r2, h2, c⟩
    · have c : r1 ≠ x ∧ r1 ≠ y := by omega
      exact ⟨r1, h1, c⟩
  · have c : r0 ≠ x ∧ r0 ≠ y := by omega
    exact ⟨r0, h0, c⟩

/-- `PopToRegister` hands out a register when there is a slot to pop and some
cache register is not pinned. -/
theorem PopToRegister_isSome (cfg : Config) (s : State) (type : ValueType)
    (pinned : List Register) (r0 : Register) (hr0 : r0 ∈ cfg.kGpCacheRegs) (hp : r0 ∉ pinned)
    (hc : s.cache_state.consistent) (hne : s.cache_state.stack_state ≠ []) :
    ∃ reg s1, PopToRegister cfg s type pinned = some (reg, s1) := by
  unfold PopToRegister
  cases hl : s.cache_state.stack_state.getLast? with
  | none => exact absurd (List.getLast?_eq_none_iff.mp hl) hne
  | some top =>
    cases top with
    | kRegister r => exact ⟨_, _, rfl⟩
    | kConstant c =>
      have hcp : s.cache_state.pop_back.consistent :=
        consistent_pop_non_register hc hl (by intro r1 h1; cases h1)
      obtain ⟨reg, s2, hg⟩ := GetUnusedRegister_isSome cfg
        { s with cache_state := s.cache_state.pop_back } type pinned r0 hr0 hp
        (mem_of_count_ne_zero hcp r0)
      simp only [hg]
      exact ⟨_, _, rfl⟩
    | kStack =>
      have hcp : s.cache_state.pop_back.consistent :=
        consistent_pop_non_register hc hl (by intro r1 h1; cases h1)
      obtain ⟨reg, s2, hg⟩ := GetUnusedRegister_isSome cfg
        { s with cache_state := s.cache_state.pop_back } type pinned r0 hr0 hp
        (mem_of_count_ne_zero hcp r0)
      simp only [hg]
      exact ⟨_, _, rfl⟩

theorem GetBinaryOpTargetRegister_isSome (cfg : Config) (s : State) (type : ValueType)
    (pinned : List Register) (r0 : Register) (hr0 : r0 ∈ cfg.kGpCacheRegs) (hp : r0 ∉ pinned)
    (hc : s.cache_state.consistent) :
    ∃ reg s1, GetBinaryOpTargetRegister cfg s type pinned = some (reg, s1) := by
  unfold GetBinaryOpTargetRegister
  split
  · exact ⟨_, _, rfl⟩
  · split
    · exact ⟨_, _, rfl⟩
    · exact GetUnusedRegister_isSome cfg s type pinned r0 hr0 hp (mem_of_count_ne_zero hc r0)

/-- The supported opcodes of `BinOp` and the backend instruction of each. -/
def binopTable : List (WasmOpcode × ArithOp) :=
  [(.kExprI32Add, .i32_add), (.kExprI32Sub, .i32_sub), (.kExprI32Mul, .i32_mul),
   (.kExprI32And, .i32_and), (.kExprI32Ior, .i32_or), (.kExprI32Xor, .i32_xor)]

theorem emit_fn_of_supported {opcode : WasmOpcode}
    (hop : opcode ∈ [WasmOpcode.kExprI32Add, .kExprI32Sub, .kExprI32Mul, .kExprI32And,
      .kExprI32Ior, .kExprI32Xor]) :
    ∃ fn : ArithOp, emit_fn opcode = some fn ∧ (opcode, fn) ∈ binopTable := by
  simp only [List.mem_cons, List.mem_singleton, List.not_mem_nil, or_false] at hop
  rcases hop with rfl | rfl | rfl | rfl | rfl | rfl
  · exact ⟨.i32_add, rfl, by decide⟩
  · exact ⟨.i32_sub, rfl, by decide⟩
  · exact ⟨.i32_mul, rfl, by decide⟩
  · exact ⟨.i32_and, rfl, by decide⟩
  · exact ⟨.i32_or, rfl, by decide⟩
  · exact ⟨.i32_xor, rfl, by decide⟩

/-- C18: on a consistent state whose two top slots hold the values `lhs_value`
(below) and `rhs_value` (top), with three distinct cache registers at hand,
`BinOp` of a supported opcode returns.  It takes the destination first, pops
the right operand with the destination pinned and the left operand with both
pinned.  The code it emits is operand moves (stores, fills, constant loads)
followed by one arithmetic instruction, of the kind of the opcode, on the
destination, the left and the right register; when that instruction is
reached the right register holds `rhs_value` and the left register
`lhs_value`.  Afterwards the two operand slots are replaced by one register
slot of the destination: the stack is one slot lower. -/
theorem C18_BinOp_operand_order_and_stack_effect (cfg : Config) (s : State)
    (opcode : WasmOpcode) (m : Machine) (below : List Int) (lhs_value rhs_value : Int)
    (r0 r1 r2 : Register)
    (hop : opcode ∈ [WasmOpcode.kExprI32Add, .kExprI32Sub, .kExprI32Mul, .kExprI32And,
      .kExprI32Ior, .kExprI32Xor])
    (hc : s.cache_state.consistent)
    (hd : denotes m s.cache_state.stack_state (below ++ [lhs_value, rhs_value]))
    (h0 : r0 ∈ cfg.kGpCacheRegs) (h1 : r1 ∈ cfg.kGpCacheRegs) (h2 : r2 ∈ cfg.kGpCacheRegs)
    (h01 : r0 ≠ r1) (h02 : r0 ≠ r2) (h12 : r1 ≠ r2) :
    ∃ (fn : ArithOp) (target rhs lhs : Register) (sa sb sc s1 : State) (pre : List Instr),
      (opcode, fn) ∈ binopTable ∧
      BinOp cfg s opcode = some s1 ∧
      GetBinaryOpTargetRegister cfg s .kWasmI32 [] = some (target, sa) ∧
      PopToRegister cfg sa .kWasmI32 [target] = some (rhs, sb) ∧
      PopToRegister cfg sb .kWasmI32 [rhs, target] = some (lhs, sc) ∧
      s1.code = s.code ++ pre ++ [.arith fn target lhs rhs] ∧
      (∀ i ∈ pre, i.is_operand_move = true) ∧
      (m.exec pre).regs rhs = rhs_value ∧ (m.exec pre).regs lhs = lhs_value ∧
      denotes (m.exec pre) sc.cache_state.stack_state below ∧
      s1.cache_state.stack_state = sc.cache_state.stack_state ++ [.kRegister target] ∧
      s1.cache_state.stack_height + 1 = s.cache_state.stack_height ∧
      s1.ok_ = s.ok_ ∧ s1.cache_state.consistent := by
  obtain ⟨fn, hfn, htab⟩ := emit_fn_of_supported hop
  have hd2 : denotes m s.cache_state.stack_state ((below ++ [lhs_value]) ++ [rhs_value]) := by
    simpa using hd
  -- the destination
  obtain ⟨target, sa, hg⟩ := GetBinaryOpTargetRegister_isSome cfg s .kWasmI32 [] r0 h0
    (by simp) hc
  obtain ⟨pa, ca, ma, ra, da⟩ := GetBinaryOpTargetRegister_exec m hg
  have hca := GetBinaryOpTargetRegister_consistent hg hc
  have hfa := GetBinaryOpTargetRegister_frame hg
  have hla : sa.cache_state.stack_state.length = below.length + 2 := by
    have := (da _ hd).1
    simpa using this
  -- the right operand
  obtain ⟨u1, hu1, hu1x, -⟩ := exists_unpinned_of_three h0 h1 h2 h01 h02 h12 target target
  obtain ⟨rhs, sb, hp1⟩ := PopToRegister_isSome cfg sa .kWasmI32 [target] u1 hu1
    (by simpa using hu1x) hca (by intro e; rw [e] at hla; simp at hla)
  obtain ⟨pb, cb, mb, db, vb, -⟩ := PopToRegister_denotes hp1 hca (da _ hd2)
  have hcb := PopToRegister_consistent hp1 hca
  have hfb := PopToRegister_frame hp1
  have hlb : sb.cache_state.stack_state.length = below.length + 1 := by
    have := db.1
    simpa using this
  -- the left operand
  obtain ⟨u2, hu2, hu2x, hu2y⟩ := exists_unpinned_of_three h0 h1 h2 h01 h02 h12 rhs target
  obtain ⟨lhs, sc, hp2⟩ := PopToRegister_isSome cfg sb .kWasmI32 [rhs, target] u2 hu2
    (by simp [hu2x, hu2y]) hcb (by intro e; rw [e] at hlb; simp at hlb)
  obtain ⟨pc, cc, mc, dc, vc, kc⟩ := PopToRegister_denotes hp2 hcb db
  have hcc := PopToRegister_consistent hp2 hcb
  have hfc := PopToRegister_frame hp2
  have hexec : m.exec (pa ++ pb ++ pc) = ((m.exec pa).exec pb).exec pc := by
    rw [Machine.exec_append, Machine.exec_append]
  refine ⟨fn, target, rhs, lhs, sa, sb, sc,
    PushRegister (sc.emit (.arith fn target lhs rhs)) target, pa ++ pb ++ pc, htab, ?_, hg, hp1,
    hp2, ?_, ?_, ?_, ?_, ?_, rfl, ?_, ?_, ?_⟩
  · simp only [BinOp, hfn, hg, hp1, hp2]
  · simp [PushRegister, State.emit, cc, cb, ca]
  · intro i hi
    rcases List.mem_append.mp hi with h | h
    · rcases List.mem_append.mp h with h | h
      · exact ma i h
      · exact mb i h
    · exact mc i h
  · rw [hexec, kc rhs (by simp)]
    exact vb
  · rw [hexec]
    exact vc
  · rw [hexec]
    exact dc
  · have e1 := hfa.2.2.2.2.2.2
    have e2 := hfb.2.2.2.2.2.2
    have e3 := hfc.2.2.2.2.2.2
    simp only [PushRegister, State.emit, CacheState.emplace_back, CacheState.inc_used,
      CacheState.stack_height, List.length_append, List.length_singleton] at e1 e2 e3 ⊢
    omega
  · simp [PushRegister, State.emit, hfc.1, hfb.1, hfa.1]
  · exact consistent_push_register hcc target

/-- A constant under a spilled value, no locals. -/
def constantUnderSpilled : State :=
  { cache_state := { stack_state := [.kConstant 7, .kStack] } }

theorem constantUnderSpilled_consistent : constantUnderSpilled.cache_state.consistent := by
  intro reg
  simp [constantUnderSpilled, CacheState.slot_count]

theorem constantUnderSpilled_denotes :
    denotes frame_10_20 constantUnderSpilled.cache_state.stack_state ([] ++ [7, 20]) := by
  refine ⟨rfl, ?_⟩
  intro index slot hs
  rcases index with _ | _ | n
  · simp only [constantUnderSpilled, List.getElem?_cons_zero, Option.some.injEq] at hs
    subst hs
    rfl
  · simp only [constantUnderSpilled, List.getElem?_cons_succ, List.getElem?_cons_zero,
      Option.some.injEq] at hs
    subst hs
    rfl
  · simp [constantUnderSpilled] at hs

/-- C18 at a concrete input: 7 - 20 with the left operand a constant and the
right operand spilled. -/
theorem C18_BinOp_operand_order_witness :
    (BinOp releaseBuild constantUnderSpilled .kExprI32Sub).map (fun s => s.code)
      = some [.Fill 1 1, .LoadConstant 2 7, .arith .i32_sub 0 2 1] ∧
    ∃ (fn : ArithOp) (target rhs lhs : Register) (s1 : State) (pre : List Instr),
      BinOp releaseBuild constantUnderSpilled .kExprI32Sub = some s1 ∧
      s1.code = constantUnderSpilled.code ++ pre ++ [.arith fn target lhs rhs] ∧
      (frame_10_20.exec pre).regs rhs = 20 ∧ (frame_10_20.exec pre).regs lhs = 7 ∧
      s1.cache_state.stack_height + 1 = constantUnderSpilled.cache_state.stack_height :=
  ⟨rfl, by
    obtain ⟨fn, target, rhs, lhs, _, _, _, s1, pre, _, h1, _, _, _, h2, _, h3, h4, _, _, h5, _⟩ :=
      C18_BinOp_operand_order_and_stack_effect releaseBuild constantUnderSpilled .kExprI32Sub
        frame_10_20 [] 7 20 0 1 2 (by decide) constantUnderSpilled_consistent
        constantUnderSpilled_denotes (by decide) (by decide) (by decide) (by decide) (by decide)
        (by decide)
    exact ⟨fn, target, rhs, lhs, s1, pre, h1, h2, h3, h4, h5⟩⟩

/-! ## Control flow: block ends and loop entry -/

/-- C12: let `c` be the control construct at `depth`.
(1) If `c` is not a loop and its end merge has been reached, `PopControl`
leaves the label state of `c` as the ambient cache state, whatever the ambient
state was, with the label of `c` bound and its label state untouched.
(2) If `c` is a loop or its end merge was never reached, `PopControl` leaves
the ambient cache state as it is.
(3) `FallThruTo` on a reached end merge and `Br` on a reached branch merge
leave the control stack, hence the label state, and the ambient cache state as
they are; so does `BrIf` when it returns, up to the popped condition.
(4) On a merge not reached yet, `FallThruTo` and `Br` fix the same label
state: the slots and the register use table of the ambient state. -/
theorem C12_block_end_state_is_label_state (cfg : Config) (s : State) (depth : Nat)
    (c : Control) (hc : s.control[depth]? = some c) :
    (c.is_loop = false → c.end_merge.reached = true →
      ∃ s1 : State, PopControl cfg s depth = some s1 ∧
        s1.cache_state = c.label_state ∧
        (s1.control[depth]?).map (fun c1 => c1.label.is_bound) = some true ∧
        (s1.control[depth]?).map (fun c1 => c1.label_state) = some c.label_state) ∧
    ((c.is_loop = true ∨ c.end_merge.reached = false) →
      ∃ s1 : State, PopControl cfg s depth = some s1 ∧ s1.cache_state = s.cache_state ∧
        (s1.control[depth]?).map (fun c1 => c1.label.is_bound) = some true) ∧
    (c.end_merge.reached = true →
      ∃ s1 : State, FallThruTo cfg s depth = some s1 ∧ s1.control = s.control ∧
        s1.cache_state = s.cache_state) ∧
    (c.br_merge.reached = true →
      (∃ s1 : State, Br cfg s depth = some s1 ∧ s1.control = s.control ∧
        s1.cache_state = s.cache_state) ∧
      ∀ s1 : State, BrIf cfg s depth = some s1 → s1.control = s.control) ∧
    (c.end_merge.reached = false →
      ∃ s1 : State, FallThruTo cfg s depth = some s1 ∧
        (s1.control[depth]?).map (fun c1 => c1.label_state)
          = some (c.label_state.Split s.cache_state)) ∧
    (c.br_merge.reached = false →
      ∃ s1 : State, Br cfg s depth = some s1 ∧
        (s1.control[depth]?).map (fun c1 => c1.label_state)
          = some (c.label_state.Split s.cache_state)) := by
  have hlt : depth < s.control.length := (List.getElem?_eq_some_iff.mp hc).1
  have hset : s.control.set depth c = s.control := by
    apply List.ext_getElem?
    intro j
    by_cases hj : depth = j
    · subst hj
      rw [List.getElem?_set_self hlt, hc]
    · rw [List.getElem?_set_ne hj]
  refine ⟨?_, ?_, ?_, ?_, ?_, ?_⟩
  · intro hl hr
    cases hb : c.label.is_bound with
    | false =>
      refine ⟨bind_control { s with cache_state := c.label_state } depth c, ?_, rfl, ?_, ?_⟩
      · simp [PopControl, hc, hl, hr, hb, CacheState.Steal]
      · simp [bind_control, State.set_control, State.emit, hlt]
      · simp [bind_control, State.set_control, State.emit, hlt]
    | true =>
      refine ⟨{ s with cache_state := c.label_state }, ?_, rfl, ?_, ?_⟩
      · simp [PopControl, hc, hl, hr, hb, CacheState.Steal]
      · simp [hc, hb]
      · simp [hc]
  · intro hl
    have hcond : (!c.is_loop && c.end_merge.reached) = false := by
      rcases hl with h | h <;> simp [h]
    cases hb : c.label.is_bound with
    | false =>
      refine ⟨bind_control s depth c, ?_, rfl, ?_⟩
      · simp [PopControl, hc, hcond, hb]
      · simp [bind_control, State.set_control, State.emit, hlt]
    | true =>
      refine ⟨s, ?_, rfl, ?_⟩
      · simp [PopControl, hc, hcond, hb]
      · simp [hc, hb]
  · intro hr
    exact ⟨MergeFullStackWith s c.label_state, by simp [FallThruTo, hc, hr], rfl, rfl⟩
  · intro hr
    have hbr : ∀ s0 : State, s0.control = s.control →
        ∃ s1 : State, Br cfg s0 depth = some s1 ∧ s1.control = s.control ∧
          s1.cache_state = s0.cache_state := by
      intro s0 h0
      refine ⟨(MergeStackWith (s0.set_control depth c) c.label_state c.br_merge.arity).emit
        (.jmp (.control c.label.id)), ?_, ?_, ?_⟩
      · simp only [Br, h0, hc, hr, Bool.not_true, Bool.false_eq_true, if_false]
      · simp [MergeStackWith, MergeFullStackWith, State.emit, State.set_control, h0, hset]
      · simp [MergeStackWith, MergeFullStackWith, State.emit, State.set_control]
    refine ⟨hbr s rfl, ?_⟩
    intro s1 h1
    unfold BrIf at h1
    cases hp : PopToRegister cfg s .kWasmI32 [] with
    | none => simp [hp] at h1
    | some p =>
      obtain ⟨value, sp⟩ := p
      simp only [hp] at h1
      have hf := (PopToRegister_frame hp).2.2.2.1
      obtain ⟨s2, h2, h3, _⟩ := hbr (sp.emit (.JumpIfZero value .cont_false))
        (by simpa [State.emit] using hf)
      simp only [h2, Option.some.injEq] at h1
      subst h1
      simpa [State.emit] using h3
  · intro hr
    refine ⟨s.set_control depth { c with label_state := c.label_state.Split s.cache_state },
      ?_, ?_⟩
    · simp only [FallThruTo, hc, hr, Bool.false_eq_true, if_false]
    · simp [State.set_control, hlt]
  · intro hr
    refine ⟨(MergeStackWith
        (s.set_control depth { c with label_state := c.label_state.Split s.cache_state })
        (c.label_state.Split s.cache_state) c.br_merge.arity).emit
        (.jmp (.control c.label.id)), ?_, ?_⟩
    · simp only [Br, hc, hr, Bool.not_false, if_true, CacheState.InitMerge]
      rfl
    · simp [MergeStackWith, MergeFullStackWith, State.emit, State.set_control, hlt]

/-- A block whose end has been reached by a branch that left one spilled slot,
now reached again with that slot in a register. -/
def reachedBlock : State :=
  { cache_state := { stack_state := [.kRegister 0]
                     register_use_count := fun r => if r = 0 then 1 else 0 }
    control := [{ label := { id := 0 }, end_merge := { reached := true }
                  label_state := { stack_state := [.kStack] } }] }

/-- C12 at a concrete input: the end of a block reached by a branch. -/
theorem C12_block_end_state_witness :
    (PopControl releaseBuild reachedBlock 0).map (fun s => s.cache_state.stack_state)
      = some [.kStack] ∧
    ∃ s1 : State, PopControl releaseBuild reachedBlock 0 = some s1 ∧
      s1.cache_state = ({ stack_state := [.kStack] } : CacheState) ∧
      (s1.control[0]?).map (fun c1 => c1.label.is_bound) = some true :=
  ⟨rfl, by
    obtain ⟨s1, h1, h2, h3, _⟩ :=
      (C12_block_end_state_is_label_state releaseBuild reachedBlock 0
        { label := { id := 0 }, end_merge := { reached := true }
          label_state := { stack_state := [.kStack] } } rfl).1 rfl rfl
    exact ⟨s1, h1, h2, h3⟩⟩

/-- What the emitted trace of a state depends on: its slots and code, with the
register use table consistent, no bail-out so far, and `n` locals. -/
def State.shaped (s : State) (n : Nat) (slots : List VarState) (code : List Instr) : Prop :=
  s.cache_state.stack_state = slots ∧ s.code = code ∧ s.cache_state.consistent ∧
    s.ok_ = true ∧ s.num_locals = n

/-- With a cache register that no slot holds, `GetUnusedRegister` hands out
such a register without spilling. -/
theorem GetUnusedRegister_of_free (cfg : Config) (s : State) (type : ValueType)
    (hc : s.cache_state.consistent) (r : Register) (hr : r ∈ cfg.kGpCacheRegs)
    (hf : .kRegister r ∉ s.cache_state.stack_state) :
    ∃ reg, GetUnusedRegister cfg s type [] = some (reg, s) ∧
      .kRegister reg ∉ s.cache_state.stack_state := by
  have h0 : s.cache_state.register_use_count r = 0 := by
    have := hc r
    simp only [CacheState.slot_count, List.count_eq_zero_of_not_mem hf] at this
    exact this
  obtain ⟨reg, s1, h⟩ := GetUnusedRegister_isSome cfg s type [] r hr (by simp)
    (fun hne => absurd h0 hne)
  rcases GetUnusedRegister_eq_some h with ⟨rfl, _, hz, _⟩ | ⟨hall, _, _⟩
  · exact ⟨reg, h, not_mem_of_count_zero hc reg hz⟩
  · exact absurd (hall r hr h0) (by simp)

theorem GetBinaryOpTargetRegister_of_free (cfg : Config) (s : State) (type : ValueType)
    (hc : s.cache_state.consistent) (r : Register) (hr : r ∈ cfg.kGpCacheRegs)
    (hf : .kRegister r ∉ s.cache_state.stack_state) :
    ∃ reg, GetBinaryOpTargetRegister cfg s type [] = some (reg, s) := by
  unfold GetBinaryOpTargetRegister
  split
  · exact ⟨_, rfl⟩
  · split
    · exact ⟨_, rfl⟩
    · obtain ⟨reg, h, _⟩ := GetUnusedRegister_of_free cfg s type hc r hr hf
      exact ⟨reg, h⟩

/-- Among three distinct cache registers one is held by no slot, when the
slots hold two registers at most. -/
theorem exists_free_of_three {cfg : Config} {r0 r1 r2 : Nat}
    (h0 : r0 ∈ cfg.kGpCacheRegs) (h1 : r1 ∈ cfg.kGpCacheRegs) (h2 : r2 ∈ cfg.kGpCacheRegs)
    (h01 : r0 ≠ r1) (h02 : r0 ≠ r2) (h12 : r1 ≠ r2) (slots : List VarState) (a b : Nat)
    (h : ∀ r : Nat, VarState.kRegister r ∈ slots → r = a ∨ r = b) :
    ∃ r ∈ cfg.kGpCacheRegs, VarState.kRegister r ∉ slots := by
  obtain ⟨r, hr, ha, hb⟩ := exists_unpinned_of_three h0 h1 h2 h01 h02 h12 a b
  refine ⟨r, hr, ?_⟩
  intro hm
  rcases h r hm with e | e
  · exact ha e
  · exact hb e

/-- `GetLocal` of a local held in a register or spilled, with a free cache
register and room on the operand stack: the local is pushed as a register
slot; a spilled local is filled from its own frame slot, nothing else is
emitted. -/
theorem GetLocal_shaped (cfg : Config) {s : State} {n : Nat} {slots : List VarState}
    {code : List Instr} (index : Nat) (l : VarState) (h : s.shaped n slots code)
    (hi : slots[index]? = some l) (hl : l = .kStack ∨ ∃ r, l = .kRegister r)
    (hfree : ∃ r ∈ cfg.kGpCacheRegs, VarState.kRegister r ∉ slots)
    (hh : slots.length + 1 ≤ n + kMaxValueStackHeight) :
    ∃ (s1 : State) (x : Register), GetLocal cfg s index = some s1 ∧
      (l = .kStack ∨ l = .kRegister x) ∧ (l = .kStack → VarState.kRegister x ∉ slots) ∧
      s1.shaped n (slots ++ [.kRegister x])
        (code ++ (if l = .kStack then [.Fill x index] else [])) := by
  obtain ⟨hs, hcode, hc, hok, hn⟩ := h
  rcases hl with rfl | ⟨r, rfl⟩
  · obtain ⟨r, hr, hf⟩ := hfree
    obtain ⟨x, hg, hx⟩ := GetUnusedRegister_of_free cfg s (s.local_type index) hc r hr
      (by rw [hs]; exact hf)
    refine ⟨PushRegister (Fill s x index) x, x, ?_, Or.inl rfl,
      (fun _ => by rw [← hs]; exact hx), ?_, ?_, ?_, ?_, ?_⟩
    · unfold GetLocal
      rw [hs, hi]
      simp only [hg]
      rw [CheckStackSizeLimit_eq]
      have : ¬ ((PushRegister (Fill s x index) x).num_locals + kMaxValueStackHeight
          < (PushRegister (Fill s x index) x).cache_state.stack_height) := by
        simp only [PushRegister, Fill, State.emit, CacheState.stack_height,
          CacheState.emplace_back, CacheState.inc_used, List.length_append,
          List.length_singleton, hs, hn]
        omega
      simp only [this, if_false]
    · simp [PushRegister, Fill, State.emit, CacheState.emplace_back, CacheState.inc_used, hs]
    · simp [PushRegister, Fill, State.emit, hcode]
    · exact consistent_push_register hc x
    · exact hok
    · exact hn
  · refine ⟨PushRegister s r, r, ?_, Or.inr rfl, (fun e => by cases e), ?_, ?_, ?_, ?_, ?_⟩
    · unfold GetLocal
      rw [hs, hi]
      simp only
      rw [CheckStackSizeLimit_eq]
      have : ¬ ((PushRegister s r).num_locals + kMaxValueStackHeight
          < (PushRegister s r).cache_state.stack_height) := by
        simp only [PushRegister, CacheState.stack_height,
          CacheState.emplace_back, CacheState.inc_used, List.length_append,
          List.length_singleton, hs, hn]
        omega
      simp only [this, if_false]
    · simp [PushRegister, CacheState.emplace_back, CacheState.inc_used, hs]
    · simp [PushRegister, hcode]
    · exact consistent_push_register hc r
    · exact hok
    · exact hn

/-- `BinOp` on two register operands with a free cache register: one
arithmetic instruction on the operands' registers, nothing else. -/
theorem BinOp_shaped (cfg : Config) {s : State} {n : Nat} {base : List VarState}
    {code : List Instr} (opcode : WasmOpcode) (fn : ArithOp) (x y : Register)
    (h : s.shaped n (base ++ [.kRegister x, .kRegister y]) code)
    (hfn : emit_fn opcode = some fn)
    (hfree : ∃ r ∈ cfg.kGpCacheRegs,
      VarState.kRegister r ∉ base ++ [VarState.kRegister x, VarState.kRegister y]) :
    ∃ (s1 : State) (t : Register), BinOp cfg s opcode = some s1 ∧
      s1.shaped n (base ++ [.kRegister t]) (code ++ [.arith fn t x y]) := by
  obtain ⟨hs, hcode, hc, hok, hn⟩ := h
  obtain ⟨r, hr, hf⟩ := hfree
  obtain ⟨t, hg⟩ := GetBinaryOpTargetRegister_of_free cfg s .kWasmI32 hc r hr
    (by rw [hs]; exact hf)
  have hs2 : s.cache_state.stack_state = (base ++ [.kRegister x]) ++ [.kRegister y] := by
    rw [hs]; simp
  have hl1 : s.cache_state.stack_state.getLast? = some (.kRegister y) := by
    rw [hs2, List.getLast?_concat]
  have hp1 : PopToRegister cfg s .kWasmI32 [t]
      = some (y, { s with cache_state := (s.cache_state.dec_used y).pop_back }) := by
    unfold PopToRegister
    simp only [hl1]
  have hst1 : ((s.cache_state.dec_used y).pop_back).stack_state = base ++ [.kRegister x] := by
    simp only [CacheState.pop_back, CacheState.dec_used, hs2, List.dropLast_concat]
  have hp2 : PopToRegister cfg { s with cache_state := (s.cache_state.dec_used y).pop_back }
      .kWasmI32 [y, t]
      = some (x, { s with cache_state :=
          (((s.cache_state.dec_used y).pop_back).dec_used x).pop_back }) := by
    unfold PopToRegister
    have : ((s.cache_state.dec_used y).pop_back).stack_state.getLast?
        = some (.kRegister x) := by
      rw [hst1, List.getLast?_concat]
    simp only [this]
  have hc1 := PopToRegister_consistent hp1 hc
  have hc2 := PopToRegister_consistent hp2 hc1
  have hB : BinOp cfg s opcode = some (PushRegister
      (State.emit { s with cache_state :=
          (((s.cache_state.dec_used y).pop_back).dec_used x).pop_back }
        (.arith fn t x y)) t) := by
    simp only [BinOp, hfn, hg, hp1, hp2]
  refine ⟨_, t, hB, ?_, ?_, ?_, ?_, ?_⟩
  · simp only [PushRegister, State.emit, CacheState.emplace_back, CacheState.inc_used,
      CacheState.pop_back, CacheState.dec_used, hs2, List.dropLast_concat]
  · simp [PushRegister, State.emit, hcode]
  · exact consistent_push_register hc2 t
  · exact hok
  · exact hn

/-- `SetLocal` with a register on top: the local takes over the register slot,
nothing is emitted. -/
theorem SetLocal_shaped (cfg : Config) {s : State} {n : Nat} {slots : List VarState}
    {code : List Instr} (index : Nat) (t : Register) (h : s.shaped n slots code)
    (hl : slots.getLast? = some (.kRegister t)) (hi : index + 1 < slots.length) :
    ∃ s1 : State, SetLocal cfg s index = some s1 ∧
      s1.shaped n ((slots.set index (.kRegister t)).dropLast) code := by
  obtain ⟨hs, hcode, hc, hok, hn⟩ := h
  obtain ⟨target, ht⟩ : ∃ target, s.cache_state.stack_state[index]? = some target :=
    ⟨_, List.getElem?_eq_getElem (by rw [hs]; omega)⟩
  have hi1 := @SetLocal.impl_register cfg s index false t target (by rw [hs]; exact hl) ht
  have hcons := SetLocal.impl_consistent hi1 hc (by simp only [CacheState.stack_height, hs]; exact hi)
  refine ⟨_, hi1, ?_, ?_, hcons, ?_, ?_⟩
  · simp [SetLocal.finish, CacheState.pop_back, CacheState.set_slot, DropStackSlot_stack_state, hs]
  · simp [SetLocal.finish, hcode]
  · simp [SetLocal.finish, hok]
  · simp [SetLocal.finish, hn]

/-- `DoReturn` of one value held in a register: the move to the return
location, the frame teardown and the return. -/
theorem DoReturn_shaped (cfg : Config) {s : State} {n : Nat} {base : List VarState}
    {code : List Instr} (t : Register) (h : s.shaped n (base ++ [.kRegister t]) code) :
    ∃ s1 : State, DoReturn cfg s 1 false = some s1 ∧ s1.ok_ = true ∧
      s1.code = code ++ [.MoveToReturnRegister t, .LeaveFrame, .Ret] := by
  obtain ⟨hs, hcode, hc, hok, hn⟩ := h
  have hl1 : s.cache_state.stack_state.getLast? = some (.kRegister t) := by
    rw [hs, List.getLast?_concat]
  have hp1 : PopToRegister cfg s .kWasmI32 []
      = some (t, { s with cache_state := (s.cache_state.dec_used t).pop_back }) := by
    unfold PopToRegister
    simp only [hl1]
  have hD : DoReturn cfg s 1 false = some
      (((State.emit { s with cache_state := (s.cache_state.dec_used t).pop_back }
        (.MoveToReturnRegister t)).emit .LeaveFrame).emit .Ret) := by
    simp [DoReturn, hp1]
  refine ⟨_, hD, ?_, ?_⟩
  · simp [State.emit, hok]
  · simp [State.emit, hcode]

/-- C11: a function with two i32 locals, each held in a register or spilled,
compiled from a consistent state without bail-out, on a register file with
three distinct cache registers.  The handler sequence `GetLocal 0`,
`GetLocal 1`, `BinOp I32Add`, `SetLocal 0`, `GetLocal 0`, `DoReturn` of one
value returns with `ok` still true, and the code it emits is: a fill of local
0 if and only if local 0 was spilled, a fill of local 1 if and only if local 1
was spilled, one add on the registers of the two locals, one move of the sum
to the return location, one frame teardown and one return instruction. -/
theorem C11_end_to_end_add (cfg : Config) (s : State) (l0 l1 : VarState) (r0 r1 r2 : Nat)
    (hn : s.num_locals = 2) (hs : s.cache_state.stack_state = [l0, l1])
    (hl0 : l0 = .kStack ∨ ∃ r, l0 = .kRegister r)
    (hl1 : l1 = .kStack ∨ ∃ r, l1 = .kRegister r)
    (hc : s.cache_state.consistent) (hok : s.ok_ = true)
    (h0 : r0 ∈ cfg.kGpCacheRegs) (h1 : r1 ∈ cfg.kGpCacheRegs) (h2 : r2 ∈ cfg.kGpCacheRegs)
    (h01 : r0 ≠ r1) (h02 : r0 ≠ r2) (h12 : r1 ≠ r2) :
    ∃ (s1 : State) (x y t : Register),
      run cfg s [.GetLocal 0, .GetLocal 1, .BinOp .kExprI32Add, .SetLocal 0, .GetLocal 0,
        .DoReturn 1 false] = some s1 ∧
      s1.ok_ = true ∧
      (l0 = .kStack ∨ l0 = .kRegister x) ∧ (l1 = .kStack ∨ l1 = .kRegister y) ∧
      s1.code = s.code ++ (if l0 = .kStack then [.Fill x 0] else [])
        ++ (if l1 = .kStack then [.Fill y 1] else [])
        ++ [.arith .i32_add t x y, .MoveToReturnRegister t, .LeaveFrame, .Ret] := by
  have hsh : s.shaped 2 [l0, l1] s.code := ⟨hs, rfl, hc, hok, hn⟩
  obtain ⟨a, ha⟩ : ∃ a : Nat, l0 = .kStack ∨ l0 = .kRegister a := by
    rcases hl0 with e | ⟨r, e⟩
    · exact ⟨0, Or.inl e⟩
    · exact ⟨r, Or.inr e⟩
  obtain ⟨b, hb⟩ : ∃ b : Nat, l1 = .kStack ∨ l1 = .kRegister b := by
    rcases hl1 with e | ⟨r, e⟩
    · exact ⟨0, Or.inl e⟩
    · exact ⟨r, Or.inr e⟩
  -- GetLocal 0
  have free0 : ∃ r ∈ cfg.kGpCacheRegs, VarState.kRegister r ∉ [l0, l1] := by
    apply exists_free_of_three h0 h1 h2 h01 h02 h12 _ a b
    intro r hr
    simp only [List.mem_cons, List.mem_singleton, List.not_mem_nil, or_false] at hr
    rcases hr with e | e
    · rcases ha with e1 | e1
      · rw [e1] at e; cases e
      · rw [e1] at e; cases e; exact Or.inl rfl
    · rcases hb with e1 | e1
      · rw [e1] at e; cases e
      · rw [e1] at e; cases e; exact Or.inr rfl
  obtain ⟨s1, x, g1, hx, -, sh1⟩ := GetLocal_shaped cfg 0 l0 hsh (by simp) hl0 free0
    (by simp [kMaxValueStackHeight])
  -- GetLocal 1
  have free1 : ∃ r ∈ cfg.kGpCacheRegs, VarState.kRegister r ∉ [l0, l1] ++ [.kRegister x] := by
    apply exists_free_of_three h0 h1 h2 h01 h02 h12 _ x b
    intro r hr
    simp only [List.mem_append, List.mem_cons, List.mem_singleton, List.not_mem_nil,
      or_false] at hr
    rcases hr with (e | e) | e
    · rcases hx with e1 | e1
      · rw [e1] at e; cases e
      · rw [e1] at e; cases e; exact Or.inl rfl
    · rcases hb with e1 | e1
      · rw [e1] at e; cases e
      · rw [e1] at e; cases e; exact Or.inr rfl
    · cases e; exact Or.inl rfl
  obtain ⟨s2, y, g2, hy, -, sh2⟩ := GetLocal_shaped cfg 1 l1 sh1 (by simp) hl1 free1
    (by simp [kMaxValueStackHeight])
  -- BinOp
  have sh2b : s2.shaped 2 ([l0, l1] ++ [.kRegister x, .kRegister y])
      (s.code ++ (if l0 = .kStack then [.Fill x 0] else [])
        ++ (if l1 = .kStack then [.Fill y 1] else [])) := by
    have e : [l0, l1] ++ [VarState.kRegister x] ++ [VarState.kRegister y]
        = [l0, l1] ++ [.kRegister x, .kRegister y] := by simp
    rw [← e]
    exact sh2
  have free2 : ∃ r ∈ cfg.kGpCacheRegs,
      VarState.kRegister r ∉ [l0, l1] ++ [VarState.kRegister x, VarState.kRegister y] := by
    apply exists_free_of_three h0 h1 h2 h01 h02 h12 _ x y
    intro r hr
    simp only [List.mem_append, List.mem_cons, List.mem_singleton, List.not_mem_nil,
      or_false] at hr
    rcases hr with (e | e) | e | e
    · rcases hx with e1 | e1
      · rw [e1] at e; cases e
      · rw [e1] at e; cases e; exact Or.inl rfl
    · rcases hy with e1 | e1
      · rw [e1] at e; cases e
      · rw [e1] at e; cases e; exact Or.inr rfl
    · cases e; exact Or.inl rfl
    · cases e; exact Or.inr rfl
  obtain ⟨s3, t, g3, sh3⟩ := BinOp_shaped cfg .kExprI32Add .i32_add x y sh2b rfl free2
  -- SetLocal 0
  obtain ⟨s4, g4, sh4⟩ := SetLocal_shaped cfg 0 t sh3 (by simp) (by simp)
  have sh4b : s4.shaped 2 [.kRegister t, l1]
      (s.code ++ (if l0 = .kStack then [.Fill x 0] else [])
        ++ (if l1 = .kStack then [.Fill y 1] else []) ++ [.arith .i32_add t x y]) := by
    have e : (([l0, l1] ++ [VarState.kRegister t]).set 0 (.kRegister t)).dropLast
        = [.kRegister t, l1] := by simp
    rw [← e]
    exact sh4
  -- GetLocal 0
  have free4 : ∃ r ∈ cfg.kGpCacheRegs, VarState.kRegister r ∉ [VarState.kRegister t, l1] := by
    apply exists_free_of_three h0 h1 h2 h01 h02 h12 _ t b
    intro r hr
    simp only [List.mem_cons, List.mem_singleton, List.not_mem_nil, or_false] at hr
    rcases hr with e | e
    · cases e; exact Or.inl rfl
    · rcases hb with e1 | e1
      · rw [e1] at e; cases e
      · rw [e1] at e; cases e; exact Or.inr rfl
  obtain ⟨s5, x5, g5, hx5, -, sh5⟩ := GetLocal_shaped cfg 0 (.kRegister t) sh4b (by simp)
    (Or.inr ⟨t, rfl⟩) free4 (by simp [kMaxValueStackHeight])
  have ex5 : x5 = t := by
    rcases hx5 with e | e
    · cases e
    · cases e; rfl
  subst ex5
  have sh5b : s5.shaped 2 ([.kRegister x5, l1] ++ [.kRegister x5])
      (s.code ++ (if l0 = .kStack then [.Fill x 0] else [])
        ++ (if l1 = .kStack then [.Fill y 1] else []) ++ [.arith .i32_add x5 x y]) := by
    have e : (if VarState.kRegister x5 = VarState.kStack then [Instr.Fill x5 0] else []) = [] := by
      simp
    rw [e, List.append_nil] at sh5
    exact sh5
  -- DoReturn
  obtain ⟨s6, g6, ok6, code6⟩ := DoReturn_shaped cfg x5 sh5b
  refine ⟨s6, x, y, x5, ?_, ok6, hx, hy, ?_⟩
  · simp only [run, Handler.call, g1, g2, g3, g4, g5, g6]
  · rw [code6]
    simp

/-- C11 at a concrete input: both locals spilled. -/
theorem C11_end_to_end_add_witness :
    (run releaseBuild twoSpilledLocals [.GetLocal 0, .GetLocal 1, .BinOp .kExprI32Add,
      .SetLocal 0, .GetLocal 0, .DoReturn 1 false]).map (fun s => (s.ok_, s.code))
      = some (true, [.Fill 0 0, .Fill 1 1, .arith .i32_add 1 0 1, .MoveToReturnRegister 1,
          .LeaveFrame, .Ret]) ∧
    ∃ (s1 : State) (x y t : Register),
      run releaseBuild twoSpilledLocals [.GetLocal 0, .GetLocal 1, .BinOp .kExprI32Add,
        .SetLocal 0, .GetLocal 0, .DoReturn 1 false] = some s1 ∧
      s1.ok_ = true ∧
      s1.code = twoSpilledLocals.code ++ [.Fill x 0] ++ [.Fill y 1]
        ++ [.arith .i32_add t x y, .MoveToReturnRegister t, .LeaveFrame, .Ret] :=
  ⟨rfl, by
    obtain ⟨s1, x, y, t, h1, h2, _, _, h3⟩ :=
      C11_end_to_end_add releaseBuild twoSpilledLocals .kStack .kStack 0 1 2 rfl rfl
        (Or.inl rfl) (Or.inl rfl) twoSpilledLocals_consistent rfl (by decide) (by decide)
        (by decide) (by decide) (by decide) (by decide)
    exact ⟨s1, x, y, t, h1, h2, by simpa using h3⟩⟩

/-! ## Function entry -/

/-- Every slot aliasing the victim gets a store to the frame slot of its own
index. -/
theorem spillCode_mem_of_getElem? (reg : Register) :
    ∀ (slots : List VarState) (k j : Nat), slots[j]? = some (.kRegister reg) →
      Instr.Spill (k + j) reg ∈ spillCode reg k slots := by
  intro slots
  induction slots with
  | nil => intro k j h; simp at h
  | cons a rest ih =>
    intro k j h
    unfold spillCode
    cases j with
    | zero =>
      simp only [List.getElem?_cons_zero, Option.some.injEq] at h
      subst h
      simp
    | succ j =>
      simp only [List.getElem?_cons_succ] at h
      have := ih (k + 1) j h
      have e : k + 1 + j = k + (j + 1) := by omega
      rw [e] at this
      exact List.mem_append_right _ this

theorem set_local_types_below (l : List ValueType) :
    ∀ (local_type : Nat → ValueType) (index j : Nat), j < index →
      set_local_types local_type index l j = local_type j := by
  induction l with
  | nil => intro local_type index j _; rfl
  | cons t rest ih =>
    intro local_type index j hj
    simp only [set_local_types]
    rw [ih _ _ _ (by omega)]
    exact Function.update_noteq (by omega) _ _

/-- After the loop of `StartFunction`, `local_type(i)` is the decoder's type of
local `i`. -/
theorem set_local_types_apply (l : List ValueType) :
    ∀ (local_type : Nat → ValueType) (index i : Nat) (t : ValueType), l[i]? = some t →
      set_local_types local_type index l (index + i) = t := by
  induction l with
  | nil => intro local_type index i t h; simp at h
  | cons a rest ih =>
    intro local_type index i t h
    simp only [set_local_types]
    cases i with
    | zero =>
      simp only [List.getElem?_cons_zero, Option.some.injEq] at h
      subst h
      rw [set_local_types_below _ _ _ _ (by omega)]
      simp
    | succ i =>
      simp only [List.getElem?_cons_succ] at h
      have := ih (Function.update local_type index a) (index + 1) i t h
      have e : index + 1 + i = index + (i + 1) := by omega
      rw [e] at this
      exact this

/-- The first loop of `StartFunctionBody` finds nothing exactly when every
local it visits is an i32. -/
theorem has_non_i32_local_eq_false (local_type : Nat → ValueType) (n : Nat) :
    ∀ index : Nat, has_non_i32_local local_type index n = false ↔
      ∀ i : Nat, index ≤ i → i < index + n → local_type i = .kWasmI32 := by
  induction n with
  | zero =>
    intro index
    simp only [has_non_i32_local, true_iff]
    intro i h1 h2
    omega
  | succ n ih =>
    intro index
    simp only [has_non_i32_local]
    by_cases h : local_type index = .kWasmI32
    · simp only [h, bne_self_eq_false, Bool.false_eq_true, if_false]
      rw [ih]
      constructor
      · intro hall i h1 h2
        by_cases e : i = index
        · rw [e]; exact h
        · exact hall i (by omega) (by omega)
      · intro hall i h1 h2
        exact hall i (by omega) (by omega)
    · have hb : (local_type index != .kWasmI32) = true := by
        simp [bne_iff_ne, h]
      simp only [hb, if_true]
      constructor
      · intro e; cases e
      · intro hall
        exact absurd (hall index (Nat.le_refl _) (by omega)) h

/-- The third loop of `StartFunctionBody` on i32 locals: each gets a constant
zero slot, nothing else changes. -/
theorem push_locals_i32 (cfg : Config) (n : Nat) :
    ∀ (s : State) (param_idx : Nat),
      (∀ i : Nat, param_idx ≤ i → i < param_idx + n → cfg.decoderLocals[i]? = some .kWasmI32) →
      push_locals cfg s param_idx n = some
        { s with cache_state :=
            { s.cache_state with
              stack_state := s.cache_state.stack_state ++ List.replicate n (.kConstant 0) } } := by
  induction n with
  | zero =>
    intro s param_idx _
    simp [push_locals]
  | succ n ih =>
    intro s param_idx h
    unfold push_locals
    rw [h param_idx (Nat.le_refl _) (by omega)]
    simp only
    rw [ih _ _ (fun i h1 h2 => h i (by omega) (by omega))]
    simp [CacheState.emplace_back, List.replicate_succ]

/-- One round of the second loop of `StartFunctionBody`: parameter `param_idx`
is taken from where the call descriptor puts it. -/
def push_param (cfg : Config) (s : State) (param_idx : Nat) : Option State :=
  match cfg.GetInputLocation (param_idx + 2) with
  | .register code =>
    if cfg.kGpCacheRegs.contains code then some (PushRegister s code)
    else
      some { Spill s param_idx code with
        cache_state := (Spill s param_idx code).cache_state.emplace_back .kStack }
  | .callerFrameSlot slot =>
    match GetUnusedRegister cfg s (s.local_type param_idx) [] with
    | none => none
    | some (tmp_reg, s1) =>
      some (PushRegister (s1.emit (.LoadCallerFrameSlot tmp_reg (-slot))) tmp_reg)
  | .other => none

/-- The second loop of `StartFunctionBody` is its round, repeated. -/
theorem push_params_succ (cfg : Config) (s : State) (param_idx n : Nat) :
    push_params cfg s param_idx (n + 1) =
      (push_param cfg s param_idx).bind (fun s1 => push_params cfg s1 (param_idx + 1) n) := by
  rw [push_params]
  unfold push_param
  cases cfg.GetInputLocation (param_idx + 2) with
  | register code =>
    simp only
    split <;> rfl
  | callerFrameSlot slot =>
    simp only
    cases GetUnusedRegister cfg s (s.local_type param_idx) [] with
    | none => rfl
    | some p => rfl
  | other => rfl

theorem push_params_split (cfg : Config) (n m : Nat) :
    ∀ (s : State) (i : Nat), push_params cfg s i (n + m) =
      (push_params cfg s i n).bind (fun sn => push_params cfg sn (i + n) m) := by
  induction n with
  | zero =>
    intro s i
    simp [push_params]
  | succ n ih =>
    intro s i
    have e : n + 1 + m = (n + m) + 1 := by omega
    rw [e, push_params_succ, push_params_succ]
    cases push_param cfg s i with
    | none => rfl
    | some s1 =>
      simp only [Option.some_bind]
      rw [ih]
      have e2 : i + 1 + n = i + (n + 1) := by omega
      rw [e2]

/-- The state before parameter `param_idx + 1` is taken. -/
theorem push_params_reach {cfg : Config} {entry s s2 : State} {param_idx : Nat}
    (hreach : push_params cfg entry 0 param_idx = some s)
    (hstep : push_param cfg s param_idx = some s2) :
    push_params cfg entry 0 (param_idx + 1) = some s2 := by
  rw [push_params_split cfg param_idx 1 entry 0, hreach]
  simp only [Option.some_bind, Nat.zero_add]
  rw [push_params_succ, hstep]
  simp [push_params]

/-- Register `r`, held by the slot of parameter `j`, was spilled for a later
parameter: some parameter `k` after `j` and before `bound` is passed in a
caller frame slot, and in the state `sk` in which it was loaded no cache
register was free, slot `j` held `r`, and `GetUnusedRegister` handed out `r`.
`entry` is the state before the first parameter. -/
def later_load_spilled (cfg : Config) (entry : State) (j : Nat) (r : Register)
    (bound : Nat) : Prop :=
  ∃ (k : Nat) (slot : Int) (sk sk1 : State), j < k ∧ k < bound ∧
    cfg.GetInputLocation (k + 2) = .callerFrameSlot slot ∧
    push_params cfg entry 0 k = some sk ∧ ¬ sk.has_free_register cfg ∧
    sk.cache_state.stack_state[j]? = some (.kRegister r) ∧
    GetUnusedRegister cfg sk (sk.local_type k) [] = some (r, sk1)

/-- Where parameter `j` sits once the parameters before `bound` have been
taken from the call descriptor, starting in state `entry`.  Its slot holds a
register `r`; or it is spilled, a store of `r` to frame slot `j` is in the
code, and either the parameter was passed in a register that is no cache
register or `r` was spilled for a later parameter loaded from a caller frame
slot when no cache register was free.  A parameter passed in a register is in
that register, and spilled when the register is no cache register; a
parameter passed in a caller frame slot has been loaded into `r`. -/
def param_placed (cfg : Config) (entry s : State) (bound j : Nat) : Prop :=
  ∃ r : Register,
    (s.cache_state.stack_state[j]? = some (.kRegister r) ∨
      (s.cache_state.stack_state[j]? = some .kStack ∧ Instr.Spill j r ∈ s.code ∧
        ((∃ code : Nat, cfg.GetInputLocation (j + 2) = .register code ∧
            cfg.kGpCacheRegs.contains code = false) ∨
          later_load_spilled cfg entry j r bound))) ∧
    (∀ code : Nat, cfg.GetInputLocation (j + 2) = .register code →
      r = code ∧
      (cfg.kGpCacheRegs.contains code = false → s.cache_state.stack_state[j]? = some .kStack)) ∧
    (∀ slot : Int, cfg.GetInputLocation (j + 2) = .callerFrameSlot slot →
      Instr.LoadCallerFrameSlot r (-slot) ∈ s.code)

theorem later_load_spilled_mono {cfg : Config} {entry : State} {j : Nat} {r : Register}
    {bound bound1 : Nat} (h : later_load_spilled cfg entry j r bound) (hb : bound ≤ bound1) :
    later_load_spilled cfg entry j r bound1 := by
  obtain ⟨k, slot, sk, sk1, h1, h2, h3⟩ := h
  exact ⟨k, slot, sk, sk1, h1, by omega, h3⟩

/-- A placed parameter stays placed when code is added and its slot is kept,
or spilled for a later load with a store to its frame slot. -/
theorem param_placed_step {cfg : Config} {entry s s1 : State} {bound bound1 j : Nat}
    (h : param_placed cfg entry s bound j) (hb : bound ≤ bound1)
    (hcode : ∃ new : List Instr, s1.code = s.code ++ new)
    (hslot : s1.cache_state.stack_state[j]? = s.cache_state.stack_state[j]? ∨
      ∃ v : Register, s.cache_state.stack_state[j]? = some (.kRegister v) ∧
        s1.cache_state.stack_state[j]? = some .kStack ∧ Instr.Spill j v ∈ s1.code ∧
        later_load_spilled cfg entry j v bound1) :
    param_placed cfg entry s1 bound1 j := by
  obtain ⟨new, hnew⟩ := hcode
  have hmem : ∀ i : Instr, i ∈ s.code → i ∈ s1.code := by
    intro i hi
    rw [hnew]
    exact List.mem_append_left _ hi
  obtain ⟨r, h1, h2, h3⟩ := h
  refine ⟨r, ?_, ?_, fun slot hl => hmem _ (h3 slot hl)⟩
  · rcases hslot with e | ⟨v, e1, e2, e3, e4⟩
    · rw [e]
      rcases h1 with a | ⟨a, b, c⟩
      · exact Or.inl a
      · refine Or.inr ⟨a, hmem _ b, ?_⟩
        rcases c with c | c
        · exact Or.inl c
        · exact Or.inr (later_load_spilled_mono c hb)
    · rcases h1 with a | ⟨a, _⟩
      · rw [e1, Option.some.injEq, VarState.kRegister.injEq] at a
        subst a
        exact Or.inr ⟨e2, e3, Or.inr e4⟩
      · rw [e1] at a; cases a
  · intro code hl
    obtain ⟨a, b⟩ := h2 code hl
    refine ⟨a, fun hn => ?_⟩
    rcases hslot with e | ⟨v, _, e2, _⟩
    · rw [e]; exact b hn
    · exact e2

/-- What `GetUnusedRegister` does to a slot: it is kept, or no cache register
was free, the slot held the victim and is spilled with a store to its own
frame slot. -/
theorem GetUnusedRegister_slot {cfg : Config} {s : State} {type : ValueType}
    {reg : Register} {s1 : State}
    (h : GetUnusedRegister cfg s type [] = some (reg, s1)) (j : Nat) :
    s1.cache_state.stack_state[j]? = s.cache_state.stack_state[j]? ∨
      (s.cache_state.stack_state[j]? = some (.kRegister reg) ∧
        s1.cache_state.stack_state[j]? = some .kStack ∧ Instr.Spill j reg ∈ s1.code ∧
        ¬ s.has_free_register cfg) := by
  rcases GetUnusedRegister_eq_some h with ⟨rfl, _⟩ | ⟨hfree, _, rfl⟩
  · exact Or.inl rfl
  · simp only [State.spilled]
    rw [spillSlots_getElem?]
    cases hs : s.cache_state.stack_state[j]? with
    | none => exact Or.inl rfl
    | some slot =>
      by_cases e : slot = .kRegister reg
      · subst e
        refine Or.inr ⟨rfl, by simp [VarState.spilled], ?_, ?_⟩
        · have := spillCode_mem_of_getElem? reg s.cache_state.stack_state 0 j hs
          rw [Nat.zero_add] at this
          exact List.mem_append_right _ this
        · rintro ⟨r, hr, h0⟩
          have := hfree r hr h0
          simp at this
      · exact Or.inl (by simp [VarState.spilled, e])

/-- The second loop of `StartFunctionBody`, from the consistent state `s` that
holds the parameters before `param_idx`, on parameters in registers or caller
frame slots: it returns, having pushed one slot for each parameter, and every
parameter is placed. -/
theorem push_params_placed (cfg : Config) (entry : State) (hne : cfg.kGpCacheRegs ≠ [])
    (n : Nat) :
    ∀ (s : State) (param_idx : Nat),
      push_params cfg entry 0 param_idx = some s →
      s.cache_state.stack_state.length = param_idx → s.cache_state.consistent →
      (∀ i : Nat, param_idx ≤ i → i < param_idx + n → cfg.GetInputLocation (i + 2) ≠ .other) →
      (∀ j : Nat, j < param_idx → param_placed cfg entry s param_idx j) →
      ∃ s1 : State, push_params cfg s param_idx n = some s1 ∧
        s1.cache_state.stack_state.length = param_idx + n ∧ s1.cache_state.consistent ∧
        (∀ j : Nat, j < param_idx + n → param_placed cfg entry s1 (param_idx + n) j) ∧
        s1.ok_ = s.ok_ ∧ s1.errors = s.errors ∧ s1.num_locals = s.num_locals ∧
        s1.control = s.control ∧ ∃ new : List Instr, s1.code = s.code ++ new := by
  induction n with
  | zero =>
    intro s param_idx _ hlen hc _ hp
    exact ⟨s, rfl, by simpa using hlen, hc, by simpa using hp, rfl, rfl, rfl, rfl, [], by simp⟩
  | succ n ih =>
    intro s param_idx hreach hlen hc hloc hp
    have hnext : ∀ i : Nat, param_idx + 1 ≤ i → i < param_idx + 1 + n →
        cfg.GetInputLocation (i + 2) ≠ .other :=
      fun i h1 h2 => hloc i (by omega) (by omega)
    have finish : ∀ s2 : State, push_param cfg s param_idx = some s2 →
        s2.cache_state.stack_state.length = param_idx + 1 →
        s2.cache_state.consistent →
        (∀ j : Nat, j < param_idx + 1 → param_placed cfg entry s2 (param_idx + 1) j) →
        s2.ok_ = s.ok_ → s2.errors = s.errors → s2.num_locals = s.num_locals →
        s2.control = s.control → (∃ new : List Instr, s2.code = s.code ++ new) →
        ∃ s1 : State, push_params cfg s param_idx (n + 1) = some s1 ∧
          s1.cache_state.stack_state.length = param_idx + (n + 1) ∧ s1.cache_state.consistent ∧
          (∀ j : Nat, j < param_idx + (n + 1) →
            param_placed cfg entry s1 (param_idx + (n + 1)) j) ∧
          s1.ok_ = s.ok_ ∧ s1.errors = s.errors ∧ s1.num_locals = s.num_locals ∧
          s1.control = s.control ∧ ∃ new : List Instr, s1.code = s.code ++ new := by
      intro s2 hstep g1 g2 g3 g4 g5 g6 g7 g8
      obtain ⟨s1, k1, k2, k3, k4, k5, k6, k7, k8, new2, k9⟩ :=
        ih s2 (param_idx + 1) (push_params_reach hreach hstep) g1 g2 hnext g3
      obtain ⟨new1, g9⟩ := g8
      have e : param_idx + 1 + n = param_idx + (n + 1) := by omega
      refine ⟨s1, ?_, by omega, k3, ?_, by rw [k5, g4], by rw [k6, g5],
        by rw [k7, g6], by rw [k8, g7], new1 ++ new2, by rw [k9, g9, List.append_assoc]⟩
      · rw [push_params_succ, hstep]
        exact k1
      · intro j hj
        have := k4 j (by omega)
        rw [e] at this
        exact this
    cases hl : cfg.GetInputLocation (param_idx + 2) with
    | other => exact absurd hl (hloc param_idx (Nat.le_refl _) (by omega))
    | register code =>
      by_cases hcache : cfg.kGpCacheRegs.contains code = true
      · apply finish (PushRegister s code)
        · simp only [push_param, hl, hcache, if_true]
        · simp [PushRegister, CacheState.emplace_back, CacheState.inc_used, hlen]
        · exact consistent_push_register hc code
        · intro j hj
          by_cases e : j = param_idx
          · subst e
            refine ⟨code, Or.inl ?_, ?_, ?_⟩
            · simp [PushRegister, CacheState.emplace_back, CacheState.inc_used, hlen]
            · intro code1 h1
              rw [hl, LinkageLocation.register.injEq] at h1
              subst h1
              exact ⟨rfl, fun hn => by rw [hcache] at hn; cases hn⟩
            · intro slot h1
              rw [hl] at h1; cases h1
          · apply param_placed_step (hp j (by omega)) (Nat.le_succ _)
              ⟨[], by simp [PushRegister]⟩
            left
            simp only [PushRegister, CacheState.emplace_back, CacheState.inc_used]
            rw [List.getElem?_append_left (by omega)]
        · rfl
        · rfl
        · rfl
        · rfl
        · exact ⟨[], by simp [PushRegister]⟩
      · have hcache2 : cfg.kGpCacheRegs.contains code = false := by
          simpa using hcache
        apply finish
          { Spill s param_idx code with
            cache_state := (Spill s param_idx code).cache_state.emplace_back .kStack }
        · simp only [push_param, hl, hcache2, Bool.false_eq_true, if_false]
        · simp [Spill, State.emit, CacheState.emplace_back, hlen]
        · exact consistent_emplace_stack hc
        · intro j hj
          by_cases e : j = param_idx
          · subst e
            refine ⟨code, Or.inr ⟨?_, ?_, Or.inl ⟨code, hl, hcache2⟩⟩, ?_, ?_⟩
            · simp [Spill, State.emit, CacheState.emplace_back, hlen]
            · simp [Spill, State.emit]
            · intro code1 h1
              rw [hl, LinkageLocation.register.injEq] at h1
              subst h1
              exact ⟨rfl, fun _ => by simp [Spill, State.emit, CacheState.emplace_back, hlen]⟩
            · intro slot h1
              rw [hl] at h1; cases h1
          · apply param_placed_step (hp j (by omega)) (Nat.le_succ _)
              ⟨[.Spill param_idx code], by simp [Spill, State.emit]⟩
            left
            simp only [Spill, State.emit, CacheState.emplace_back]
            rw [List.getElem?_append_left (by omega)]
        · rfl
        · rfl
        · rfl
        · rfl
        · exact ⟨[.Spill param_idx code], by simp [Spill, State.emit]⟩
    | callerFrameSlot slot =>
      obtain ⟨r0, hr0⟩ := List.exists_mem_of_ne_nil _ hne
      obtain ⟨tmp, s2, hg⟩ := GetUnusedRegister_isSome cfg s (s.local_type param_idx) [] r0 hr0
        (by simp) (mem_of_count_ne_zero hc r0)
      have hf := GetUnusedRegister_frame hg
      have hlen2 : s2.cache_state.stack_state.length = param_idx := by
        have := hf.2.2.2.2.2.2
        simp only [CacheState.stack_height] at this
        omega
      obtain ⟨-, ⟨spills, hsp, -⟩, -⟩ := GetUnusedRegister_effect hg
      apply finish (PushRegister (s2.emit (.LoadCallerFrameSlot tmp (-slot))) tmp)
      · simp only [push_param, hl, hg]
      · simp [PushRegister, State.emit, CacheState.emplace_back, CacheState.inc_used, hlen2]
      · exact consistent_push_register (GetUnusedRegister_consistent hg hc) tmp
      · intro j hj
        by_cases e : j = param_idx
        · subst e
          refine ⟨tmp, Or.inl ?_, ?_, ?_⟩
          · simp [PushRegister, State.emit, CacheState.emplace_back, CacheState.inc_used, hlen2]
          · intro code1 h1
            rw [hl] at h1; cases h1
          · intro slot1 h1
            rw [hl, LinkageLocation.callerFrameSlot.injEq] at h1
            subst h1
            simp [PushRegister, State.emit]
        · have hj2 : j < param_idx := by omega
          have hstep : param_placed cfg entry s2 (param_idx + 1) j := by
            apply param_placed_step (hp j hj2) (Nat.le_succ _) ⟨spills, hsp⟩
            rcases GetUnusedRegister_slot hg j with k | ⟨k1, k2, k3, k4⟩
            · exact Or.inl k
            · exact Or.inr ⟨tmp, k1, k2, k3, param_idx, slot, s, s2, hj2, Nat.lt_succ_self _, hl,
                hreach, k4, k1, hg⟩
          apply param_placed_step hstep (Nat.le_refl _)
            ⟨[.LoadCallerFrameSlot tmp (-slot)], by simp [PushRegister, State.emit]⟩
          left
          simp only [PushRegister, State.emit, CacheState.emplace_back, CacheState.inc_used]
          rw [List.getElem?_append_left (by omega)]
      · exact hf.1
      · exact hf.2.1
      · exact hf.2.2.1
      · exact hf.2.2.2.1
      · exact ⟨spills ++ [.LoadCallerFrameSlot tmp (-slot)], by
          simp [PushRegister, State.emit, hsp]⟩

/-- The call descriptor agrees with the decoder: the parameters (after the
wasm context) are among the locals, each is passed in a register or in a
caller frame slot, and there is a cache register. -/
def Config.descriptor_agrees (cfg : Config) : Prop :=
  1 ≤ cfg.ParameterCount ∧ cfg.ParameterCount ≤ cfg.decoderLocals.length + 1 ∧
  cfg.ParameterCount < 2 ^ 32 ∧
  (∀ i : Nat, i < cfg.ParameterCount - 1 → cfg.GetInputLocation (i + 2) ≠ .other) ∧
  cfg.kGpCacheRegs ≠ []

/-- The state a compilation starts in: no slot, no register in use, no
bail-out, and the function block on the control stack. -/
def State.at_entry (s : State) : Prop :=
  s.cache_state.stack_state = [] ∧ s.cache_state.consistent ∧ s.ok_ = true ∧ s.control ≠ []

theorem StartFunctionBody.num_params_eq (cfg : Config) (h1 : 1 ≤ cfg.ParameterCount)
    (h2 : cfg.ParameterCount < 2 ^ 32) :
    StartFunctionBody.num_params cfg = cfg.ParameterCount - 1 := by
  unfold StartFunctionBody.num_params
  rw [Nat.mod_eq_of_lt h2, if_neg (by omega)]

/-- `StartFunctionBody` on a function whose locals are all i32, written out. -/
theorem StartFunctionBody_i32 (cfg : Config) (s : State)
    (hdesc : cfg.descriptor_agrees) (hentry : s.at_entry)
    (hn : s.num_locals = cfg.decoderLocals.length)
    (ht : ∀ i : Nat, i < s.num_locals → s.local_type i = .kWasmI32)
    (hi32 : ∀ t ∈ cfg.decoderLocals, t = .kWasmI32) :
    ∃ (s2 : State) (block : Control),
      push_params cfg ((s.emit Instr.EnterFrame).emit
        (Instr.ReserveStackSpace (cfg.kPointerSize * (s.num_locals + kMaxValueStackHeight)))) 0
        (cfg.ParameterCount - 1) = some s2 ∧
      s.control[0]? = some block ∧
      s2.cache_state.stack_state.length = cfg.ParameterCount - 1 ∧
      (∀ j : Nat, j < cfg.ParameterCount - 1 →
        param_placed cfg ((s.emit Instr.EnterFrame).emit
          (Instr.ReserveStackSpace (cfg.kPointerSize * (s.num_locals + kMaxValueStackHeight))))
          s2 (cfg.ParameterCount - 1) j) ∧
      s2.ok_ = true ∧ s2.num_locals = s.num_locals ∧ s2.control = s.control ∧
      StartFunctionBody cfg s = some
        ({ s2 with
            cache_state :=
              { s2.cache_state with
                stack_state := s2.cache_state.stack_state ++
                  List.replicate (s.num_locals - (cfg.ParameterCount - 1)) (VarState.kConstant 0) }
          }.set_control 0
            { block with label_state := { block.label_state with stack_base := s.num_locals } })
        := by
  obtain ⟨hp1, hp2, hp3, hloc, hne⟩ := hdesc
  obtain ⟨hempty, hcons, hok, hctl⟩ := hentry
  obtain ⟨block, hblock⟩ : ∃ block, s.control[0]? = some block := by
    cases hcl : s.control with
    | nil => exact absurd hcl hctl
    | cons b rest => exact ⟨b, by simp⟩
  obtain ⟨s2, g1, g2, g3, g4, g5, g6, g7, g8, g9⟩ := push_params_placed cfg
    ((s.emit Instr.EnterFrame).emit
      (Instr.ReserveStackSpace (cfg.kPointerSize * (s.num_locals + kMaxValueStackHeight)))) hne
    (cfg.ParameterCount - 1)
    ((s.emit Instr.EnterFrame).emit
      (Instr.ReserveStackSpace (cfg.kPointerSize * (s.num_locals + kMaxValueStackHeight)))) 0
    rfl (by simp [State.emit, hempty]) (by simpa [State.emit] using hcons)
    (fun i _ h2 => hloc i (by omega)) (fun j hj => by omega)
  have g2b : s2.cache_state.stack_state.length = cfg.ParameterCount - 1 := by omega
  have g7b : s2.num_locals = s.num_locals := by simpa [State.emit] using g7
  have g8b : s2.control = s.control := by simpa [State.emit] using g8
  have g5b : s2.ok_ = true := by rw [g5]; simpa [State.emit] using hok
  have hlocals := push_locals_i32 cfg (s.num_locals - (cfg.ParameterCount - 1)) s2
    (cfg.ParameterCount - 1) (by
      intro i h1 h2
      have hlt : i < cfg.decoderLocals.length := by omega
      rw [List.getElem?_eq_getElem hlt]
      exact congrArg some (hi32 _ (List.getElem_mem hlt)))
  have hnon : has_non_i32_local s.local_type 0 s.num_locals = false :=
    (has_non_i32_local_eq_false s.local_type s.num_locals 0).mpr (fun i _ h2 => ht i (by omega))
  refine ⟨s2, block, g1, hblock, g2b, fun j hj => by
    have := g4 j (by omega)
    rw [Nat.zero_add] at this
    exact this, g5b, g7b, g8b, ?_⟩
  unfold StartFunctionBody
  rw [StartFunctionBody.num_params_eq cfg hp1 hp3]
  simp only [State.emit] at g1 ⊢
  simp only [hnon, Bool.false_eq_true, if_false, g1, g7b, hlocals, g8b, hblock]
  rw [CheckStackSizeLimit_eq]
  have hh : ¬ (s.num_locals + kMaxValueStackHeight
      < (s2.cache_state.stack_state ++
          List.replicate (s.num_locals - (cfg.ParameterCount - 1))
            (VarState.kConstant 0)).length) := by
    simp only [List.length_append, List.length_replicate, g2b]
    omega
  simp only [State.set_control, CacheState.stack_height, g7b, hh, if_false]

/-- A register file with one cache register and a function of two i32
parameters: the first passed in cache register 0, the second in a caller frame
slot. -/
def oneCacheRegisterEntry : Config :=
  { DEBUG := false
    kGpCacheRegs := [0]
    ParameterCount := 3
    GetInputLocation := fun i => if i = 2 then .register 0 else .callerFrameSlot 1
    decoderLocals := [.kWasmI32, .kWasmI32] }

theorem oneOpenBlock_at_entry : oneOpenBlock.at_entry := by
  refine ⟨rfl, ?_, rfl, by simp [oneOpenBlock]⟩
  intro reg
  simp [oneOpenBlock, CacheState.slot_count]

theorem oneCacheRegisterEntry_descriptor_agrees : oneCacheRegisterEntry.descriptor_agrees := by
  refine ⟨by decide, by decide, by norm_num [oneCacheRegisterEntry], ?_, by decide⟩
  intro i hi
  have hi2 : i < 2 := hi
  rcases i with _ | _ | i
  · decide
  · decide
  · omega

/-- C22, as stated, fails for a parameter passed in a cache register:
parameter 0 arrives in cache register 0, and loading parameter 1 from its
caller frame slot finds no free cache register, so register 0 is spilled to
frame slot 0 and the slot of parameter 0 ends spilled. -/
theorem C22_register_parameter_ends_spilled :
    (∀ t ∈ oneCacheRegisterEntry.decoderLocals, t = .kWasmI32) ∧
    oneCacheRegisterEntry.descriptor_agrees ∧ oneOpenBlock.at_entry ∧
    oneCacheRegisterEntry.GetInputLocation 2 = .register 0 ∧
    oneCacheRegisterEntry.kGpCacheRegs.contains 0 = true ∧
    (StartFunctionBody oneCacheRegisterEntry
      (StartFunction oneCacheRegisterEntry oneOpenBlock)).map
        (fun s => s.cache_state.stack_state) = some [.kStack, .kRegister 0] ∧
    (StartFunctionBody oneCacheRegisterEntry
      (StartFunction oneCacheRegisterEntry oneOpenBlock)).map (fun s => s.code)
        = some [.EnterFrame, .ReserveStackSpace 80, .Spill 0 0, .LoadCallerFrameSlot 0 (-1)] ∧
    (StartFunctionBody oneCacheRegisterEntry
      (StartFunction oneCacheRegisterEntry oneOpenBlock)).map (fun s => s.ok_) = some true := by
  refine ⟨by decide, oneCacheRegisterEntry_descriptor_agrees, oneOpenBlock_at_entry, rfl, rfl, rfl,
    rfl, rfl⟩

/-- The state in which the second loop of `StartFunctionBody` starts: the
frame is entered and the stack space reserved, no slot is pushed yet. -/
def StartFunctionBody.prologue (cfg : Config) (s : State) : State :=
  (s.emit .EnterFrame).emit
    (.ReserveStackSpace (cfg.kPointerSize * (s.num_locals + kMaxValueStackHeight)))

/-- C22 (amended): on an implemented platform, `StartFunction` followed by
`StartFunctionBody`.
(1) When every parameter and declared local is an i32, the call descriptor
agrees with the decoder and the state is the one a compilation starts in, the
call returns with `ok` still true and exactly `num_locals` slots.  Every
parameter `i` is placed: its slot holds a register; or it is spilled, a store
of its register to frame slot `i` has been emitted, and either the parameter
was passed in a register that is no cache register, or a later parameter was
loaded from a caller frame slot in a state with no free cache register and
`GetUnusedRegister` handed out, and so spilled, the register of parameter `i`.
A parameter passed in a register is in that register, spilled when the
register is no cache register; a parameter passed in a caller frame slot has
been loaded into its register.  Every declared local after the parameters is
the constant 0, and the function block's `stack_base` is `num_locals`.
(2) When some parameter or local is not an i32, the call bails out: `ok` is
false, the reason is reported and the cache state is untouched. -/
theorem C22_function_entry_state (cfg : Config) (s0 : State)
    (hplat : cfg.kLiftoffAssemblerImplementedOnThisPlatform = true) :
    ((∀ t ∈ cfg.decoderLocals, t = .kWasmI32) → cfg.descriptor_agrees → s0.at_entry →
      ∃ s1 : State, StartFunctionBody cfg (StartFunction cfg s0) = some s1 ∧
        s1.ok_ = true ∧ s1.num_locals = cfg.decoderLocals.length ∧
        s1.cache_state.stack_height = s1.num_locals ∧
        (∀ j : Nat, j < cfg.ParameterCount - 1 →
          param_placed cfg (StartFunctionBody.prologue cfg (StartFunction cfg s0)) s1
            (cfg.ParameterCount - 1) j) ∧
        (∀ i : Nat, cfg.ParameterCount - 1 ≤ i → i < s1.num_locals →
          s1.cache_state.stack_state[i]? = some (.kConstant 0)) ∧
        (s1.control[0]?).map (fun c => c.label_state.stack_base) = some s1.num_locals) ∧
    ((∃ t ∈ cfg.decoderLocals, t ≠ .kWasmI32) →
      ∃ s1 : State, StartFunctionBody cfg (StartFunction cfg s0) = some s1 ∧
        s1.ok_ = false ∧ s1.cache_state = s0.cache_state ∧
        s1.errors = s0.errors ++ ["non-i32 param/local"]) := by
  have hsf : StartFunction cfg s0 =
      { s0 with num_locals := cfg.decoderLocals.length
                local_type := set_local_types s0.local_type 0 cfg.decoderLocals } := by
    simp [StartFunction, hplat]
  have htype : ∀ (i : Nat) (t : ValueType), cfg.decoderLocals[i]? = some t →
      (StartFunction cfg s0).local_type i = t := by
    intro i t hi
    rw [hsf]
    have := set_local_types_apply cfg.decoderLocals s0.local_type 0 i t hi
    rw [Nat.zero_add] at this
    exact this
  constructor
  · intro hi32 hdesc hentry
    have hp1 := hdesc.1
    have hp2 := hdesc.2.1
    have hn : (StartFunction cfg s0).num_locals = cfg.decoderLocals.length := by rw [hsf]
    have hctl : (StartFunction cfg s0).control = s0.control := by rw [hsf]
    obtain ⟨s2, block, -, hblock, g2, g4, g5, g7, g8, hB⟩ :=
      StartFunctionBody_i32 cfg (StartFunction cfg s0) hdesc
        (by rw [hsf]; exact hentry) hn
        (by
          intro i hi
          have hlt : i < cfg.decoderLocals.length := by omega
          apply htype i
          rw [List.getElem?_eq_getElem hlt]
          exact congrArg some (hi32 _ (List.getElem_mem hlt)))
        hi32
    have hlt0 : 0 < s2.control.length := by
      rw [g8]
      exact (List.getElem?_eq_some_iff.mp hblock).1
    refine ⟨_, hB, ?_, ?_, ?_, ?_, ?_, ?_⟩
    · simpa [State.set_control] using g5
    · simp [State.set_control, g7, hn]
    · simp only [State.set_control, CacheState.stack_height, List.length_append,
        List.length_replicate, g2, g7, hn]
      omega
    · intro j hj
      apply param_placed_step (g4 j hj) (Nat.le_refl _) ⟨[], by simp [State.set_control]⟩
      left
      simp only [State.set_control]
      rw [List.getElem?_append_left (by omega)]
    · intro i h1 h2
      simp only [State.set_control, g7, hn] at h2 ⊢
      rw [List.getElem?_append_right (by omega), g2]
      rw [List.getElem?_replicate]
      have : i - (cfg.ParameterCount - 1)
          < cfg.decoderLocals.length - (cfg.ParameterCount - 1) := by omega
      simp [this]
    · simp only [State.set_control]
      rw [List.getElem?_set_self hlt0]
      simp [g7]
  · intro hnon
    obtain ⟨t, htm, hne⟩ := hnon
    obtain ⟨i, hi⟩ := List.mem_iff_getElem?.mp htm
    have hlt : i < cfg.decoderLocals.length := (List.getElem?_eq_some_iff.mp hi).1
    have hb : has_non_i32_local (StartFunction cfg s0).local_type 0
        (StartFunction cfg s0).num_locals = true := by
      cases hb : has_non_i32_local (StartFunction cfg s0).local_type 0
          (StartFunction cfg s0).num_locals with
      | true => rfl
      | false =>
        have hall := (has_non_i32_local_eq_false _ _ 0).mp hb i (Nat.zero_le _)
          (by rw [hsf]; simp only; omega)
        rw [htype i t hi] at hall
        exact absurd hall hne
    refine ⟨unsupported cfg (((StartFunction cfg s0).emit .EnterFrame).emit
      (.ReserveStackSpace (cfg.kPointerSize *
        ((StartFunction cfg s0).num_locals + kMaxValueStackHeight)))) "non-i32 param/local",
      ?_, ?_, ?_, ?_⟩
    · unfold StartFunctionBody
      simp only [State.emit] at hb ⊢
      simp only [hb, if_true]
    · exact (unsupported_clean cfg _ _).1
    · rw [(unsupported_clean cfg _ _).2.1, hsf]
      rfl
    · rw [unsupported_eq, hsf]
      rfl

/-- A function of three i32 locals, two of them parameters: the first passed
in cache register 0, the second in register 7, which is no cache register. -/
def twoParamEntry : Config :=
  { DEBUG := false
    kGpCacheRegs := [0, 1, 2]
    ParameterCount := 3
    GetInputLocation := fun i => if i = 2 then .register 0 else if i = 3 then .register 7 else .other
    decoderLocals := [.kWasmI32, .kWasmI32, .kWasmI32] }

theorem twoParamEntry_descriptor_agrees : twoParamEntry.descriptor_agrees := by
  refine ⟨by decide, by decide, by norm_num [twoParamEntry], ?_, by decide⟩
  intro i hi
  have hi2 : i < 2 := hi
  rcases i with _ | _ | i
  · decide
  · decide
  · omega

/-- C22 at two concrete inputs.  With three cache registers, parameter 0
stays in cache register 0 and parameter 1, passed in register 7, is spilled.
With one cache register, parameter 0 ends spilled because the load of
parameter 1 from its caller frame slot found no free cache register. -/
theorem C22_function_entry_state_witness :
    (StartFunctionBody twoParamEntry (StartFunction twoParamEntry oneOpenBlock)).map
      (fun s => s.cache_state.stack_state) = some [.kRegister 0, .kStack, .kConstant 0] ∧
    (StartFunctionBody twoParamEntry (StartFunction twoParamEntry oneOpenBlock)).map
      (fun s => s.code) = some [.EnterFrame, .ReserveStackSpace 88, .Spill 1 7] ∧
    (∃ s1 : State,
      StartFunctionBody twoParamEntry (StartFunction twoParamEntry oneOpenBlock) = some s1 ∧
      s1.ok_ = true ∧ s1.cache_state.stack_height = s1.num_locals ∧
      (s1.control[0]?).map (fun c => c.label_state.stack_base) = some s1.num_locals) ∧
    ∃ (s1 : State) (r : Register),
      StartFunctionBody oneCacheRegisterEntry
        (StartFunction oneCacheRegisterEntry oneOpenBlock) = some s1 ∧
      s1.cache_state.stack_state = [.kStack, .kRegister 0] ∧
      Instr.Spill 0 r ∈ s1.code ∧
      later_load_spilled oneCacheRegisterEntry
        (StartFunctionBody.prologue oneCacheRegisterEntry
          (StartFunction oneCacheRegisterEntry oneOpenBlock)) 0 r 2 :=
  ⟨rfl, rfl, by
    obtain ⟨s1, h1, h2, _, h3, _, _, h4⟩ :=
      (C22_function_entry_state twoParamEntry oneOpenBlock rfl).1 (by decide)
        twoParamEntry_descriptor_agrees oneOpenBlock_at_entry
    exact ⟨s1, h1, h2, h3, h4⟩, by
    obtain ⟨s1, h1, _, _, _, hp, _, _⟩ :=
      (C22_function_entry_state oneCacheRegisterEntry oneOpenBlock rfl).1 (by decide)
        oneCacheRegisterEntry_descriptor_agrees oneOpenBlock_at_entry
    have e : (StartFunctionBody oneCacheRegisterEntry
        (StartFunction oneCacheRegisterEntry oneOpenBlock)).map
          (fun s => s.cache_state.stack_state) = some [.kStack, .kRegister 0] := rfl
    rw [h1] at e
    have e2 : s1.cache_state.stack_state = [.kStack, .kRegister 0] := Option.some.inj e
    obtain ⟨r, hr, _, _⟩ := hp 0 (by decide)
    rcases hr with a | ⟨_, b, ⟨code, hc, hn⟩ | hl⟩
    · rw [e2] at a
      cases a
    · have hc2 : LinkageLocation.register 0 = .register code := hc
      rw [LinkageLocation.register.injEq] at hc2
      subst hc2
      exact absurd hn (by decide)
    · exact ⟨s1, r, h1, e2, b, hl⟩⟩

/-! ## The slots stay inside the reserved frame -/

/-- A cache state fits the frame of a function with `num_locals` locals: it
holds the locals at least, and while compilation has not bailed out at most
`kMaxValueStackHeight` operand slots above them. -/
def CacheState.in_frame (cs : CacheState) (num_locals : Nat) (ok : Bool) : Prop :=
  num_locals ≤ cs.stack_height ∧
    (ok = true → cs.stack_height ≤ num_locals + kMaxValueStackHeight)

/-- Every label state on the control stack is still empty (no branch or
fallthrough has established it) or fits the frame. -/
def State.controls_in_frame (s : State) : Prop :=
  ∀ c ∈ s.control,
    c.label_state.stack_state = [] ∨ c.label_state.in_frame s.num_locals s.ok_

/-- The ambient cache state and the established label states fit the frame. -/
def State.in_frame (s : State) : Prop :=
  s.cache_state.in_frame s.num_locals s.ok_ ∧ s.controls_in_frame

/-- No cache state of the compilation, ambient or label state, is higher than
`bound`. -/
def State.capped (s : State) (bound : Nat) : Prop :=
  s.cache_state.stack_height ≤ bound ∧ ∀ c ∈ s.control, c.label_state.stack_height ≤ bound

theorem OnFirstError_capped (cfg : Config) (s : State) {bound : Nat}
    (h : s.capped bound) : (OnFirstError cfg s).capped bound := by
  rw [OnFirstError_eq]
  refine ⟨h.1, ?_⟩
  intro c hm
  dsimp only at hm
  split at hm
  · obtain ⟨c0, hc0, rfl⟩ := List.mem_map.mp hm
    exact h.2 c0 hc0
  · exact h.2 c hm

end Liftoff
